import Mathlib

/-!
# MSER estimator and steady-state detector

A shallow embedding of `src/src/mser.cpp` and `src/src/steady_state_detector.cpp`.

Modelling conventions.

* `double` is `Dbl`: a rational number or one of the three IEEE special values.  Zero carries no
  sign.  The operations `Dbl.add`, `Dbl.sub`, `Dbl.mul` and `Dbl.div` give the exact result on
  finite values (no rounding, no overflow to infinity) and follow the IEEE rules on the special
  values.
* The program is embedded twice.  The functions `calculateMSER1`, `calculateMSERm`, ... use the
  exact operations: they are the program where no operation rounds or overflows.  The functions
  of the namespace `Rounded` take the rounding `rnd` of the arithmetic as a parameter and round the
  exact result of every operation and of every conversion of a `size_t`; with `Dbl.round64`, the
  rounding to the nearest binary64 number (ties to even, overflow to infinity, gradual underflow),
  they are the program in IEEE double arithmetic, and with `Dbl.fin` they are the exact ones.
* `size_t` is `Nat`.  The size of a `std::vector` is the length of the list that models it.
  Unsigned arithmetic that can leave the range of a 64-bit `size_t` is reduced modulo `2 ^ 64`
  explicitly (`batchSize * 2`, `effectiveN * effectiveN`, `data_.size() - lastCheckIndex_`);
  arithmetic that is bounded by the size of a vector is left as it is.
* `std::string reason` is the enumeration `Reason` of the string literals the program assigns.
-/

namespace mser

/-! ## Doubles -/

/-- A `double`: a finite value, `+∞`, `-∞` or NaN. -/
inductive Dbl where
  | fin (q : ℚ)
  | pinf
  | ninf
  | nan
  deriving DecidableEq

namespace Dbl

/-- Conversion of a `size_t` to `double`, exact. -/
def ofNat (n : Nat) : Dbl := fin (n : ℚ)

/-- The literal `0.0`. -/
def zero : Dbl := fin 0

/-- The function `std::isfinite`. -/
def isfinite : Dbl → Bool
  | fin _ => true
  | _ => false

/-- Unary minus. -/
def neg : Dbl → Dbl
  | fin a => fin (-a)
  | pinf => ninf
  | ninf => pinf
  | nan => nan

/-- The exact sum of two doubles: the rational sum of two finite values, no rounding and no
overflow; the IEEE rules on the special values. -/
def add : Dbl → Dbl → Dbl
  | fin a, fin b => fin (a + b)
  | nan, _ => nan
  | _, nan => nan
  | pinf, ninf => nan
  | ninf, pinf => nan
  | pinf, _ => pinf
  | _, pinf => pinf
  | ninf, _ => ninf
  | _, ninf => ninf

/-- The exact difference of two doubles. -/
def sub (a b : Dbl) : Dbl := add a (neg b)

/-- The infinity that has the sign of the product of two non-zero factors. -/
def signedInf (positive : Bool) : Dbl := if positive then pinf else ninf

/-- The exact product of two doubles: the rational product of two finite values, no rounding, no
overflow and no underflow; the IEEE rules on the special values. -/
def mul : Dbl → Dbl → Dbl
  | fin a, fin b => fin (a * b)
  | nan, _ => nan
  | _, nan => nan
  | fin a, pinf => if a = 0 then nan else signedInf (decide (0 < a))
  | fin a, ninf => if a = 0 then nan else signedInf (decide (a < 0))
  | pinf, fin b => if b = 0 then nan else signedInf (decide (0 < b))
  | ninf, fin b => if b = 0 then nan else signedInf (decide (b < 0))
  | pinf, pinf => pinf
  | ninf, ninf => pinf
  | pinf, ninf => ninf
  | ninf, pinf => ninf

/-- The exact quotient of two doubles: the rational quotient of two finite values when the
divisor is not zero, no rounding; the IEEE rules on a zero divisor and on the special values. -/
def div : Dbl → Dbl → Dbl
  | fin a, fin b =>
      if b = 0 then (if a = 0 then nan else signedInf (decide (0 < a))) else fin (a / b)
  | nan, _ => nan
  | _, nan => nan
  | fin _, pinf => fin 0
  | fin _, ninf => fin 0
  | pinf, fin b => signedInf (decide (0 ≤ b))
  | ninf, fin b => signedInf (decide (b < 0))
  | pinf, pinf => nan
  | pinf, ninf => nan
  | ninf, pinf => nan
  | ninf, ninf => nan

/-- The comparison `a < b` of doubles (false as soon as one side is NaN). -/
def lt : Dbl → Dbl → Bool
  | fin a, fin b => decide (a < b)
  | nan, _ => false
  | _, nan => false
  | ninf, ninf => false
  | ninf, _ => true
  | _, ninf => false
  | pinf, _ => false
  | fin _, pinf => true

/-- The comparison `a <= b` of doubles (false as soon as one side is NaN). -/
def le : Dbl → Dbl → Bool
  | fin a, fin b => decide (a ≤ b)
  | nan, _ => false
  | _, nan => false
  | ninf, _ => true
  | _, pinf => true
  | pinf, _ => false
  | fin _, ninf => false

instance : Zero Dbl := ⟨zero⟩
instance : NatCast Dbl := ⟨ofNat⟩
instance : Add Dbl := ⟨add⟩
instance : Sub Dbl := ⟨sub⟩
instance : Mul Dbl := ⟨mul⟩
instance : Div Dbl := ⟨div⟩

end Dbl

/-! ## Rounding -/

namespace Dbl

/-- The integer nearest to `x`; the even one of the two nearest when `x` is half-way between
them. -/
def roundHalfEven (x : ℚ) : ℤ :=
  if x - ⌊x⌋ < 1 / 2 then ⌊x⌋
  else if 1 / 2 < x - ⌊x⌋ then ⌊x⌋ + 1
  else if ⌊x⌋ % 2 = 0 then ⌊x⌋ else ⌊x⌋ + 1

/-- The binary exponent of the binade of a magnitude `a > 0`: `⌊log₂ a⌋`, and `-1022` for the
subnormal magnitudes. -/
def exponent (a : ℚ) : ℤ := max (Int.log 2 a) (-1022)

/-- The magnitude `a > 0` rounded to the nearest multiple of its unit in the last place
`2 ^ (e - 52)`, ties to the even multiple. -/
def roundMagnitude (a : ℚ) : ℚ :=
  roundHalfEven (a / 2 ^ (exponent a - 52)) * 2 ^ (exponent a - 52)

/-- The binary64 value of a real result (round to nearest, ties to even): the nearest number with
a 53-bit significand and an exponent between `-1022` and `1023`, `±∞` when that number would be
`2 ^ 1024` or more in magnitude. -/
def round64 (q : ℚ) : Dbl :=
  if q = 0 then fin 0
  else if 2 ^ 1024 ≤ roundMagnitude |q| then signedInf (decide (0 < q))
  else fin (if 0 < q then roundMagnitude |q| else -roundMagnitude |q|)

/-- The result of an operation whose exact result is given: a finite result is rounded by `rnd`,
a special value stays. -/
def rounded (rnd : ℚ → Dbl) : Dbl → Dbl
  | fin q => rnd q
  | pinf => pinf
  | ninf => ninf
  | nan => nan

/-- The square root of `q ≥ 0` cut to a multiple of `1 / (q.den * 2 ^ 2800)`, that is after 2800
binary digits at least (exact when the root is such a multiple).  The root of a binary64 value is
not half-way between two binary64 values, and these half-way points are such multiples, so that
rounding the cut root is rounding the root. -/
def rootApprox (q : ℚ) : ℚ :=
  (Nat.sqrt (q.num.toNat * q.den * 4 ^ 2800) : ℚ) / ((q.den : ℚ) * 2 ^ 2800)

/-- The function `std::sqrt`: the rounded square root. -/
def sqrt (rnd : ℚ → Dbl) : Dbl → Dbl
  | fin q => if q < 0 then nan else rnd (rootApprox q)
  | pinf => pinf
  | ninf => nan
  | nan => nan

end Dbl

/-! ## `types.h` -/

/-- A series of samples, `std::vector<double>`. -/
abbrev TimeSeriesData := List Dbl

/-- The enumeration `MSERVariant`. -/
inductive MSERVariant where
  | MSER_1
  | MSER_5
  | MSER_M
  deriving DecidableEq

/-- The string literals that the program stores in `MSERResult::reason`.

* `empty`: the empty string of a default-constructed result;
* `insufficientData`: "データが不十分または無効です" (`calculateMSER1`; insufficient-data);
* `insufficientBatchData`: "バッチ処理に必要なデータが不十分です" (`calculateMSERm`;
  insufficient-batch-data);
* `insufficientBatches`: "バッチ数が不十分です" (`calculateMSERm`; insufficient-batches);
* `ok`: "収束しました" (success);
* `notConverged`: "収束しませんでした" (the search found no finite value);
* `maxSamplesExhausted`: "最大サンプル数に達しましたが収束しませんでした" (detector;
  max-samples-exhausted). -/
inductive Reason where
  | empty
  | insufficientData
  | insufficientBatchData
  | insufficientBatches
  | ok
  | notConverged
  | maxSamplesExhausted
  deriving DecidableEq

/-- The record `MSERResult`. -/
structure MSERResult where
  truncationPoint : Nat
  mserValue : Dbl
  converged : Bool
  reason : Reason
  totalSamples : Nat
  batchCount : Nat
  variant : MSERVariant
  deriving DecidableEq

/-- The default constructor `MSERResult()`. -/
def MSERResult.init : MSERResult :=
  ⟨0, Dbl.fin 0, false, Reason.empty, 0, 0, MSERVariant.MSER_5⟩

/-- The record `SteadyStateConfig`. -/
structure SteadyStateConfig where
  variant : MSERVariant
  batchSize : Nat
  minSamples : Nat
  maxSamples : Nat
  convergenceThreshold : Dbl
  checkInterval : Nat
  enableWarming : Bool
  warmingSteps : Nat
  deriving DecidableEq

/-- The default member initialisers of `SteadyStateConfig`. -/
def SteadyStateConfig.init : SteadyStateConfig :=
  ⟨MSERVariant.MSER_5, 5, 100, 10000, Dbl.fin (1 / 100), 50, true, 50⟩

/-- The record `Statistics`. -/
structure Statistics where
  mean : Dbl
  variance : Dbl
  standardError : Dbl
  sampleCount : Nat
  deriving DecidableEq

/-- The default constructor `Statistics()`. -/
def Statistics.init : Statistics := ⟨Dbl.fin 0, Dbl.fin 0, Dbl.fin 0, 0⟩

/-- The record `BatchStatistics`. -/
structure BatchStatistics where
  batchMeans : TimeSeriesData
  originalSampleCount : Nat
  batchSize : Nat
  deriving DecidableEq

/-! ## `mser.cpp` -/

/-- The number of values of a 64-bit `size_t`. -/
def sizeModulus : Nat := 2 ^ 64

/-- The loop `for (i = startIndex; i < endIndex; ++i) sum += data[i]` started at `0.0`. -/
def sumRange (data : TimeSeriesData) (startIndex endIndex : Nat) : Dbl :=
  (List.range' startIndex (endIndex - startIndex)).foldl
    (fun sum i => sum.add (data.getD i Dbl.zero)) Dbl.zero

/-- The function `MSER::calculateMean`. -/
def calculateMean (data : TimeSeriesData) (startIndex endIndex : Nat) : Dbl :=
  if startIndex ≥ endIndex ∨ endIndex > data.length then Dbl.zero
  else (sumRange data startIndex endIndex).div (Dbl.ofNat (endIndex - startIndex))

/-- The function `MSER::validateData`. -/
def validateData (data : TimeSeriesData) (minRequiredSize : Nat) : Bool :=
  if data.length < minRequiredSize then false
  else data.all Dbl.isfinite

/-- The loop of `calculateMSERValue` and `calculateStatistics` that accumulates the squared
deviations from `mean` over the index range `[startIndex, endIndex)`. -/
def sumSquaredDeviations (data : TimeSeriesData) (mean : Dbl) (startIndex endIndex : Nat) : Dbl :=
  (List.range' startIndex (endIndex - startIndex)).foldl
    (fun sum j =>
      let deviation := (data.getD j Dbl.zero).sub mean
      sum.add (deviation.mul deviation)) Dbl.zero

/-- The function `MSER::calculateMSERValue`. -/
def calculateMSERValue (data : TimeSeriesData) (truncationPoint : Nat) : Dbl :=
  let n := data.length
  if truncationPoint ≥ n ∨ n - truncationPoint < 2 then Dbl.pinf
  else
    let effectiveN := n - truncationPoint
    let mean := calculateMean data truncationPoint n
    let s := sumSquaredDeviations data mean truncationPoint n
    s.div (Dbl.ofNat ((effectiveN * effectiveN) % sizeModulus))

/-- One iteration of the search loop of `findOptimalTruncationPoint`; the state is
`(optimalK, minMSER)`. -/
def searchStep (data : TimeSeriesData) (st : Nat × Dbl) (k : Nat) : Nat × Dbl :=
  let mser := calculateMSERValue data k
  if mser.lt st.2 then (k, mser) else st

/-- The function `MSER::findOptimalTruncationPoint`. -/
def findOptimalTruncationPoint (data : TimeSeriesData) : Nat × Dbl :=
  let n := data.length
  let maxK := n / 2
  if maxK < 2 then (0, Dbl.pinf)
  else (List.range maxK).foldl (searchStep data) (0, Dbl.pinf)

/-- The function `MSER::createBatchMeans`. -/
def createBatchMeans (data : TimeSeriesData) (batchSize : Nat) : TimeSeriesData :=
  if batchSize = 0 then []
  else
    let numFullBatches := data.length / batchSize
    (List.range numFullBatches).map fun i =>
      let startIdx := i * batchSize
      let endIdx := startIdx + batchSize
      (sumRange data startIdx endIdx).div (Dbl.ofNat batchSize)

/-- The function `MSER::calculateMSER1`. -/
def calculateMSER1 (data : TimeSeriesData) : MSERResult :=
  let result := { MSERResult.init with variant := MSERVariant.MSER_1, totalSamples := data.length }
  if !validateData data 10 then
    { result with converged := false, reason := Reason.insufficientData }
  else
    let p := findOptimalTruncationPoint data
    let converged := p.2.lt Dbl.pinf
    { result with
      truncationPoint := p.1
      mserValue := p.2
      converged := converged
      reason := if converged then Reason.ok else Reason.notConverged }

/-- The function `MSER::calculateMSERm`. -/
def calculateMSERm (data : TimeSeriesData) (batchSize : Nat) : MSERResult :=
  let result := { MSERResult.init with
    variant := if batchSize = 5 then MSERVariant.MSER_5 else MSERVariant.MSER_M
    totalSamples := data.length }
  if !validateData data ((batchSize * 2) % sizeModulus) then
    { result with converged := false, reason := Reason.insufficientBatchData }
  else
    let batchMeans := createBatchMeans data batchSize
    let result := { result with batchCount := batchMeans.length }
    if batchMeans.length < 10 then
      { result with converged := false, reason := Reason.insufficientBatches }
    else
      let p := findOptimalTruncationPoint batchMeans
      let converged := p.2.lt Dbl.pinf
      { result with
        truncationPoint := p.1
        mserValue := p.2
        converged := converged
        reason := if converged then Reason.ok else Reason.notConverged }

/-- The function `MSER::calculateMSER5`. -/
def calculateMSER5 (data : TimeSeriesData) : MSERResult :=
  calculateMSERm data 5

/-- The function `MSER::calculate`. -/
def calculate (data : TimeSeriesData) (config : SteadyStateConfig) : MSERResult :=
  match config.variant with
  | MSERVariant.MSER_1 => calculateMSER1 data
  | MSERVariant.MSER_5 => calculateMSER5 data
  | MSERVariant.MSER_M => calculateMSERm data config.batchSize

/-- The function `MSER::calculateBatchStatistics`. -/
def calculateBatchStatistics (data : TimeSeriesData) (batchSize : Nat) : BatchStatistics :=
  { batchMeans := createBatchMeans data batchSize
    originalSampleCount := data.length
    batchSize := batchSize }

/-! ## `mser.cpp` in an arithmetic that rounds -/

namespace Rounded

/-- The loop `for (i = startIndex; i < endIndex; ++i) sum += data[i]` started at `0.0`. -/
def sumRange (rnd : ℚ → Dbl) (data : TimeSeriesData) (startIndex endIndex : Nat) : Dbl :=
  (List.range' startIndex (endIndex - startIndex)).foldl
    (fun sum i => (sum.add (data.getD i Dbl.zero)).rounded rnd) Dbl.zero

/-- The function `MSER::calculateMean`. -/
def calculateMean (rnd : ℚ → Dbl) (data : TimeSeriesData) (startIndex endIndex : Nat) : Dbl :=
  if startIndex ≥ endIndex ∨ endIndex > data.length then Dbl.zero
  else ((sumRange rnd data startIndex endIndex).div
    (rnd ((endIndex - startIndex : Nat) : ℚ))).rounded rnd

/-- The loop of `calculateMSERValue` and `calculateStatistics` that accumulates the squared
deviations from `mean` over the index range `[startIndex, endIndex)`. -/
def sumSquaredDeviations (rnd : ℚ → Dbl) (data : TimeSeriesData) (mean : Dbl)
    (startIndex endIndex : Nat) : Dbl :=
  (List.range' startIndex (endIndex - startIndex)).foldl
    (fun sum j =>
      let deviation := ((data.getD j Dbl.zero).sub mean).rounded rnd
      (sum.add ((deviation.mul deviation).rounded rnd)).rounded rnd) Dbl.zero

/-- The function `MSER::calculateMSERValue`. -/
def calculateMSERValue (rnd : ℚ → Dbl) (data : TimeSeriesData) (truncationPoint : Nat) : Dbl :=
  let n := data.length
  if truncationPoint ≥ n ∨ n - truncationPoint < 2 then Dbl.pinf
  else
    let effectiveN := n - truncationPoint
    let mean := calculateMean rnd data truncationPoint n
    let s := sumSquaredDeviations rnd data mean truncationPoint n
    (s.div (rnd (((effectiveN * effectiveN) % sizeModulus : Nat) : ℚ))).rounded rnd

/-- One iteration of the search loop of `findOptimalTruncationPoint`; the state is
`(optimalK, minMSER)`. -/
def searchStep (rnd : ℚ → Dbl) (data : TimeSeriesData) (st : Nat × Dbl) (k : Nat) : Nat × Dbl :=
  let mser := calculateMSERValue rnd data k
  if mser.lt st.2 then (k, mser) else st

/-- The function `MSER::findOptimalTruncationPoint`. -/
def findOptimalTruncationPoint (rnd : ℚ → Dbl) (data : TimeSeriesData) : Nat × Dbl :=
  let n := data.length
  let maxK := n / 2
  if maxK < 2 then (0, Dbl.pinf)
  else (List.range maxK).foldl (searchStep rnd data) (0, Dbl.pinf)

/-- The function `MSER::createBatchMeans`. -/
def createBatchMeans (rnd : ℚ → Dbl) (data : TimeSeriesData) (batchSize : Nat) :
    TimeSeriesData :=
  if batchSize = 0 then []
  else
    let numFullBatches := data.length / batchSize
    (List.range numFullBatches).map fun i =>
      let startIdx := i * batchSize
      let endIdx := startIdx + batchSize
      ((sumRange rnd data startIdx endIdx).div (rnd (batchSize : ℚ))).rounded rnd

/-- The function `MSER::calculateMSER1`. -/
def calculateMSER1 (rnd : ℚ → Dbl) (data : TimeSeriesData) : MSERResult :=
  let result := { MSERResult.init with variant := MSERVariant.MSER_1, totalSamples := data.length }
  if !validateData data 10 then
    { result with converged := false, reason := Reason.insufficientData }
  else
    let p := findOptimalTruncationPoint rnd data
    let converged := p.2.lt Dbl.pinf
    { result with
      truncationPoint := p.1
      mserValue := p.2
      converged := converged
      reason := if converged then Reason.ok else Reason.notConverged }

/-- The function `MSER::calculateMSERm`. -/
def calculateMSERm (rnd : ℚ → Dbl) (data : TimeSeriesData) (batchSize : Nat) : MSERResult :=
  let result := { MSERResult.init with
    variant := if batchSize = 5 then MSERVariant.MSER_5 else MSERVariant.MSER_M
    totalSamples := data.length }
  if !validateData data ((batchSize * 2) % sizeModulus) then
    { result with converged := false, reason := Reason.insufficientBatchData }
  else
    let batchMeans := createBatchMeans rnd data batchSize
    let result := { result with batchCount := batchMeans.length }
    if batchMeans.length < 10 then
      { result with converged := false, reason := Reason.insufficientBatches }
    else
      let p := findOptimalTruncationPoint rnd batchMeans
      let converged := p.2.lt Dbl.pinf
      { result with
        truncationPoint := p.1
        mserValue := p.2
        converged := converged
        reason := if converged then Reason.ok else Reason.notConverged }

/-- The function `MSER::calculateStatistics`. -/
def calculateStatistics (rnd : ℚ → Dbl) (data : TimeSeriesData) (startIndex endIndex : Nat) :
    Statistics :=
  if startIndex ≥ endIndex ∨ endIndex > data.length then Statistics.init
  else
    let n := endIndex - startIndex
    let stats := { Statistics.init with
      sampleCount := n
      mean := calculateMean rnd data startIndex endIndex }
    let s := sumSquaredDeviations rnd data stats.mean startIndex endIndex
    if n > 1 then
      let variance := (s.div (rnd ((n - 1 : Nat) : ℚ))).rounded rnd
      { stats with
        variance := variance
        standardError := Dbl.sqrt rnd ((variance.div (rnd (n : ℚ))).rounded rnd) }
    else stats

end Rounded

/-! ## The sums of the specification in double arithmetic -/

/-- The sum of the samples of `l`, added from left to right in double arithmetic. -/
def roundedSum (rnd : ℚ → Dbl) (l : List Dbl) : Dbl :=
  l.foldl (fun sum x => (sum.add x).rounded rnd) Dbl.zero

/-- The sum of the squared deviations of the samples of `l` from `mean`, each deviation, each
square and each partial sum computed in double arithmetic, from left to right. -/
def roundedSumOfSquares (rnd : ℚ → Dbl) (l : List Dbl) (mean : Dbl) : Dbl :=
  l.foldl (fun sum x =>
    (sum.add ((((x.sub mean).rounded rnd).mul ((x.sub mean).rounded rnd)).rounded rnd)).rounded
      rnd) Dbl.zero

/-! ## `steady_state_detector.cpp` -/

/-- What a call on the detector does besides changing the detector: it invokes the installed
callback with a result, or it runs the estimator (`mserCalculator_->calculate`) on a buffer of
the given size. -/
inductive Event where
  | callback (handle : Nat) (result : MSERResult)
  | estimatorPass (bufferSize : Nat)
  deriving DecidableEq

/-- The members of `SteadyStateDetector`.  The callback is named by a handle; `none` is the empty
`std::function`. -/
structure SteadyStateDetector where
  config_ : SteadyStateConfig
  data_ : TimeSeriesData
  lastResult_ : MSERResult
  converged_ : Bool
  lastCheckIndex_ : Nat
  convergenceCallback_ : Option Nat
  deriving DecidableEq

/-- The outcome of a call: the detector after the call, the value returned, and the events of
the call in the order in which they happened. -/
structure Step where
  det : SteadyStateDetector
  ret : Bool
  events : List Event
  deriving DecidableEq

namespace SteadyStateDetector

/-- The constructor `SteadyStateDetector(config)`. -/
def new (config : SteadyStateConfig) : SteadyStateDetector :=
  { config_ := config
    data_ := []
    lastResult_ := MSERResult.init
    converged_ := false
    lastCheckIndex_ := 0
    convergenceCallback_ := none }

/-- The function `SteadyStateDetector::triggerCallback`. -/
def triggerCallback (d : SteadyStateDetector) (result : MSERResult) : List Event :=
  match d.convergenceCallback_ with
  | some handle => [Event.callback handle result]
  | none => []

/-- The function `SteadyStateDetector::isInWarmingPeriod`. -/
def isInWarmingPeriod (d : SteadyStateDetector) : Bool :=
  if !d.config_.enableWarming then false
  else decide (d.data_.length < d.config_.warmingSteps)

/-- The function `SteadyStateDetector::shouldPerformCheck`. -/
def shouldPerformCheck (d : SteadyStateDetector) : Bool :=
  if d.isInWarmingPeriod then false
  else if d.data_.length < d.config_.minSamples then false
  else
    let samplesSinceLastCheck := (d.data_.length + sizeModulus - d.lastCheckIndex_) % sizeModulus
    decide (samplesSinceLastCheck ≥ d.config_.checkInterval)

/-- The function `SteadyStateDetector::evaluateConvergence`. -/
def evaluateConvergence (d : SteadyStateDetector) (result : MSERResult) : Bool :=
  if !result.converged then false
  else result.mserValue.le d.config_.convergenceThreshold

/-- The function `SteadyStateDetector::checkConvergence`. -/
def checkConvergence (d : SteadyStateDetector) : Step :=
  if d.converged_ then ⟨d, true, []⟩
  else if d.isInWarmingPeriod then ⟨d, false, []⟩
  else if d.data_.length < d.config_.minSamples then ⟨d, false, []⟩
  else
    let d1 := { d with
      lastResult_ := calculate d.data_ d.config_
      lastCheckIndex_ := d.data_.length }
    let newlyConverged := d1.evaluateConvergence d1.lastResult_
    if newlyConverged && !d1.converged_ then
      let d2 := { d1 with converged_ := true }
      ⟨d2, d2.converged_,
        Event.estimatorPass d.data_.length :: d2.triggerCallback d2.lastResult_⟩
    else ⟨d1, d1.converged_, [Event.estimatorPass d.data_.length]⟩

/-- The function `SteadyStateDetector::addDataPoint`. -/
def addDataPoint (d : SteadyStateDetector) (value : Dbl) : Step :=
  if d.converged_ then ⟨d, true, []⟩
  else
    let d1 := { d with data_ := d.data_ ++ [value] }
    if d1.data_.length > d1.config_.maxSamples then
      let d2 := { d1 with
        converged_ := true
        lastResult_ := { d1.lastResult_ with
          converged := false
          reason := Reason.maxSamplesExhausted } }
      ⟨d2, false, d2.triggerCallback d2.lastResult_⟩
    else if d1.shouldPerformCheck then d1.checkConvergence
    else ⟨d1, false, []⟩

/-- The function `SteadyStateDetector::addDataPoints`. -/
def addDataPoints (d : SteadyStateDetector) : List Dbl → Step
  | [] => ⟨d, false, []⟩
  | value :: values =>
    let s := d.addDataPoint value
    if s.ret then ⟨s.det, true, s.events⟩
    else
      let t := addDataPoints s.det values
      ⟨t.det, t.ret, s.events ++ t.events⟩

/-- The function `SteadyStateDetector::reset`. -/
def reset (d : SteadyStateDetector) : SteadyStateDetector :=
  { d with
    data_ := []
    converged_ := false
    lastCheckIndex_ := 0
    lastResult_ := MSERResult.init }

/-- The function `SteadyStateDetector::updateConfig` (the capacity of the buffer is not part of
the model). -/
def updateConfig (d : SteadyStateDetector) (config : SteadyStateConfig) : SteadyStateDetector :=
  { d with config_ := config }

/-- The function `SteadyStateDetector::setConvergenceCallback`. -/
def setConvergenceCallback (d : SteadyStateDetector) (callback : Option Nat) :
    SteadyStateDetector :=
  { d with convergenceCallback_ := callback }

/-- The function `SteadyStateDetector::hasConverged`. -/
def hasConverged (d : SteadyStateDetector) : Bool := d.converged_

/-- The function `SteadyStateDetector::getLastResult`. -/
def getLastResult (d : SteadyStateDetector) : MSERResult := d.lastResult_

/-- The function `SteadyStateDetector::getCurrentSampleCount`. -/
def getCurrentSampleCount (d : SteadyStateDetector) : Nat := d.data_.length

/-- The function `SteadyStateDetector::getCurrentStatistics`. -/
def getCurrentStatistics (rnd : ℚ → Dbl) (d : SteadyStateDetector) : Statistics :=
  if d.data_.isEmpty then Statistics.init
  else Rounded.calculateStatistics rnd d.data_ 0 d.data_.length

/-- The function `SteadyStateDetector::getCurrentMean`. -/
def getCurrentMean (rnd : ℚ → Dbl) (d : SteadyStateDetector) : Dbl :=
  if d.data_.isEmpty then Dbl.fin 0
  else (d.getCurrentStatistics rnd).mean

/-- The function `SteadyStateDetector::getAccumulatedData`. -/
def getAccumulatedData (d : SteadyStateDetector) : TimeSeriesData := d.data_

end SteadyStateDetector

/-- A call of one of the state-changing public member functions of the detector. -/
inductive Op where
  | addDataPoint (value : Dbl)
  | addDataPoints (values : List Dbl)
  | checkConvergence
  | reset
  | updateConfig (config : SteadyStateConfig)
  | setConvergenceCallback (callback : Option Nat)

/-- The effect of one call. -/
def Op.apply (d : SteadyStateDetector) : Op → Step
  | Op.addDataPoint value => d.addDataPoint value
  | Op.addDataPoints values => d.addDataPoints values
  | Op.checkConvergence => d.checkConvergence
  | Op.reset => ⟨d.reset, false, []⟩
  | Op.updateConfig config => ⟨d.updateConfig config, false, []⟩
  | Op.setConvergenceCallback callback => ⟨d.setConvergenceCallback callback, false, []⟩

/-- The detector after a sequence of calls. -/
def runOps (d : SteadyStateDetector) (ops : List Op) : SteadyStateDetector :=
  ops.foldl (fun d op => (op.apply d).det) d

/-- The detector after the samples of `values` were appended one call of `addDataPoint` at a
time. -/
def feed (d : SteadyStateDetector) (values : List Dbl) : SteadyStateDetector :=
  values.foldl (fun d value => (d.addDataPoint value).det) d

/-- The events of a sequence of calls, in the order in which they happened. -/
def runEvents (d : SteadyStateDetector) : List Op → List Event
  | [] => []
  | op :: ops => (op.apply d).events ++ runEvents (op.apply d).det ops

/-- The calls `addDataPoint(v)` for the samples `v` of `values`, in order. -/
def appends (values : List Dbl) : List Op := values.map Op.addDataPoint

/-- The results with which the callback was invoked, in order. -/
def callbackResults (events : List Event) : List MSERResult :=
  events.filterMap fun e =>
    match e with
    | Event.callback _ result => some result
    | Event.estimatorPass _ => none

/-- The buffer sizes at which the estimator ran, in order. -/
def passSizes (events : List Event) : List Nat :=
  events.filterMap fun e =>
    match e with
    | Event.callback _ _ => none
    | Event.estimatorPass bufferSize => some bufferSize

/-! ## The reference statistic of the specification -/

/-- The mean of the retained suffix `Y_k, ..., Y_(n-1)` (spec 4.1.4), over any arithmetic. -/
def suffixMean {α : Type} [Add α] [Zero α] [Div α] [NatCast α] (Y : List α) (k : Nat) : α :=
  (Y.drop k).sum / ((Y.length - k : Nat) : α)

/-- The MSER statistic `g_n(k) = (Σ_(j=k)^(n-1) (Y_j - mean)^2) / (n - k)^2` of spec 4.1.4, for
`n - k ≥ 2`, over any arithmetic: at `ℚ` it is the exact value, at `Dbl` the value in the
arithmetic of doubles without rounding. -/
def gn {α : Type} [Add α] [Zero α] [Sub α] [Mul α] [Div α] [NatCast α] (Y : List α) (k : Nat) : α :=
  ((Y.drop k).map fun y => (y - suffixMean Y k) * (y - suffixMean Y k)).sum
    / (((Y.length - k : Nat) : α) * ((Y.length - k : Nat) : α))

/-- The arithmetic mean of the `i`-th block of `B` consecutive samples (spec 4.1.3). -/
def batchMean {α : Type} [Add α] [Zero α] [Div α] [NatCast α] (Y : List α) (B i : Nat) : α :=
  ((Y.drop (i * B)).take B).sum / (B : α)

/-- A series of finite samples: the doubles that carry the given rational values. -/
def finite (Y : List ℚ) : TimeSeriesData := Y.map Dbl.fin

/-- The value `j / (j + 1) ^ 3` of the statistic on a suffix of `j` zeros followed by a one. -/
def spikeValue (j : Nat) : ℚ := (j : ℚ) / ((j : ℚ) + 1) ^ 3

/-! ## Inputs of the examples -/

/-- The series `3, 1, 1, 1, 1`. -/
def exampleSeries : List ℚ := [3, 1, 1, 1, 1]

/-- A series of 50 samples, the first of them NaN. -/
def seriesWithNaN : TimeSeriesData := Dbl.nan :: List.replicate 49 (Dbl.fin 0)

/-- A configuration with `maxSamples = 5` (scenario S5); the warm-up gate stays open as long as
the buffer holds fewer than 50 samples. -/
def exhaustionConfig : SteadyStateConfig :=
  { SteadyStateConfig.init with minSamples := 5, maxSamples := 5 }

/-- The detector of scenario S5 after five samples. -/
def fullDetector : SteadyStateDetector :=
  feed (SteadyStateDetector.new exhaustionConfig) (List.replicate 5 (Dbl.fin 0))

/-- The detector of scenario S5 after six samples. -/
def exhaustedDetector : SteadyStateDetector :=
  feed (SteadyStateDetector.new exhaustionConfig) (List.replicate 6 (Dbl.fin 0))

/-- Calls without `reset`. -/
def callsWithoutReset : List Op :=
  [Op.addDataPoint (Dbl.fin 1), Op.addDataPoints [Dbl.fin 2, Dbl.fin 3], Op.checkConvergence,
    Op.updateConfig SteadyStateConfig.init, Op.setConvergenceCallback (some 0),
    Op.addDataPoint (Dbl.fin 4)]

/-- The series of scenario S2: 20 values that decrease linearly from 10 to 1, then 80 zeros. -/
def transientSeries : List ℚ :=
  (List.range 20).map (fun i : Nat => 10 - 9 * (i : ℚ) / 19) ++ List.replicate 80 0

/-- A configuration without warm-up in which one sample closes the minimum-samples gate. -/
def openConfig : SteadyStateConfig :=
  { SteadyStateConfig.init with enableWarming := false, minSamples := 1 }

/-- A detector with the configuration `openConfig` after one sample. -/
def openDetector : SteadyStateDetector :=
  feed (SteadyStateDetector.new openConfig) [Dbl.fin 0]

/-- The value of `shouldPerformCheck` as a function of the configuration, of the buffer size and
of `lastCheckIndex_`. -/
def checkDue (config : SteadyStateConfig) (size lastCheckIndex : Nat) : Bool :=
  !(config.enableWarming && decide (size < config.warmingSteps))
    && decide (config.minSamples ≤ size)
    && decide (config.checkInterval ≤ (size + sizeModulus - lastCheckIndex) % sizeModulus)

/-- A configuration of scenario S4: `minSamples` 10, `warmingSteps` 20, `checkInterval` 5,
warm-up enabled, `convergenceThreshold` 1.0, `maxSamples` 1000, variant `MSER_1`. -/
def warmupConfig : SteadyStateConfig :=
  { variant := MSERVariant.MSER_1
    batchSize := 5
    minSamples := 10
    maxSamples := 1000
    convergenceThreshold := Dbl.fin 1
    checkInterval := 5
    enableWarming := true
    warmingSteps := 20 }

/-- The detector of scenario S4: freshly constructed, with a callback installed. -/
def warmupDetector : SteadyStateDetector :=
  (SteadyStateDetector.new warmupConfig).setConvergenceCallback (some 0)

/-- The two ways in which `lastResult` can stand when the latch is set. -/
def settled (d : SteadyStateDetector) : Prop :=
  d.converged_ = true →
    (d.lastResult_.converged = true ∧ d.lastResult_.reason = Reason.ok) ∨
    (d.lastResult_.converged = false ∧ d.lastResult_.reason = Reason.maxSamplesExhausted)

/-- The samples with the indices `a, ..., b - 1`. -/
def segment {α : Type} (Y : List α) (a b : Nat) : List α := (Y.drop a).take (b - a)

/-- The detector of scenario S5 after five samples, with a callback installed. -/
def listeningDetector : SteadyStateDetector := fullDetector.setConvergenceCallback (some 7)

/-- Calls of a run without `reset` and without `setConvergenceCallback`. -/
def trackedCalls : List Op :=
  [Op.updateConfig exhaustionConfig, Op.addDataPoints [Dbl.fin 0, Dbl.fin 0],
    Op.checkConvergence, Op.addDataPoint (Dbl.fin 1)]

/-- A detector without warm-up after one append and one call of `checkConvergence`: the estimator
ran on the buffer of one sample. -/
def checkedDetector : SteadyStateDetector :=
  runOps (SteadyStateDetector.new openConfig) [Op.addDataPoint (Dbl.fin 0), Op.checkConvergence]

/-- A configuration without warm-up with `minSamples = 1`, `checkInterval = 2` and
`maxSamples = 100`: a detector with this configuration runs the estimator at every second
append. -/
def cadenceConfig : SteadyStateConfig :=
  { SteadyStateConfig.init with
    enableWarming := false, minSamples := 1, checkInterval := 2, maxSamples := 100 }

/-- A configuration without warm-up with `minSamples = 1`, `checkInterval = 1` and
`maxSamples = 2`: the estimator runs at every append until the buffer is exhausted. -/
def passedConfig : SteadyStateConfig :=
  { SteadyStateConfig.init with
    enableWarming := false, minSamples := 1, checkInterval := 1, maxSamples := 2 }

/-- The detector with the configuration `passedConfig` after two samples: the estimator ran on one
sample and on two samples, and the buffer is full. -/
def passedDetector : SteadyStateDetector :=
  feed (SteadyStateDetector.new passedConfig) [Dbl.fin 0, Dbl.fin 0]

/-- Ten samples equal to `2 ^ 1023`, a finite `double`. -/
def hugeSeries : TimeSeriesData := List.replicate 10 (Dbl.fin (2 ^ 1023))

/-- Fifty samples equal to `2 ^ 1023`, a finite `double`. -/
def hugeBatchSeries : TimeSeriesData := List.replicate 50 (Dbl.fin (2 ^ 1023))

/-! ## Arithmetic of finite doubles -/

theorem Dbl.add_fin (a b : ℚ) : (Dbl.fin a).add (Dbl.fin b) = Dbl.fin (a + b) := rfl

theorem Dbl.sub_fin (a b : ℚ) : (Dbl.fin a).sub (Dbl.fin b) = Dbl.fin (a - b) := by
  simp [Dbl.sub, Dbl.neg, Dbl.add, sub_eq_add_neg]

theorem Dbl.mul_fin (a b : ℚ) : (Dbl.fin a).mul (Dbl.fin b) = Dbl.fin (a * b) := rfl

theorem Dbl.div_fin (a b : ℚ) (hb : b ≠ 0) : (Dbl.fin a).div (Dbl.fin b) = Dbl.fin (a / b) := by
  simp [Dbl.div, hb]

/-! ## Index loops and list folds -/

theorem loop_eq_foldl (f : Dbl → Dbl → Dbl) (data : TimeSeriesData) :
    ∀ (m s : Nat) (acc : Dbl), s + m ≤ data.length →
      (List.range' s m).foldl (fun a j => f a (data.getD j Dbl.zero)) acc
        = ((data.drop s).take m).foldl f acc := by
  intro m
  induction m with
  | zero => intro s acc _; simp
  | succ m ih =>
    intro s acc h
    have hs : s < data.length := by omega
    rw [List.range'_succ, List.drop_eq_getElem_cons hs, List.take_succ_cons]
    simp only [List.foldl_cons]
    rw [ih (s + 1) _ (by omega)]
    simp [List.getD_eq_getElem?_getD, List.getElem?_eq_getElem hs]

theorem sumRange_eq_foldl (data : TimeSeriesData) (s e : Nat) (h : e ≤ data.length) :
    sumRange data s e = ((data.drop s).take (e - s)).foldl Dbl.add Dbl.zero := by
  unfold sumRange
  rcases Nat.lt_or_ge s e with hse | hse
  · exact loop_eq_foldl Dbl.add data (e - s) s Dbl.zero (by omega)
  · simp [Nat.sub_eq_zero_of_le hse]

theorem sumSquaredDeviations_eq_foldl (data : TimeSeriesData) (mean : Dbl) (s e : Nat)
    (h : e ≤ data.length) :
    sumSquaredDeviations data mean s e
      = ((data.drop s).take (e - s)).foldl
          (fun a y => a.add ((y.sub mean).mul (y.sub mean))) Dbl.zero := by
  unfold sumSquaredDeviations
  rcases Nat.lt_or_ge s e with hse | hse
  · exact loop_eq_foldl (fun a y => a.add ((y.sub mean).mul (y.sub mean))) data (e - s) s
      Dbl.zero (by omega)
  · simp [Nat.sub_eq_zero_of_le hse]

/-! ## Finite samples -/

theorem foldl_add_fin (l : List ℚ) (a : ℚ) :
    (l.map Dbl.fin).foldl Dbl.add (Dbl.fin a) = Dbl.fin (a + l.sum) := by
  induction l generalizing a with
  | nil => simp
  | cons x xs ih => simp [List.foldl_cons, Dbl.add_fin, ih, add_assoc]

theorem foldl_sq_fin (l : List ℚ) (μ a : ℚ) :
    (l.map Dbl.fin).foldl (fun a y => a.add ((y.sub (Dbl.fin μ)).mul (y.sub (Dbl.fin μ))))
        (Dbl.fin a)
      = Dbl.fin (a + (l.map fun y => (y - μ) * (y - μ)).sum) := by
  induction l generalizing a with
  | nil => simp
  | cons x xs ih =>
    simp [List.foldl_cons, Dbl.add_fin, Dbl.sub_fin, Dbl.mul_fin, ih, add_assoc]

theorem sumRange_finite (Y : List ℚ) (s e : Nat) (h : e ≤ Y.length) :
    sumRange (finite Y) s e = Dbl.fin (((Y.drop s).take (e - s)).sum) := by
  rw [sumRange_eq_foldl _ _ _ (by simpa [finite] using h)]
  simp only [finite, ← List.map_drop, ← List.map_take, Dbl.zero]
  rw [foldl_add_fin]; simp

theorem calculateMean_finite (Y : List ℚ) (k : Nat) (h : k < Y.length) :
    calculateMean (finite Y) k Y.length = Dbl.fin (suffixMean Y k) := by
  have hne : ((Y.length - k : Nat) : ℚ) ≠ 0 := by
    have : 0 < Y.length - k := by omega
    exact_mod_cast this.ne'
  unfold calculateMean
  have hl : (finite Y).length = Y.length := by simp [finite]
  rw [if_neg (by rw [hl]; omega), sumRange_finite Y k Y.length le_rfl]
  rw [Dbl.ofNat, Dbl.div_fin _ _ hne, suffixMean, List.take_of_length_le (by simp)]

/-- The value the program computes for finite samples: the sum of the squared deviations over the
wrapped product `(n - k) * (n - k) mod 2 ^ 64`. -/
theorem calculateMSERValue_finite (Y : List ℚ) (k : Nat) (h : k + 2 ≤ Y.length) :
    calculateMSERValue (finite Y) k
      = (Dbl.fin ((Y.drop k).map fun y => (y - suffixMean Y k) * (y - suffixMean Y k)).sum).div
          (Dbl.ofNat (((Y.length - k) * (Y.length - k)) % sizeModulus)) := by
  have hl : (finite Y).length = Y.length := by simp [finite]
  unfold calculateMSERValue
  simp only [hl]
  rw [if_neg (by omega), calculateMean_finite Y k (by omega),
    sumSquaredDeviations_eq_foldl _ _ _ _ (by rw [hl])]
  simp only [finite, ← List.map_drop, ← List.map_take, Dbl.zero]
  rw [foldl_sq_fin, List.take_of_length_le (by simp)]
  simp

theorem calculateMSERValue_finite_small (Y : List ℚ) (k : Nat) (h : k + 2 ≤ Y.length)
    (hsmall : Y.length - k < 2 ^ 32) :
    calculateMSERValue (finite Y) k = Dbl.fin (gn Y k) := by
  rw [calculateMSERValue_finite Y k h]
  have hlt : (Y.length - k) * (Y.length - k) < sizeModulus := by
    have : (Y.length - k) * (Y.length - k) < 2 ^ 32 * 2 ^ 32 :=
      Nat.mul_lt_mul'' hsmall hsmall
    simpa [sizeModulus] using this
  rw [Nat.mod_eq_of_lt hlt]
  have hne : (((Y.length - k) * (Y.length - k) : Nat) : ℚ) ≠ 0 := by
    have : 0 < (Y.length - k) * (Y.length - k) := Nat.mul_pos (by omega) (by omega)
    exact_mod_cast this.ne'
  rw [Dbl.ofNat, Dbl.div_fin _ _ hne, gn]
  push_cast
  rfl

/-! ## Order of doubles -/

theorem Dbl.lt_of_lt_of_not_lt {a w v : Dbl} (h1 : w.lt v = true) (h2 : a.lt v = false) :
    a.lt w = false ∧ a.le w = false := by
  cases a <;> cases w <;> cases v <;> simp_all [Dbl.lt, Dbl.le]
  constructor <;> linarith

theorem Dbl.lt_pinf_of_lt {w v : Dbl} (h : w.lt v = true) : w.lt Dbl.pinf = true := by
  cases w <;> cases v <;> simp_all [Dbl.lt]

theorem Dbl.not_lt_of_lt {w v : Dbl} (h : w.lt v = true) : v.lt w = false := by
  cases w <;> cases v <;> simp_all [Dbl.lt]; linarith

theorem Dbl.lt_irrefl (v : Dbl) : v.lt v = false := by
  cases v <;> simp [Dbl.lt]

/-! ## The search loop -/

/-- The invariant of the search loop after the candidates `0, ..., m - 1`. -/
theorem search_invariant (data : TimeSeriesData) (m : Nat) :
    let r := (List.range m).foldl (searchStep data) (0, Dbl.pinf)
    (∀ k, k < m → (calculateMSERValue data k).lt r.2 = false) ∧
    (r = (0, Dbl.pinf) ∨
      (r.1 < m ∧ r.2 = calculateMSERValue data r.1 ∧ r.2.lt Dbl.pinf = true ∧
        ∀ k, k < r.1 → (calculateMSERValue data k).le r.2 = false)) := by
  induction m with
  | zero => simp
  | succ m ih =>
    simp only [List.range_succ, List.foldl_append, List.foldl_cons, List.foldl_nil]
    set r := (List.range m).foldl (searchStep data) (0, Dbl.pinf) with hr
    obtain ⟨hA, hB⟩ := ih
    unfold searchStep
    by_cases hlt : (calculateMSERValue data m).lt r.2 = true
    · simp only [hlt, if_true]
      refine ⟨?_, Or.inr ⟨Nat.lt_succ_self m, trivial, Dbl.lt_pinf_of_lt hlt, ?_⟩⟩
      · intro k hk
        rcases Nat.lt_succ_iff_lt_or_eq.mp hk with h | h
        · exact (Dbl.lt_of_lt_of_not_lt hlt (hA k h)).1
        · subst h; exact Dbl.lt_irrefl _
      · intro k hk
        exact (Dbl.lt_of_lt_of_not_lt hlt (hA k hk)).2
    · have hlt' : (calculateMSERValue data m).lt r.2 = false := by simpa using hlt
      simp only [hlt', Bool.false_eq_true, if_false]
      refine ⟨?_, ?_⟩
      · intro k hk
        rcases Nat.lt_succ_iff_lt_or_eq.mp hk with h | h
        · exact hA k h
        · subst h; exact hlt'
      · rcases hB with h | ⟨h1, h2, h3, h4⟩
        · exact Or.inl h
        · exact Or.inr ⟨Nat.lt_succ_of_lt h1, h2, h3, h4⟩

theorem length_finite (Y : List ℚ) : (finite Y).length = Y.length := by simp [finite]

/-- The search on a finite series short enough for `(n - k) * (n - k)` not to wrap: the result is
the first index at which the reference statistic is least. -/
theorem findOptimalTruncationPoint_finite (Y : List ℚ) (h2 : 2 ≤ Y.length / 2)
    (hsmall : Y.length < 2 ^ 32) :
    (findOptimalTruncationPoint (finite Y)).1 < Y.length / 2 ∧
    (findOptimalTruncationPoint (finite Y)).2
      = Dbl.fin (gn Y (findOptimalTruncationPoint (finite Y)).1) ∧
    (∀ k, k < Y.length / 2 → gn Y (findOptimalTruncationPoint (finite Y)).1 ≤ gn Y k) ∧
    (∀ k, k < (findOptimalTruncationPoint (finite Y)).1 →
      gn Y (findOptimalTruncationPoint (finite Y)).1 < gn Y k) := by
  have hg : ∀ k, k < Y.length / 2 → calculateMSERValue (finite Y) k = Dbl.fin (gn Y k) := by
    intro k hk
    exact calculateMSERValue_finite_small Y k (by omega) (by omega)
  have hfold : findOptimalTruncationPoint (finite Y)
      = (List.range (Y.length / 2)).foldl (searchStep (finite Y)) (0, Dbl.pinf) := by
    unfold findOptimalTruncationPoint
    simp only [length_finite]
    rw [if_neg (by omega)]
  obtain ⟨hA, hB⟩ := search_invariant (finite Y) (Y.length / 2)
  rw [← hfold] at hA hB
  rcases hB with h0 | ⟨h1, h2', _, h4⟩
  · exfalso
    have := hA 0 (by omega)
    rw [hg 0 (by omega), h0] at this
    simp [Dbl.lt] at this
  · have hv : (findOptimalTruncationPoint (finite Y)).2
        = Dbl.fin (gn Y (findOptimalTruncationPoint (finite Y)).1) := by
      rw [h2', hg _ h1]
    refine ⟨h1, hv, ?_, ?_⟩
    · intro k hk
      have := hA k hk
      rw [hg k hk, hv] at this
      simpa [Dbl.lt] using this
    · intro k hk
      have := h4 k hk
      rw [hg k (by omega), hv] at this
      simpa [Dbl.le] using this

theorem validateData_finite (Y : List ℚ) (m : Nat) :
    validateData (finite Y) m = decide (m ≤ Y.length) := by
  unfold validateData
  rw [length_finite]
  by_cases h : Y.length < m
  · simp [h]
  · have : ∀ x ∈ finite Y, x.isfinite = true := by
      intro x hx
      simp only [finite, List.mem_map] at hx
      obtain ⟨q, _, rfl⟩ := hx
      rfl
    rw [if_neg h, decide_eq_true (Nat.le_of_not_lt h)]
    exact List.all_eq_true.mpr this

theorem validateData_of_not_finite (data : TimeSeriesData) (m : Nat)
    (h : ∃ x ∈ data, x.isfinite = false) : validateData data m = false := by
  unfold validateData
  split
  · rfl
  · obtain ⟨x, hx, hf⟩ := h
    rw [List.all_eq_false]
    exact ⟨x, hx, by simp [hf]⟩

/-! ## The reference statistic over `ℚ` -/

theorem sum_sq_nonneg (l : List ℚ) (μ : ℚ) : 0 ≤ (l.map fun y => (y - μ) * (y - μ)).sum := by
  apply List.sum_nonneg
  intro x hx
  simp only [List.mem_map] at hx
  obtain ⟨y, _, rfl⟩ := hx
  exact mul_self_nonneg _

theorem sum_sq_eq_zero (l : List ℚ) (μ : ℚ)
    (h : (l.map fun y => (y - μ) * (y - μ)).sum = 0) : ∀ y ∈ l, y = μ := by
  induction l with
  | nil => simp
  | cons x xs ih =>
    simp only [List.map_cons, List.sum_cons] at h
    have h1 := mul_self_nonneg (x - μ)
    have h2 := sum_sq_nonneg xs μ
    have hx : (x - μ) * (x - μ) = 0 := by linarith
    have hxs : (xs.map fun y => (y - μ) * (y - μ)).sum = 0 := by linarith
    intro y hy
    rcases List.mem_cons.mp hy with rfl | hy
    · have := mul_self_eq_zero.mp hx
      linarith
    · exact ih hxs y hy

theorem gn_nonneg (Y : List ℚ) (k : Nat) : 0 ≤ gn Y k := by
  unfold gn
  exact div_nonneg (sum_sq_nonneg _ _) (mul_self_nonneg _)

theorem gn_eq_zero_of_drop_eq_replicate (Y : List ℚ) (k : Nat) (c : ℚ) (hk : k < Y.length)
    (h : Y.drop k = List.replicate (Y.length - k) c) : gn Y k = 0 := by
  have hne : ((Y.length - k : Nat) : ℚ) ≠ 0 := by
    have : 0 < Y.length - k := by omega
    exact_mod_cast this.ne'
  have hmean : suffixMean Y k = c := by
    unfold suffixMean
    rw [h, List.sum_replicate, nsmul_eq_mul]
    field_simp
  unfold gn
  rw [hmean, h]
  simp

theorem gn_pos_of_ne (Y : List ℚ) (k : Nat) (a b : ℚ) (hk : k < Y.length)
    (ha : a ∈ Y.drop k) (hb : b ∈ Y.drop k) (hab : a ≠ b) : 0 < gn Y k := by
  have hpos : (0 : ℚ) < ((Y.length - k : Nat) : ℚ) := by
    have : 0 < Y.length - k := by omega
    exact_mod_cast this
  rcases (gn_nonneg Y k).lt_or_eq with h | h
  · exact h
  · exfalso
    unfold gn at h
    have hz := (div_eq_zero_iff.mp h.symm).resolve_right (mul_self_ne_zero.mpr hpos.ne')
    have hall := sum_sq_eq_zero _ _ hz
    exact hab ((hall a ha).trans (hall b hb).symm)

theorem calculateMSER1_finite (Y : List ℚ) (hn : 10 ≤ Y.length) :
    calculateMSER1 (finite Y) =
      { truncationPoint := (findOptimalTruncationPoint (finite Y)).1
        mserValue := (findOptimalTruncationPoint (finite Y)).2
        converged := (findOptimalTruncationPoint (finite Y)).2.lt Dbl.pinf
        reason := if (findOptimalTruncationPoint (finite Y)).2.lt Dbl.pinf = true
          then Reason.ok else Reason.notConverged
        totalSamples := Y.length
        batchCount := 0
        variant := MSERVariant.MSER_1 } := by
  unfold calculateMSER1
  simp [validateData_finite, hn, length_finite, MSERResult.init]

/-- For a finite series of at least 10 and fewer than `2 ^ 32` samples, the value returned by
`calculateMSER1` is the least value of the reference statistic over `0 ≤ k < ⌊n/2⌋`. -/
theorem calculateMSER1_minimum (Y : List ℚ) (hn : 10 ≤ Y.length) (hsmall : Y.length < 2 ^ 32) :
    (∃ m, (calculateMSER1 (finite Y)).mserValue = Dbl.fin m ∧
      IsLeast (gn Y '' {k | k < Y.length / 2}) m) ∧
    (calculateMSER1 (finite Y)).totalSamples = Y.length ∧
    (calculateMSER1 (finite Y)).batchCount = 0 ∧
    (calculateMSER1 (finite Y)).variant = MSERVariant.MSER_1 := by
  obtain ⟨h1, h2, h3, _⟩ := findOptimalTruncationPoint_finite Y (by omega) hsmall
  rw [calculateMSER1_finite Y hn]
  refine ⟨⟨_, h2, ⟨_, h1, rfl⟩, ?_⟩, rfl, rfl, rfl⟩
  rintro _ ⟨k, hk, rfl⟩
  exact h3 k hk

theorem drop_eq_replicate_of_const (Y : List ℚ) (k0 k : Nat) (hk : k0 ≤ k)
    (hconst : ∀ j, k0 ≤ j → j < Y.length → Y.getD j 0 = Y.getD k0 0) :
    Y.drop k = List.replicate (Y.length - k) (Y.getD k0 0) := by
  rw [List.eq_replicate_iff]
  refine ⟨by simp, ?_⟩
  intro b hb
  obtain ⟨i, hi, rfl⟩ := List.mem_iff_getElem.mp hb
  rw [List.length_drop] at hi
  rw [List.getElem_drop, ← hconst (k + i) (by omega) (by omega)]
  rw [List.getD_eq_getElem _ _ (by omega)]

theorem getD_mem_drop (Y : List ℚ) (k j : Nat) (hkj : k ≤ j) (hj : j < Y.length) :
    Y.getD j 0 ∈ Y.drop k := by
  rw [List.mem_iff_getElem]
  refine ⟨j - k, by rw [List.length_drop]; omega, ?_⟩
  rw [List.getElem_drop, List.getD_eq_getElem _ _ hj]
  congr 1
  omega

/-! ## Series long enough for `effectiveN * effectiveN` to wrap -/

theorem findOptimalTruncationPoint_eq_foldl (data : TimeSeriesData) (h : 2 ≤ data.length / 2) :
    findOptimalTruncationPoint data
      = (List.range (data.length / 2)).foldl (searchStep data) (0, Dbl.pinf) := by
  unfold findOptimalTruncationPoint
  simp only
  rw [if_neg (by omega)]

/-- The search when the candidate `0` is not comparable or `+∞` and the candidate `1` is a
finite value that no later candidate improves on: the result is `1`. -/
theorem search_eq_one (data : TimeSeriesData) (v : ℚ) (h : 2 ≤ data.length / 2)
    (h0 : (calculateMSERValue data 0).lt Dbl.pinf = false)
    (h1 : calculateMSERValue data 1 = Dbl.fin v)
    (hrest : ∀ k, 1 ≤ k → k < data.length / 2 → ∃ w, calculateMSERValue data k = Dbl.fin w ∧ v ≤ w) :
    findOptimalTruncationPoint data = (1, Dbl.fin v) := by
  obtain ⟨hA, hB⟩ := search_invariant data (data.length / 2)
  rw [← findOptimalTruncationPoint_eq_foldl data h] at hA hB
  rcases hB with hB | ⟨hlt, hval, hfin, hbefore⟩
  · exfalso
    have := hA 1 (by omega)
    rw [h1, hB] at this
    simp [Dbl.lt] at this
  · have hne0 : (findOptimalTruncationPoint data).1 ≠ 0 := by
      intro hz
      rw [hval, hz, h0] at hfin
      exact Bool.false_ne_true hfin
    obtain ⟨w, hw, hvw⟩ := hrest _ (by omega) hlt
    have hwv : w ≤ v := by
      have := hA 1 (by omega)
      rw [h1, hval, hw] at this
      simpa [Dbl.lt] using this
    have hk1 : (findOptimalTruncationPoint data).1 = 1 := by
      by_contra hne
      have := hbefore 1 (by omega)
      rw [h1, hval, hw] at this
      simp [Dbl.le] at this
      linarith
    apply Prod.ext
    · exact hk1
    · show (findOptimalTruncationPoint data).2 = Dbl.fin v
      rw [hval, hw, le_antisymm hwv hvw]

theorem constant_series_wrap (n : Nat) (c : ℚ) (hn : 10 ≤ n)
    (hwrap : n * n % sizeModulus = 0) (hsmall : n - 1 < 2 ^ 32) :
    findOptimalTruncationPoint (finite (List.replicate n c)) = (1, Dbl.fin 0) := by
  have hlen : (List.replicate n c).length = n := List.length_replicate ..
  have hdrop : ∀ k, (List.replicate n c).drop k
      = List.replicate ((List.replicate n c).length - k) c := by
    intro k; rw [hlen, List.drop_replicate]
  apply search_eq_one
  · rw [length_finite, hlen]; omega
  · rw [calculateMSERValue_finite _ 0 (by rw [hlen]; omega)]
    have hmean : suffixMean (List.replicate n c) 0 = c := by
      have hne : (n : ℚ) ≠ 0 := by exact_mod_cast (by omega : n ≠ 0)
      simp [suffixMean, List.sum_replicate, hne]
    rw [hmean, hlen]
    simp [hwrap, Dbl.ofNat, Dbl.div, Dbl.lt]
  · rw [calculateMSERValue_finite_small _ 1 (by rw [hlen]; omega) (by rw [hlen]; omega),
      gn_eq_zero_of_drop_eq_replicate _ 1 c (by rw [hlen]; omega) (hdrop 1)]
  · intro k hk1 hk
    rw [length_finite, hlen] at hk
    refine ⟨0, ?_, le_rfl⟩
    rw [calculateMSERValue_finite_small _ k (by rw [hlen]; omega) (by rw [hlen]; omega),
      gn_eq_zero_of_drop_eq_replicate _ k c (by rw [hlen]; omega) (hdrop k)]

theorem suffixMean_spike (k j : Nat) :
    suffixMean (List.replicate (k + j) (0 : ℚ) ++ [1]) k = 1 / ((j : ℚ) + 1) := by
  unfold suffixMean
  rw [List.drop_append_of_le_length (by simp), List.drop_replicate]
  simp only [List.length_append, List.length_replicate, List.length_singleton, List.sum_append,
    List.sum_replicate, smul_zero, List.sum_cons, List.sum_nil, add_zero, zero_add]
  have : k + j + 1 - k = j + 1 := by omega
  rw [this]
  push_cast
  rfl

theorem gn_spike (k j : Nat) :
    gn (List.replicate (k + j) (0 : ℚ) ++ [1]) k = spikeValue j := by
  have hpos : (0 : ℚ) < (j : ℚ) + 1 := by positivity
  unfold gn
  rw [suffixMean_spike, List.drop_append_of_le_length (by simp), List.drop_replicate]
  simp only [List.length_append, List.length_replicate, List.length_singleton, List.map_append,
    List.map_replicate, List.sum_append, List.sum_replicate, List.map_cons, List.map_nil,
    List.sum_cons, List.sum_nil, add_zero, nsmul_eq_mul]
  have h1 : k + j + 1 - k = j + 1 := by omega
  have h2 : k + j - k = j := by omega
  rw [h1, h2, spikeValue]
  push_cast
  field_simp
  ring

theorem spikeValue_succ_lt (j : Nat) (hj : 1 ≤ j) : spikeValue (j + 1) < spikeValue j := by
  have hq : (1 : ℚ) ≤ (j : ℚ) := by exact_mod_cast hj
  unfold spikeValue
  push_cast
  rw [div_lt_div_iff₀ (by positivity) (by positivity)]
  nlinarith [mul_pos (by linarith : (0 : ℚ) < j) (by linarith : (0 : ℚ) < j),
    pow_pos (by linarith : (0 : ℚ) < j) 3]

theorem spikeValue_antitone (i j : Nat) (hi : 1 ≤ i) (hij : i ≤ j) :
    spikeValue j ≤ spikeValue i := by
  induction j, hij using Nat.le_induction with
  | base => exact le_rfl
  | succ j hj ih => exact (spikeValue_succ_lt j (by omega)).le.trans ih

theorem Dbl.div_zero_not_lt_pinf (S : ℚ) (hS : 0 ≤ S) :
    ((Dbl.fin S).div (Dbl.ofNat 0)).lt Dbl.pinf = false := by
  rcases hS.lt_or_eq with hpos | hzero
  · simp [Dbl.ofNat, Dbl.div, hpos.ne', hpos, Dbl.signedInf, Dbl.lt]
  · simp [Dbl.ofNat, Dbl.div, ← hzero, Dbl.lt]

theorem calculateMSERValue_wrap (Y : List ℚ) (k : Nat) (h : k + 2 ≤ Y.length)
    (hwrap : (Y.length - k) * (Y.length - k) % sizeModulus = 0) :
    (calculateMSERValue (finite Y) k).lt Dbl.pinf = false := by
  rw [calculateMSERValue_finite Y k h, hwrap]
  exact Dbl.div_zero_not_lt_pinf _ (sum_sq_nonneg (Y.drop k) (suffixMean Y k))

theorem spike_series_wrap (a : Nat) (ha : 9 ≤ a)
    (hwrap : (a + 1) * (a + 1) % sizeModulus = 0) (hsmall : a < 2 ^ 32) :
    findOptimalTruncationPoint (finite (List.replicate a (0 : ℚ) ++ [1]))
      = (1, Dbl.fin (spikeValue (a - 1))) := by
  have hlen : (List.replicate a (0 : ℚ) ++ [1]).length = a + 1 := by simp
  have hval : ∀ k, 1 ≤ k → k < (a + 1) / 2 →
      calculateMSERValue (finite (List.replicate a (0 : ℚ) ++ [1])) k
        = Dbl.fin (spikeValue (a - k)) := by
    intro k hk1 hk
    rw [calculateMSERValue_finite_small _ k (by rw [hlen]; omega) (by rw [hlen]; omega)]
    obtain ⟨j, rfl⟩ : ∃ j, a = k + j := ⟨a - k, by omega⟩
    rw [gn_spike, Nat.add_sub_cancel_left]
  apply search_eq_one
  · rw [length_finite, hlen]; omega
  · apply calculateMSERValue_wrap _ 0 (by rw [hlen]; omega)
    rw [hlen]; exact hwrap
  · exact hval 1 le_rfl (by omega)
  · intro k hk1 hk
    rw [length_finite, hlen] at hk
    exact ⟨_, hval k hk1 hk, spikeValue_antitone (a - k) (a - 1) (by omega) (by omega)⟩

/-! ## Batch means -/

theorem Dbl.addAssoc (a b c : Dbl) : (a.add b).add c = a.add (b.add c) := by
  cases a <;> cases b <;> cases c <;> simp [Dbl.add, add_assoc]

theorem Dbl.addZero (a : Dbl) : a.add Dbl.zero = a := by
  cases a <;> simp [Dbl.add, Dbl.zero]

theorem Dbl.foldlAdd (l : List Dbl) (acc : Dbl) : l.foldl Dbl.add acc = acc.add l.sum := by
  induction l generalizing acc with
  | nil => exact (Dbl.addZero acc).symm
  | cons x xs ih =>
    rw [List.foldl_cons, ih, List.sum_cons, Dbl.addAssoc]
    rfl

theorem Dbl.zeroAdd (a : Dbl) : Dbl.zero.add a = a := by
  cases a <;> simp [Dbl.add, Dbl.zero]

theorem sumRange_eq_sum (data : TimeSeriesData) (s e : Nat) (h : e ≤ data.length) :
    sumRange data s e = ((data.drop s).take (e - s)).sum := by
  rw [sumRange_eq_foldl data s e h, Dbl.foldlAdd, Dbl.zeroAdd]

theorem createBatchMeans_eq (data : TimeSeriesData) (B : Nat) (hB : 1 ≤ B) :
    createBatchMeans data B = (List.range (data.length / B)).map (batchMean data B) := by
  unfold createBatchMeans
  rw [if_neg (by omega)]
  apply List.map_congr_left
  intro i hi
  rw [List.mem_range] at hi
  have hle : i * B + B ≤ data.length := by
    have h1 : (i + 1) * B ≤ data.length / B * B := Nat.mul_le_mul_right B hi
    have h2 : data.length / B * B ≤ data.length := Nat.div_mul_le_self _ _
    calc i * B + B = (i + 1) * B := by ring
      _ ≤ data.length := h1.trans h2
  simp only
  rw [sumRange_eq_sum data _ _ hle, Nat.add_sub_cancel_left]
  rfl

theorem batchMean_take (data : TimeSeriesData) (B i : Nat) (hi : i < data.length / B) :
    batchMean (data.take (data.length / B * B)) B i = batchMean data B i := by
  have hle : (i + 1) * B ≤ data.length / B * B := Nat.mul_le_mul_right B hi
  unfold batchMean
  rw [List.drop_take, List.take_take]
  congr 2
  have : B ≤ data.length / B * B - i * B := by
    have : (i + 1) * B = i * B + B := by ring
    omega
  rw [Nat.min_eq_left this]

theorem batchMean_finite (Y : List ℚ) (B i : Nat) (hB : 1 ≤ B) :
    batchMean (finite Y) B i = Dbl.fin (batchMean Y B i) := by
  have hne : (B : ℚ) ≠ 0 := by exact_mod_cast (by omega : B ≠ 0)
  unfold batchMean
  have hsum : ∀ l : List ℚ, (l.map Dbl.fin).sum = Dbl.fin l.sum := by
    intro l
    have := foldl_add_fin l 0
    rw [Dbl.foldlAdd, zero_add] at this
    rw [← this]
    exact (Dbl.zeroAdd _).symm
  simp only [finite, ← List.map_drop, ← List.map_take]
  rw [hsum]
  exact Dbl.div_fin _ _ hne

theorem createBatchMeans_finite (Y : List ℚ) (B : Nat) (hB : 1 ≤ B) :
    createBatchMeans (finite Y) B = finite ((List.range (Y.length / B)).map (batchMean Y B)) := by
  rw [createBatchMeans_eq _ B hB, length_finite]
  show _ = List.map Dbl.fin _
  rw [List.map_map]
  apply List.map_congr_left
  intro i _
  exact batchMean_finite Y B i hB

/-- The search on a finite series with a constant suffix that starts at `k0`. -/
theorem findOptimalTruncationPoint_constant_suffix (Y : List ℚ) (k0 : Nat)
    (h2 : 2 ≤ Y.length / 2) (hsmall : Y.length < 2 ^ 32) (hk0 : k0 < Y.length / 2)
    (hconst : ∀ j, k0 ≤ j → j < Y.length → Y.getD j 0 = Y.getD k0 0)
    (hfirst : k0 = 0 ∨ Y.getD (k0 - 1) 0 ≠ Y.getD k0 0) :
    findOptimalTruncationPoint (finite Y) = (k0, Dbl.fin 0) := by
  obtain ⟨h1, h2, h3, h4⟩ := findOptimalTruncationPoint_finite Y h2 hsmall
  have hzero : ∀ k, k0 ≤ k → k < Y.length → gn Y k = 0 := fun k hk hkn =>
    gn_eq_zero_of_drop_eq_replicate Y k _ hkn (drop_eq_replicate_of_const Y k0 k hk hconst)
  have hpos : ∀ k, k < k0 → 0 < gn Y k := by
    intro k hk
    rcases hfirst with h | h
    · omega
    · exact gn_pos_of_ne Y k _ _ (by omega)
        (getD_mem_drop Y k (k0 - 1) (by omega) (by omega))
        (getD_mem_drop Y k k0 (by omega) (by omega)) h
  have hmin : gn Y (findOptimalTruncationPoint (finite Y)).1 = 0 :=
    le_antisymm (by simpa [hzero k0 le_rfl (by omega)] using h3 k0 hk0) (gn_nonneg _ _)
  have hkeq : (findOptimalTruncationPoint (finite Y)).1 = k0 := by
    rcases Nat.lt_trichotomy (findOptimalTruncationPoint (finite Y)).1 k0 with h | h | h
    · have := hpos _ h
      rw [hmin] at this
      exact absurd this (lt_irrefl _)
    · exact h
    · have := h4 k0 h
      rw [hmin, hzero k0 le_rfl (by omega)] at this
      exact absurd this (lt_irrefl _)
  apply Prod.ext
  · exact hkeq
  · show (findOptimalTruncationPoint (finite Y)).2 = Dbl.fin 0
    rw [h2, hmin]

theorem findOptimalTruncationPoint_replicate (n : Nat) (c : ℚ) (h2 : 4 ≤ n) (hsmall : n < 2 ^ 32) :
    findOptimalTruncationPoint (finite (List.replicate n c)) = (0, Dbl.fin 0) := by
  have hlen : (List.replicate n c).length = n := List.length_replicate ..
  apply findOptimalTruncationPoint_constant_suffix _ 0 (by rw [hlen]; omega) (by rw [hlen]; exact hsmall)
    (by rw [hlen]; omega) _ (Or.inl rfl)
  intro j _ hj
  rw [hlen] at hj
  rw [List.getD_eq_getElem _ _ (by rw [hlen]; exact hj),
    List.getD_eq_getElem _ _ (by rw [hlen]; omega)]
  simp

theorem batchMean_replicate (n B i : Nat) (c : ℚ) (hB : 1 ≤ B) (hi : (i + 1) * B ≤ n) :
    batchMean (List.replicate n c) B i = c := by
  have hne : (B : ℚ) ≠ 0 := by exact_mod_cast (by omega : B ≠ 0)
  have hle : B ≤ n - i * B := by
    have : (i + 1) * B = i * B + B := by ring
    omega
  unfold batchMean
  rw [List.drop_replicate, List.take_replicate, Nat.min_eq_left hle, List.sum_replicate,
    nsmul_eq_mul]
  field_simp

theorem createBatchMeans_replicate (n B : Nat) (c : ℚ) (hB : 1 ≤ B) :
    createBatchMeans (finite (List.replicate n c)) B = finite (List.replicate (n / B) c) := by
  rw [createBatchMeans_finite _ B hB, List.length_replicate]
  congr 1
  rw [List.eq_replicate_iff]
  refine ⟨by simp, ?_⟩
  intro b hb
  obtain ⟨i, hi, rfl⟩ := List.mem_map.mp hb
  rw [List.mem_range] at hi
  apply batchMean_replicate n B i c hB
  exact (Nat.mul_le_mul_right B hi).trans (Nat.div_mul_le_self _ _)

/-! ## The outcome of the search is finite -/

theorem wrapped_square_ne_zero (m : Nat) (hodd : m % 2 = 1) : m * m % sizeModulus ≠ 0 := by
  intro h
  have h1 : sizeModulus ∣ m * m := Nat.dvd_of_mod_eq_zero h
  have h2 : 2 ∣ sizeModulus := by norm_num [sizeModulus]
  have h3 : (m * m) % 2 = 0 := Nat.mod_eq_zero_of_dvd (h2.trans h1)
  rw [Nat.mul_mod, hodd] at h3
  norm_num at h3

theorem calculateMSERValue_lt_pinf (Y : List ℚ) (k : Nat) (h : k + 2 ≤ Y.length)
    (hodd : (Y.length - k) % 2 = 1) :
    (calculateMSERValue (finite Y) k).lt Dbl.pinf = true := by
  rw [calculateMSERValue_finite Y k h]
  have hne : (((Y.length - k) * (Y.length - k) % sizeModulus : Nat) : ℚ) ≠ 0 := by
    exact_mod_cast wrapped_square_ne_zero _ hodd
  rw [Dbl.ofNat, Dbl.div_fin _ _ hne]
  rfl

theorem findOptimalTruncationPoint_lt_pinf (Y : List ℚ) (h2 : 2 ≤ Y.length / 2) :
    (findOptimalTruncationPoint (finite Y)).2.lt Dbl.pinf = true := by
  have hl := length_finite Y
  obtain ⟨hA, hB⟩ := search_invariant (finite Y) ((finite Y).length / 2)
  rw [← findOptimalTruncationPoint_eq_foldl _ (by rw [hl]; exact h2)] at hA hB
  rcases hB with hB | ⟨_, _, h, _⟩
  · exfalso
    obtain ⟨k, hk, hfin⟩ : ∃ k, k < (finite Y).length / 2 ∧
        (calculateMSERValue (finite Y) k).lt Dbl.pinf = true := by
      rcases Nat.mod_two_eq_zero_or_one Y.length with he | ho
      · exact ⟨1, by rw [hl]; omega, calculateMSERValue_lt_pinf Y 1 (by omega) (by omega)⟩
      · exact ⟨0, by rw [hl]; omega, calculateMSERValue_lt_pinf Y 0 (by omega) (by omega)⟩
    have := hA k hk
    rw [hB, hfin] at this
    exact Bool.noConfusion this
  · exact h

theorem findOptimalTruncationPoint_fst_lt (data : TimeSeriesData) (h2 : 2 ≤ data.length / 2) :
    (findOptimalTruncationPoint data).1 < data.length / 2 := by
  obtain ⟨_, hB⟩ := search_invariant data (data.length / 2)
  rw [← findOptimalTruncationPoint_eq_foldl _ h2] at hB
  rcases hB with hB | ⟨h, _⟩
  · rw [hB]; show 0 < _; omega
  · exact h

/-- For a finite series of at least 10 and fewer than `2 ^ 32` samples whose suffix from `k0` on is
constant, `k0 < ⌊n/2⌋` being the first such index, `calculateMSER1` returns the truncation point
`k0` and the value 0. -/
theorem calculateMSER1_constant_suffix (Y : List ℚ) (k0 : Nat) (hn : 10 ≤ Y.length)
    (hsmall : Y.length < 2 ^ 32) (hk0 : k0 < Y.length / 2)
    (hconst : ∀ j, k0 ≤ j → j < Y.length → Y.getD j 0 = Y.getD k0 0)
    (hfirst : k0 = 0 ∨ Y.getD (k0 - 1) 0 ≠ Y.getD k0 0) :
    (calculateMSER1 (finite Y)).truncationPoint = k0 ∧
    (calculateMSER1 (finite Y)).mserValue = Dbl.fin 0 ∧
    (calculateMSER1 (finite Y)).converged = true := by
  rw [calculateMSER1_finite Y hn,
    findOptimalTruncationPoint_constant_suffix Y k0 (by omega) hsmall hk0 hconst hfirst]
  exact ⟨rfl, rfl, rfl⟩

theorem spike_series_not_least (a : Nat) (ha : 9 ≤ a)
    (hwrap : (a + 1) * (a + 1) % sizeModulus = 0) (hsmall : a < 2 ^ 32) :
    (calculateMSER1 (finite (List.replicate a (0 : ℚ) ++ [1]))).mserValue
      = Dbl.fin (spikeValue (a - 1)) ∧
    gn (List.replicate a (0 : ℚ) ++ [1]) 0 = spikeValue a ∧
    ¬ IsLeast
      (gn (List.replicate a (0 : ℚ) ++ [1]) ''
        {k | k < (List.replicate a (0 : ℚ) ++ [1]).length / 2})
      (spikeValue (a - 1)) := by
  have hlen : (List.replicate a (0 : ℚ) ++ [1]).length = a + 1 := by simp
  have hg0 : gn (List.replicate a (0 : ℚ) ++ [1]) 0 = spikeValue a := by
    have := gn_spike 0 a
    rwa [Nat.zero_add] at this
  refine ⟨?_, hg0, ?_⟩
  · rw [calculateMSER1_finite _ (by rw [hlen]; omega)]
    show (findOptimalTruncationPoint _).2 = _
    rw [spike_series_wrap a ha hwrap hsmall]
  · intro h
    have h1 := h.2 ⟨0, by rw [Set.mem_setOf_eq, hlen]; omega, rfl⟩
    rw [hg0] at h1
    have h2 := spikeValue_succ_lt (a - 1) (by omega)
    rw [show a - 1 + 1 = a by omega] at h2
    exact absurd h1 (not_le.mpr h2)

theorem constant_series_truncationPoint (n : Nat) (c : ℚ) (hn : 10 ≤ n)
    (hwrap : n * n % sizeModulus = 0) (hsmall : n - 1 < 2 ^ 32) :
    (calculateMSER1 (finite (List.replicate n c))).truncationPoint = 1 := by
  rw [calculateMSER1_finite _ (by rw [List.length_replicate]; exact hn)]
  show (findOptimalTruncationPoint _).1 = _
  rw [constant_series_wrap n c hn hwrap hsmall]

/-! ## Claims on the search -/

/-- C1 at a series of `2 ^ 32` finite samples (`2 ^ 32 - 1` zeros followed by a one): for the
candidate `k = 0` the product `effectiveN * effectiveN` wraps to `0`, the candidate is lost, and
`calculateMSER1` returns `g_n(1) = (2^32 - 2) / (2^32 - 1)^3`, which is not the minimum of
`g_n(k)` over `0 ≤ k < ⌊n/2⌋`, because `g_n(0) = (2^32 - 1) / (2^32)^3` is smaller. -/
theorem C1_wrapped_product :
    (calculateMSER1 (finite (List.replicate (2 ^ 32 - 1) (0 : ℚ) ++ [1]))).mserValue
      = Dbl.fin ((2 ^ 32 - 2) / (2 ^ 32 - 1) ^ 3) ∧
    gn (List.replicate (2 ^ 32 - 1) (0 : ℚ) ++ [1]) 0 = (2 ^ 32 - 1) / (2 ^ 32) ^ 3 ∧
    ¬ IsLeast
      (gn (List.replicate (2 ^ 32 - 1) (0 : ℚ) ++ [1]) ''
        {k | k < (List.replicate (2 ^ 32 - 1) (0 : ℚ) ++ [1]).length / 2})
      ((2 ^ 32 - 2) / (2 ^ 32 - 1) ^ 3) := by
  have hv : spikeValue (2 ^ 32 - 1 - 1) = (2 ^ 32 - 2) / (2 ^ 32 - 1) ^ 3 := by
    norm_num [spikeValue]
  have hw : spikeValue (2 ^ 32 - 1) = (2 ^ 32 - 1) / (2 ^ 32) ^ 3 := by
    norm_num [spikeValue]
  have h := spike_series_not_least (2 ^ 32 - 1) (by norm_num) (by norm_num [sizeModulus])
    (by norm_num)
  rw [hv, hw] at h
  exact h

/-- C3: for every series and every batch size `B ≥ 1` the batch means returned by
`calculateBatchStatistics` are the `⌊|data|/B⌋` arithmetic means of the consecutive blocks of `B`
samples, the `i`-th being `(data[i*B] + ... + data[i*B + B - 1]) / B`, and the samples after the
last full block contribute nothing; for `B = 0` the sequence is empty; `originalSampleCount` is
`|data|` and `batchSize` is `B` in both cases. -/
theorem C3_batch_means (data : TimeSeriesData) (B : Nat) :
    (1 ≤ B →
      (calculateBatchStatistics data B).batchMeans.length = data.length / B ∧
      (calculateBatchStatistics data B).batchMeans
        = (List.range (data.length / B)).map (batchMean data B) ∧
      (calculateBatchStatistics data B).batchMeans
        = (calculateBatchStatistics (data.take (data.length / B * B)) B).batchMeans) ∧
    (calculateBatchStatistics data 0).batchMeans = [] ∧
    (calculateBatchStatistics data B).originalSampleCount = data.length ∧
    (calculateBatchStatistics data B).batchSize = B := by
  refine ⟨fun hB => ⟨?_, ?_, ?_⟩, rfl, rfl, rfl⟩
  · show (createBatchMeans data B).length = _
    rw [createBatchMeans_eq data B hB]
    simp
  · exact createBatchMeans_eq data B hB
  · show createBatchMeans data B = createBatchMeans (data.take (data.length / B * B)) B
    have hlen : (data.take (data.length / B * B)).length / B = data.length / B := by
      rw [List.length_take, Nat.min_eq_left (Nat.div_mul_le_self _ _)]
      exact Nat.mul_div_cancel _ (by omega)
    rw [createBatchMeans_eq data B hB, createBatchMeans_eq _ B hB, hlen]
    apply List.map_congr_left
    intro i hi
    exact (batchMean_take data B i (List.mem_range.mp hi)).symm

/-- C3 at the series `3, 1, 1, 1, 1` and the batch size 2. -/
theorem C3_batch_means_witness :
    1 ≤ 2 ∧
    ((calculateBatchStatistics (finite exampleSeries) 2).batchMeans.length
        = (finite exampleSeries).length / 2 ∧
      (calculateBatchStatistics (finite exampleSeries) 2).batchMeans
        = (List.range ((finite exampleSeries).length / 2)).map
            (batchMean (finite exampleSeries) 2) ∧
      (calculateBatchStatistics (finite exampleSeries) 2).batchMeans
        = (calculateBatchStatistics
            ((finite exampleSeries).take ((finite exampleSeries).length / 2 * 2)) 2).batchMeans) ∧
    (calculateBatchStatistics (finite exampleSeries) 0).batchMeans = [] ∧
    (calculateBatchStatistics (finite exampleSeries) 2).originalSampleCount
      = (finite exampleSeries).length ∧
    (calculateBatchStatistics (finite exampleSeries) 2).batchSize = 2 :=
  ⟨by decide, (C3_batch_means (finite exampleSeries) 2).1 (by decide),
    (C3_batch_means (finite exampleSeries) 2).2⟩

/-! ## `calculateMSERm` -/

theorem calculateMSERm_finite (Y : List ℚ) (B : Nat) (hB : 1 ≤ B) (hn : 10 ≤ Y.length / B) :
    calculateMSERm (finite Y) B =
      { truncationPoint := (findOptimalTruncationPoint (createBatchMeans (finite Y) B)).1
        mserValue := (findOptimalTruncationPoint (createBatchMeans (finite Y) B)).2
        converged := (findOptimalTruncationPoint (createBatchMeans (finite Y) B)).2.lt Dbl.pinf
        reason := if (findOptimalTruncationPoint (createBatchMeans (finite Y) B)).2.lt Dbl.pinf
          = true then Reason.ok else Reason.notConverged
        totalSamples := Y.length
        batchCount := Y.length / B
        variant := if B = 5 then MSERVariant.MSER_5 else MSERVariant.MSER_M } := by
  have hlen : (createBatchMeans (finite Y) B).length = Y.length / B := by
    rw [createBatchMeans_finite Y B hB, length_finite]; simp
  have h10 : 10 * B ≤ Y.length := by
    have := Nat.mul_le_mul_right B hn
    exact this.trans (Nat.div_mul_le_self _ _)
  have hval : B * 2 % sizeModulus ≤ Y.length := (Nat.mod_le _ _).trans (by omega)
  unfold calculateMSERm
  simp only [validateData_finite, hlen, length_finite, MSERResult.init, hval, decide_True,
    Bool.not_true, Bool.false_eq_true, if_false, if_neg (show ¬ Y.length / B < 10 by omega)]

/-- C4: for every series of finite samples and every `B ≥ 1` with `⌊|data|/B⌋ ≥ 10`,
`calculateMSERm(data, B)` returns as `truncationPoint` and `mserValue` the pair that
`findOptimalTruncationPoint` returns on the batch means of `data` (the means of the consecutive
blocks of `B` samples), with `batchCount = ⌊|data|/B⌋`, `totalSamples = |data|` and `truncationPoint < ⌊batchCount/2⌋`; and
`calculateMSER5` on 100 samples equal to 3 gives `truncationPoint = 0`, `mserValue = 0`,
`batchCount = 20` and `variant = MSER_5`. -/
theorem C4_batch_units (Y : List ℚ) (B : Nat) (hB : 1 ≤ B) (hn : 10 ≤ Y.length / B) :
    ((calculateMSERm (finite Y) B).truncationPoint, (calculateMSERm (finite Y) B).mserValue)
      = findOptimalTruncationPoint (calculateBatchStatistics (finite Y) B).batchMeans ∧
    (calculateBatchStatistics (finite Y) B).batchMeans
      = finite ((List.range (Y.length / B)).map (batchMean Y B)) ∧
    (calculateMSERm (finite Y) B).batchCount = Y.length / B ∧
    (calculateMSERm (finite Y) B).totalSamples = Y.length ∧
    (calculateMSERm (finite Y) B).truncationPoint < (calculateMSERm (finite Y) B).batchCount / 2 ∧
    ((calculateMSER5 (finite (List.replicate 100 3))).truncationPoint = 0 ∧
      (calculateMSER5 (finite (List.replicate 100 3))).mserValue = Dbl.fin 0 ∧
      (calculateMSER5 (finite (List.replicate 100 3))).batchCount = 20 ∧
      (calculateMSER5 (finite (List.replicate 100 3))).variant = MSERVariant.MSER_5) := by
  have hlen : (createBatchMeans (finite Y) B).length = Y.length / B := by
    rw [createBatchMeans_finite Y B hB, length_finite]; simp
  refine ⟨?_, createBatchMeans_finite Y B hB, ?_, ?_, ?_, ?_⟩
  · rw [calculateMSERm_finite Y B hB hn]; rfl
  · rw [calculateMSERm_finite Y B hB hn]
  · rw [calculateMSERm_finite Y B hB hn]
  · rw [calculateMSERm_finite Y B hB hn]
    show (findOptimalTruncationPoint (createBatchMeans (finite Y) B)).1 < (Y.length / B) / 2
    rw [← hlen]
    exact findOptimalTruncationPoint_fst_lt _ (by rw [hlen]; omega)
  · have h : calculateMSER5 (finite (List.replicate 100 (3 : ℚ)))
        = calculateMSERm (finite (List.replicate 100 3)) 5 := rfl
    rw [h, calculateMSERm_finite _ 5 (by norm_num) (by rw [List.length_replicate]; norm_num),
      createBatchMeans_replicate 100 5 3 (by norm_num),
      findOptimalTruncationPoint_replicate (100 / 5) 3 (by norm_num) (by norm_num)]
    simp

/-- C4 at 100 samples equal to 3 and the batch size 5. -/
theorem C4_batch_units_witness :
    (1 ≤ 5 ∧ 10 ≤ (List.replicate 100 (3 : ℚ)).length / 5) ∧
    ((calculateMSERm (finite (List.replicate 100 3)) 5).truncationPoint,
        (calculateMSERm (finite (List.replicate 100 3)) 5).mserValue)
      = findOptimalTruncationPoint
          (calculateBatchStatistics (finite (List.replicate 100 3)) 5).batchMeans ∧
    (calculateMSERm (finite (List.replicate 100 3)) 5).batchCount
      = (List.replicate 100 (3 : ℚ)).length / 5 ∧
    (calculateMSERm (finite (List.replicate 100 3)) 5).totalSamples
      = (List.replicate 100 (3 : ℚ)).length ∧
    (calculateMSERm (finite (List.replicate 100 3)) 5).truncationPoint
      < (calculateMSERm (finite (List.replicate 100 3)) 5).batchCount / 2 :=
  have h := C4_batch_units (List.replicate 100 3) 5 (by decide) (by decide)
  ⟨⟨by decide, by decide⟩, h.1, h.2.2.1, h.2.2.2.1, h.2.2.2.2.1⟩

/-! ## Failure results -/

theorem calculateMSER1_of_invalid (data : TimeSeriesData) (h : validateData data 10 = false) :
    calculateMSER1 data =
      { MSERResult.init with
        variant := MSERVariant.MSER_1
        totalSamples := data.length
        converged := false
        reason := Reason.insufficientData } := by
  unfold calculateMSER1
  simp [h]

theorem calculateMSERm_of_invalid (data : TimeSeriesData) (B : Nat)
    (h : validateData data (B * 2 % sizeModulus) = false) :
    calculateMSERm data B =
      { MSERResult.init with
        variant := if B = 5 then MSERVariant.MSER_5 else MSERVariant.MSER_M
        totalSamples := data.length
        converged := false
        reason := Reason.insufficientBatchData } := by
  unfold calculateMSERm
  simp [h]

theorem calculateMSERm_of_few_batches (data : TimeSeriesData) (B : Nat)
    (h : validateData data (B * 2 % sizeModulus) = true)
    (hfew : (createBatchMeans data B).length < 10) :
    calculateMSERm data B =
      { MSERResult.init with
        variant := if B = 5 then MSERVariant.MSER_5 else MSERVariant.MSER_M
        totalSamples := data.length
        batchCount := (createBatchMeans data B).length
        converged := false
        reason := Reason.insufficientBatches } := by
  unfold calculateMSERm
  simp [h, hfew]

theorem calculateMSERm_ok (Y : List ℚ) (B : Nat) (hB : 1 ≤ B) (hn : 10 ≤ Y.length / B) :
    (calculateMSERm (finite Y) B).reason = Reason.ok ∧
    (calculateMSERm (finite Y) B).converged = true := by
  have hconv : (findOptimalTruncationPoint (createBatchMeans (finite Y) B)).2.lt Dbl.pinf
      = true := by
    rw [createBatchMeans_finite Y B hB]
    apply findOptimalTruncationPoint_lt_pinf
    simp only [List.length_map, List.length_range]
    omega
  rw [calculateMSERm_finite Y B hB hn]
  simp [hconv]

/-- C6, as stated, at 50 samples of which the first is NaN: `calculateMSER5` fails with the
reason of `calculateMSERm` for a rejected series, insufficient-batch-data, and not with
insufficient-data. -/
theorem C6_reason_of_calculateMSER5 :
    ¬ ((∃ x ∈ seriesWithNaN, x.isfinite = false) →
        (calculateMSER5 seriesWithNaN).converged = false ∧
        (calculateMSER5 seriesWithNaN).mserValue = Dbl.fin 0 ∧
        (calculateMSER5 seriesWithNaN).truncationPoint = 0 ∧
        (calculateMSER5 seriesWithNaN).reason = Reason.insufficientData) := by
  intro h
  have h1 := (h ⟨Dbl.nan, by simp [seriesWithNaN], rfl⟩).2.2.2
  revert h1
  decide

/-- C6 as amended: for every series that contains a non-finite sample, every variant returns the
failure result with `converged = false`, `mserValue = 0` and `truncationPoint = 0`; the reason is
insufficient-data for `calculateMSER1` (and `calculate` with the variant `MSER_1`), and
insufficient-batch-data for `calculateMSER5`, for `calculateMSERm` with any `B`, and for
`calculate` with the variants `MSER_5` and `MSER_M`. -/
theorem C6_non_finite_sample (data : TimeSeriesData) (B : Nat) (cfg : SteadyStateConfig)
    (h : ∃ x ∈ data, x.isfinite = false) :
    ((calculateMSER1 data).converged = false ∧ (calculateMSER1 data).mserValue = Dbl.fin 0 ∧
      (calculateMSER1 data).truncationPoint = 0 ∧
      (calculateMSER1 data).reason = Reason.insufficientData) ∧
    ((calculateMSER5 data).converged = false ∧ (calculateMSER5 data).mserValue = Dbl.fin 0 ∧
      (calculateMSER5 data).truncationPoint = 0 ∧
      (calculateMSER5 data).reason = Reason.insufficientBatchData) ∧
    ((calculateMSERm data B).converged = false ∧ (calculateMSERm data B).mserValue = Dbl.fin 0 ∧
      (calculateMSERm data B).truncationPoint = 0 ∧
      (calculateMSERm data B).reason = Reason.insufficientBatchData) ∧
    ((calculate data cfg).converged = false ∧ (calculate data cfg).mserValue = Dbl.fin 0 ∧
      (calculate data cfg).truncationPoint = 0 ∧
      (calculate data cfg).reason
        = if cfg.variant = MSERVariant.MSER_1 then Reason.insufficientData
          else Reason.insufficientBatchData) := by
  have h1 : (calculateMSER1 data).converged = false ∧ (calculateMSER1 data).mserValue = Dbl.fin 0 ∧
      (calculateMSER1 data).truncationPoint = 0 ∧
      (calculateMSER1 data).reason = Reason.insufficientData := by
    rw [calculateMSER1_of_invalid data (validateData_of_not_finite data 10 h)]
    exact ⟨rfl, rfl, rfl, rfl⟩
  have hm : ∀ b, (calculateMSERm data b).converged = false ∧
      (calculateMSERm data b).mserValue = Dbl.fin 0 ∧
      (calculateMSERm data b).truncationPoint = 0 ∧
      (calculateMSERm data b).reason = Reason.insufficientBatchData := by
    intro b
    rw [calculateMSERm_of_invalid data b (validateData_of_not_finite data _ h)]
    exact ⟨rfl, rfl, rfl, rfl⟩
  refine ⟨h1, hm 5, hm B, ?_⟩
  unfold calculate
  cases cfg.variant
  · simpa using h1
  · simpa using hm 5
  · simpa using hm cfg.batchSize

/-- C6 as amended, at 50 samples of which the first is NaN, the batch size 7 and the default
configuration. -/
theorem C6_non_finite_sample_witness :
    (∃ x ∈ seriesWithNaN, x.isfinite = false) ∧
    ((calculateMSER1 seriesWithNaN).converged = false ∧
      (calculateMSER1 seriesWithNaN).mserValue = Dbl.fin 0 ∧
      (calculateMSER1 seriesWithNaN).truncationPoint = 0 ∧
      (calculateMSER1 seriesWithNaN).reason = Reason.insufficientData) ∧
    ((calculateMSER5 seriesWithNaN).converged = false ∧
      (calculateMSER5 seriesWithNaN).mserValue = Dbl.fin 0 ∧
      (calculateMSER5 seriesWithNaN).truncationPoint = 0 ∧
      (calculateMSER5 seriesWithNaN).reason = Reason.insufficientBatchData) ∧
    ((calculateMSERm seriesWithNaN 7).converged = false ∧
      (calculateMSERm seriesWithNaN 7).mserValue = Dbl.fin 0 ∧
      (calculateMSERm seriesWithNaN 7).truncationPoint = 0 ∧
      (calculateMSERm seriesWithNaN 7).reason = Reason.insufficientBatchData) ∧
    ((calculate seriesWithNaN SteadyStateConfig.init).converged = false ∧
      (calculate seriesWithNaN SteadyStateConfig.init).mserValue = Dbl.fin 0 ∧
      (calculate seriesWithNaN SteadyStateConfig.init).truncationPoint = 0 ∧
      (calculate seriesWithNaN SteadyStateConfig.init).reason
        = if SteadyStateConfig.init.variant = MSERVariant.MSER_1 then Reason.insufficientData
          else Reason.insufficientBatchData) :=
  ⟨⟨Dbl.nan, by simp [seriesWithNaN], rfl⟩,
    C6_non_finite_sample seriesWithNaN 7 SteadyStateConfig.init
      ⟨Dbl.nan, by simp [seriesWithNaN], rfl⟩⟩

/-! ## Constant suffixes -/

theorem length_transientSeries : transientSeries.length = 100 := by
  simp only [transientSeries, List.length_append, List.length_map, List.length_range,
    List.length_replicate]

theorem getD_transientSeries_of_ge (j : Nat) (h : 20 ≤ j) : transientSeries.getD j 0 = 0 := by
  unfold transientSeries
  rw [List.getD_eq_getElem?_getD,
    List.getElem?_append_right (by rw [List.length_map, List.length_range]; exact h),
    List.getElem?_replicate]
  split <;> rfl

theorem getD_transientSeries_19 : transientSeries.getD 19 0 = 1 := by
  unfold transientSeries
  rw [List.getD_eq_getElem?_getD,
    List.getElem?_append_left (by rw [List.length_map, List.length_range]; norm_num),
    List.getElem?_map, List.getElem?_range (by norm_num)]
  norm_num

/-- Scenario S1: 100 samples equal to 7. -/
theorem scenario_constant_series :
    (calculateMSER1 (finite (List.replicate 100 7))).truncationPoint = 0 ∧
    (calculateMSER1 (finite (List.replicate 100 7))).mserValue = Dbl.fin 0 ∧
    (calculateMSER1 (finite (List.replicate 100 7))).converged = true := by
  rw [calculateMSER1_finite _ (by rw [List.length_replicate]; norm_num),
    findOptimalTruncationPoint_replicate 100 7 (by norm_num) (by norm_num)]
  exact ⟨rfl, rfl, rfl⟩

/-- Scenario S2: a linear transient of 20 samples followed by 80 zeros. -/
theorem scenario_transient :
    (calculateMSER1 (finite transientSeries)).truncationPoint = 20 ∧
    (calculateMSER1 (finite transientSeries)).mserValue = Dbl.fin 0 ∧
    (calculateMSER1 (finite transientSeries)).converged = true := by
  apply calculateMSER1_constant_suffix transientSeries 20
  · rw [length_transientSeries]; norm_num
  · rw [length_transientSeries]; norm_num
  · rw [length_transientSeries]; norm_num
  · intro j hj _
    rw [getD_transientSeries_of_ge j hj, getD_transientSeries_of_ge 20 le_rfl]
  · right
    rw [getD_transientSeries_19, getD_transientSeries_of_ge 20 le_rfl]
    norm_num

/-- C7 at a series of `2 ^ 32` samples all equal to 7: the whole series is constant, so the claim
asks for the truncation point 0, but for the candidate `k = 0` the product
`effectiveN * effectiveN` wraps to `0`, the quotient `0.0 / 0` is NaN, and `calculateMSER1`
returns the truncation point 1. -/
theorem C7_wrapped_product :
    (calculateMSER1 (finite (List.replicate (2 ^ 32) (7 : ℚ)))).truncationPoint = 1 :=
  constant_series_truncationPoint (2 ^ 32) 7 (by norm_num) (by norm_num [sizeModulus])
    (by norm_num)

/-! ## The detector -/

open SteadyStateDetector

theorem length_createBatchMeans (data : TimeSeriesData) (B : Nat) :
    (createBatchMeans data B).length = data.length / B := by
  unfold createBatchMeans
  split
  · next h => simp [h]
  · simp

theorem calculate_of_short (data : TimeSeriesData) (cfg : SteadyStateConfig)
    (h : data.length < 10) : (calculate data cfg).converged = false := by
  have h1 : (calculateMSER1 data).converged = false := by
    rw [calculateMSER1_of_invalid data (by simp [validateData, h])]
  have hm : ∀ b, (calculateMSERm data b).converged = false := by
    intro b
    cases hv : validateData data (b * 2 % sizeModulus)
    · rw [calculateMSERm_of_invalid data b hv]
    · rw [calculateMSERm_of_few_batches data b hv
        (by rw [length_createBatchMeans]; exact (Nat.div_le_self _ _).trans_lt h)]
  unfold calculate
  cases cfg.variant
  · exact h1
  · exact hm 5
  · exact hm cfg.batchSize

theorem checkConvergence_ret (d : SteadyStateDetector) :
    d.checkConvergence.ret = d.checkConvergence.det.converged_ := by
  unfold checkConvergence
  by_cases hc : d.converged_ = true
  · simp [hc]
  · have hc' : d.converged_ = false := by simpa using hc
    simp only [hc', Bool.false_eq_true, if_false]
    split
    · exact hc'.symm
    · split
      · exact hc'.symm
      · split <;> rfl

theorem checkConvergence_of_converged (d : SteadyStateDetector) (h : d.converged_ = true) :
    d.checkConvergence = ⟨d, true, []⟩ := by
  unfold checkConvergence
  simp [h]

theorem addDataPoint_of_converged (d : SteadyStateDetector) (v : Dbl) (h : d.converged_ = true) :
    d.addDataPoint v = ⟨d, true, []⟩ := by
  unfold addDataPoint
  simp [h]

theorem addDataPoints_of_converged (d : SteadyStateDetector) (vs : List Dbl)
    (h : d.converged_ = true) : (d.addDataPoints vs).det = d := by
  cases vs with
  | nil => rfl
  | cons v vs => simp [addDataPoints, addDataPoint_of_converged d v h]

theorem apply_of_converged (d : SteadyStateDetector) (op : Op) (h : d.converged_ = true)
    (hop : op ≠ Op.reset) : (op.apply d).det.converged_ = true := by
  cases op with
  | addDataPoint v => simp [Op.apply, addDataPoint_of_converged d v h, h]
  | addDataPoints vs => simp [Op.apply, addDataPoints_of_converged d vs h, h]
  | checkConvergence => simp [Op.apply, checkConvergence_of_converged d h, h]
  | reset => exact absurd rfl hop
  | updateConfig cfg => simpa [Op.apply, updateConfig] using h
  | setConvergenceCallback cb => simpa [Op.apply, setConvergenceCallback] using h

/-- C8: from a detector whose latch is set, every sequence of calls of `addDataPoint`,
`addDataPoints`, `checkConvergence`, `updateConfig` and `setConvergenceCallback` (no `reset`)
leaves `hasConverged()` true. -/
theorem C8_latch_is_sticky (d : SteadyStateDetector) (ops : List Op)
    (hlatched : d.hasConverged = true) (hnoreset : ∀ op ∈ ops, op ≠ Op.reset) :
    (runOps d ops).hasConverged = true := by
  induction ops generalizing d with
  | nil => exact hlatched
  | cons op ops ih =>
    apply ih
    · exact apply_of_converged d op hlatched (hnoreset op (List.mem_cons_self _ _))
    · intro op' hop'
      exact hnoreset op' (List.mem_cons_of_mem _ hop')

/-- C8 at the detector of scenario S5 after exhaustion. -/
theorem C8_latch_is_sticky_witness :
    (exhaustedDetector.hasConverged = true ∧ ∀ op ∈ callsWithoutReset, op ≠ Op.reset) ∧
    (runOps exhaustedDetector callsWithoutReset).hasConverged = true :=
  ⟨⟨by decide, by simp [callsWithoutReset]⟩,
    C8_latch_is_sticky exhaustedDetector callsWithoutReset (by decide)
      (by simp [callsWithoutReset])⟩

/-- The path of `addDataPoint` taken when the appended sample brings the buffer above
`maxSamples`. -/
theorem addDataPoint_of_full (d : SteadyStateDetector) (v : Dbl) (hun : d.converged_ = false)
    (hfull : d.config_.maxSamples ≤ d.data_.length) :
    d.addDataPoint v =
      ⟨{ d with
          data_ := d.data_ ++ [v]
          converged_ := true
          lastResult_ := { d.lastResult_ with
            converged := false
            reason := Reason.maxSamplesExhausted } },
        false,
        match d.convergenceCallback_ with
        | some handle => [Event.callback handle { d.lastResult_ with
            converged := false
            reason := Reason.maxSamplesExhausted }]
        | none => []⟩ := by
  unfold addDataPoint
  have hgt : (d.data_ ++ [v]).length > d.config_.maxSamples := by
    rw [List.length_append, List.length_singleton]; omega
  simp only [hun, Bool.false_eq_true, if_false, hgt, if_true, triggerCallback]

/-- An append that keeps the buffer below ten samples and within `maxSamples` does not set the
latch. -/
theorem addDataPoint_of_short (d : SteadyStateDetector) (v : Dbl) (hun : d.converged_ = false)
    (hroom : d.data_.length + 1 ≤ d.config_.maxSamples) (hshort : d.data_.length + 1 < 10) :
    (d.addDataPoint v).ret = false ∧ (d.addDataPoint v).det.converged_ = false ∧
    (d.addDataPoint v).det.data_ = d.data_ ++ [v] ∧
    (d.addDataPoint v).det.config_ = d.config_ := by
  have hlen : (d.data_ ++ [v]).length = d.data_.length + 1 := by simp
  have hcalc := calculate_of_short (d.data_ ++ [v]) d.config_ (by rw [hlen]; exact hshort)
  unfold addDataPoint
  simp only [hun, Bool.false_eq_true, if_false, hlen, gt_iff_lt, not_lt.mpr hroom]
  split
  · unfold checkConvergence
    simp only [hun, Bool.false_eq_true, if_false]
    split
    · exact ⟨rfl, rfl, rfl, rfl⟩
    · split
      · exact ⟨rfl, rfl, rfl, rfl⟩
      · simp [evaluateConvergence, hcalc, hun]
  · exact ⟨rfl, rfl, rfl, rfl⟩

theorem feed_of_short (d : SteadyStateDetector) (vs : List Dbl) (hun : d.converged_ = false)
    (hroom : d.data_.length + vs.length ≤ d.config_.maxSamples)
    (hshort : d.data_.length + vs.length < 10) :
    (feed d vs).converged_ = false ∧ (feed d vs).data_ = d.data_ ++ vs ∧
    (feed d vs).config_ = d.config_ := by
  induction vs generalizing d with
  | nil => simp [feed, hun]
  | cons v vs ih =>
    rw [List.length_cons] at hroom hshort
    obtain ⟨_, h2, h3, h4⟩ := addDataPoint_of_short d v hun (by omega) (by omega)
    have := ih (d.addDataPoint v).det h2
      (by rw [h3, h4, List.length_append, List.length_singleton]; omega)
      (by rw [h3, List.length_append, List.length_singleton]; omega)
    rw [h3, h4] at this
    simpa [feed] using this

theorem feed_append_singleton (d : SteadyStateDetector) (vs : List Dbl) (v : Dbl) :
    feed d (vs ++ [v]) = ((feed d vs).addDataPoint v).det := by
  simp [feed, List.foldl_append]

/-- C9: in an unlatched detector whose buffer already holds `maxSamples` samples or more,
`addDataPoint(v)` returns false, appends `v`, sets the latch, leaves `lastResult` with
`converged = false` and the reason max-samples-exhausted, invokes the installed callback with that
result and runs no estimator pass; every later append returns true and changes nothing.  With
`maxSamples = 5` the latch is not set by any of the first five appends to a fresh detector, and
the sixth append is the one described. -/
theorem C9_max_samples (d : SteadyStateDetector) (v w : Dbl) (cfg : SteadyStateConfig)
    (vs : List Dbl) (v6 : Dbl) (hun : d.hasConverged = false)
    (hfull : d.config_.maxSamples ≤ d.data_.length) (hcfg : cfg.maxSamples = 5)
    (hvs : vs.length = 5) :
    ((d.addDataPoint v).ret = false ∧
      (d.addDataPoint v).det.data_ = d.data_ ++ [v] ∧
      (d.addDataPoint v).det.hasConverged = true ∧
      (d.addDataPoint v).det.lastResult_.converged = false ∧
      (d.addDataPoint v).det.lastResult_.reason = Reason.maxSamplesExhausted ∧
      (d.addDataPoint v).events
        = (match d.convergenceCallback_ with
          | some handle => [Event.callback handle (d.addDataPoint v).det.lastResult_]
          | none => []) ∧
      (∀ n, Event.estimatorPass n ∉ (d.addDataPoint v).events) ∧
      (d.addDataPoint v).det.addDataPoint w = ⟨(d.addDataPoint v).det, true, []⟩) ∧
    ((∀ j, j ≤ 5 → (feed (SteadyStateDetector.new cfg) (vs.take j)).hasConverged = false) ∧
      ((feed (SteadyStateDetector.new cfg) vs).addDataPoint v6).ret = false ∧
      (feed (SteadyStateDetector.new cfg) (vs ++ [v6])).hasConverged = true ∧
      (feed (SteadyStateDetector.new cfg) (vs ++ [v6])).lastResult_.converged = false ∧
      (feed (SteadyStateDetector.new cfg) (vs ++ [v6])).lastResult_.reason
        = Reason.maxSamplesExhausted ∧
      (feed (SteadyStateDetector.new cfg) (vs ++ [v6])).addDataPoint w
        = ⟨feed (SteadyStateDetector.new cfg) (vs ++ [v6]), true, []⟩) := by
  have general : ∀ (e : SteadyStateDetector) (x : Dbl), e.converged_ = false →
      e.config_.maxSamples ≤ e.data_.length →
      (e.addDataPoint x).ret = false ∧
      (e.addDataPoint x).det.data_ = e.data_ ++ [x] ∧
      (e.addDataPoint x).det.hasConverged = true ∧
      (e.addDataPoint x).det.lastResult_.converged = false ∧
      (e.addDataPoint x).det.lastResult_.reason = Reason.maxSamplesExhausted ∧
      (e.addDataPoint x).events
        = (match e.convergenceCallback_ with
          | some handle => [Event.callback handle (e.addDataPoint x).det.lastResult_]
          | none => []) ∧
      (∀ n, Event.estimatorPass n ∉ (e.addDataPoint x).events) ∧
      (e.addDataPoint x).det.addDataPoint w = ⟨(e.addDataPoint x).det, true, []⟩ := by
    intro e x he hfulle
    have hstep := addDataPoint_of_full e x he hfulle
    refine ⟨by rw [hstep], by rw [hstep], by rw [hstep]; rfl, by rw [hstep], by rw [hstep],
      by rw [hstep], ?_, ?_⟩
    · intro n
      rw [hstep]
      cases e.convergenceCallback_ <;> simp
    · exact addDataPoint_of_converged _ w (by rw [hstep])
  refine ⟨general d v hun hfull, ?_⟩
  have hfresh : ∀ j, j ≤ 5 →
      (feed (SteadyStateDetector.new cfg) (vs.take j)).converged_ = false ∧
      (feed (SteadyStateDetector.new cfg) (vs.take j)).data_ = vs.take j ∧
      (feed (SteadyStateDetector.new cfg) (vs.take j)).config_ = cfg := by
    intro j hj
    have hlen : (vs.take j).length = j := by rw [List.length_take]; omega
    have := feed_of_short (SteadyStateDetector.new cfg) (vs.take j) rfl
      (by show 0 + _ ≤ cfg.maxSamples; rw [hlen, hcfg]; omega)
      (by show 0 + _ < 10; rw [hlen]; omega)
    simpa [SteadyStateDetector.new] using this
  have h5 := hfresh 5 le_rfl
  rw [List.take_of_length_le (by omega)] at h5
  obtain ⟨h5a, h5b, h5c⟩ := h5
  have hsix := general (feed (SteadyStateDetector.new cfg) vs) v6 h5a
    (by rw [h5b, h5c, hcfg, hvs])
  rw [feed_append_singleton]
  exact ⟨fun j hj => (hfresh j hj).1, hsix.1, hsix.2.2.1, hsix.2.2.2.1, hsix.2.2.2.2.1,
    hsix.2.2.2.2.2.2.2⟩

/-- C9 at the detector of scenario S5 after five samples. -/
theorem C9_max_samples_witness :
    (fullDetector.hasConverged = false ∧
      fullDetector.config_.maxSamples ≤ fullDetector.data_.length ∧
      exhaustionConfig.maxSamples = 5 ∧ (List.replicate 5 (Dbl.fin 0)).length = 5) ∧
    (fullDetector.addDataPoint (Dbl.fin 0)).ret = false ∧
    (fullDetector.addDataPoint (Dbl.fin 0)).det.hasConverged = true ∧
    (fullDetector.addDataPoint (Dbl.fin 0)).det.lastResult_.reason
      = Reason.maxSamplesExhausted ∧
    (feed (SteadyStateDetector.new exhaustionConfig)
      (List.replicate 5 (Dbl.fin 0) ++ [Dbl.fin 0])).hasConverged = true :=
  have h := C9_max_samples fullDetector (Dbl.fin 0) (Dbl.fin 0) exhaustionConfig
    (List.replicate 5 (Dbl.fin 0)) (Dbl.fin 0) (by decide) (by decide) (by decide) (by decide)
  ⟨⟨by decide, by decide, by decide, by decide⟩, h.1.1, h.1.2.2.1, h.1.2.2.2.2.1, h.2.2.2.1⟩

/-- C10, as stated, at the detector of scenario S5 after five samples: the sixth `addDataPoint`
returns false although `hasConverged()` is true when it returns. -/
theorem C10_sixth_append :
    ¬ ((fullDetector.addDataPoint (Dbl.fin 0)).ret = true
        ↔ (fullDetector.addDataPoint (Dbl.fin 0)).det.hasConverged = true) := by
  decide

/-- C10 as amended: `addDataPoint(v)` returns true if and only if `hasConverged()` is true when
the call returns and the call is not the one that brings the buffer of an unlatched detector above
`maxSamples` (that call sets the latch and returns false). -/
theorem C10_return_value (d : SteadyStateDetector) (v : Dbl) :
    (d.addDataPoint v).ret = true ↔
      ((d.addDataPoint v).det.hasConverged = true ∧
        ¬ (d.hasConverged = false ∧ d.config_.maxSamples < d.data_.length + 1)) := by
  unfold hasConverged
  by_cases hc : d.converged_ = true
  · rw [addDataPoint_of_converged d v hc]
    simp [hc]
  · have hc' : d.converged_ = false := by simpa using hc
    by_cases hfull : d.config_.maxSamples ≤ d.data_.length
    · rw [addDataPoint_of_full d v hc' hfull]
      simp [hc']
      omega
    · have hlen : (d.data_ ++ [v]).length = d.data_.length + 1 := by simp
      have hno : ¬ (d.converged_ = false ∧ d.config_.maxSamples < d.data_.length + 1) := by
        intro h; omega
      unfold addDataPoint
      simp only [hc', Bool.false_eq_true, if_false, hlen, gt_iff_lt,
        show ¬ d.config_.maxSamples < d.data_.length + 1 by omega]
      split
      · rw [checkConvergence_ret]
        simp
      · simp

theorem feed_of_converged (d : SteadyStateDetector) (vs : List Dbl) (h : d.converged_ = true) :
    feed d vs = d := by
  induction vs with
  | nil => rfl
  | cons v vs ih =>
    show feed (d.addDataPoint v).det vs = d
    rw [addDataPoint_of_converged d v h]
    exact ih

/-- C11: in a detector whose latch is set, `addDataPoint(v)` returns true, leaves the buffer,
`lastResult`, `lastCheckIndex`, the latch and `cfg` unchanged and does not invoke the callback;
hence any number of such calls leaves the detector as one call does. -/
theorem C11_append_after_latch (d : SteadyStateDetector) (v : Dbl) (vs : List Dbl)
    (hlatched : d.hasConverged = true) :
    (d.addDataPoint v).ret = true ∧
    (d.addDataPoint v).det = d ∧
    (d.addDataPoint v).det.data_ = d.data_ ∧
    (d.addDataPoint v).det.lastResult_ = d.lastResult_ ∧
    (d.addDataPoint v).det.lastCheckIndex_ = d.lastCheckIndex_ ∧
    (d.addDataPoint v).det.hasConverged = d.hasConverged ∧
    (d.addDataPoint v).det.config_ = d.config_ ∧
    (d.addDataPoint v).events = [] ∧
    feed d (v :: vs) = (d.addDataPoint v).det ∧
    runEvents d (appends (v :: vs)) = [] := by
  have hstep := addDataPoint_of_converged d v hlatched
  have hev : ∀ (ws : List Dbl), runEvents d (appends ws) = [] := by
    intro ws
    induction ws with
    | nil => rfl
    | cons w ws ih =>
      show ((Op.addDataPoint w).apply d).events ++ runEvents ((Op.addDataPoint w).apply d).det _ = []
      simp only [Op.apply, addDataPoint_of_converged d w hlatched]
      exact ih
  refine ⟨by rw [hstep], by rw [hstep], by rw [hstep], by rw [hstep], by rw [hstep],
    by rw [hstep], by rw [hstep], by rw [hstep], ?_, hev _⟩
  rw [hstep]
  exact feed_of_converged d (v :: vs) hlatched

/-- C11 at the detector of scenario S5 after exhaustion. -/
theorem C11_append_after_latch_witness :
    exhaustedDetector.hasConverged = true ∧
    (exhaustedDetector.addDataPoint (Dbl.fin 1)).ret = true ∧
    (exhaustedDetector.addDataPoint (Dbl.fin 1)).det = exhaustedDetector ∧
    (exhaustedDetector.addDataPoint (Dbl.fin 1)).events = [] ∧
    feed exhaustedDetector [Dbl.fin 1, Dbl.fin 2, Dbl.fin 3]
      = (exhaustedDetector.addDataPoint (Dbl.fin 1)).det :=
  have h := C11_append_after_latch exhaustedDetector (Dbl.fin 1) [Dbl.fin 2, Dbl.fin 3]
    (by decide)
  ⟨by decide, h.1, h.2.1, h.2.2.2.2.2.2.2.1, h.2.2.2.2.2.2.2.2.1⟩

/-! ## One call of `checkConvergence` -/

theorem evaluateConvergence_eq (d : SteadyStateDetector) (r : MSERResult) :
    d.evaluateConvergence r = (r.converged && r.mserValue.le d.config_.convergenceThreshold) := by
  unfold evaluateConvergence
  cases r.converged <;> simp

/-- The call of `checkConvergence` on an unlatched detector with both gates closed. -/
theorem checkConvergence_of_open (d : SteadyStateDetector) (hun : d.converged_ = false)
    (hwarm : d.isInWarmingPeriod = false) (hmin : d.config_.minSamples ≤ d.data_.length) :
    d.checkConvergence =
      ⟨{ d with
          lastResult_ := calculate d.data_ d.config_
          lastCheckIndex_ := d.data_.length
          converged_ := d.evaluateConvergence (calculate d.data_ d.config_) },
        d.evaluateConvergence (calculate d.data_ d.config_),
        Event.estimatorPass d.data_.length ::
          (if d.evaluateConvergence (calculate d.data_ d.config_) = true then
            d.triggerCallback (calculate d.data_ d.config_) else [])⟩ := by
  unfold checkConvergence
  simp only [hun, hwarm, Bool.false_eq_true, if_false, not_lt.mpr hmin, Bool.not_false,
    Bool.and_true, evaluateConvergence_eq]
  cases (calculate d.data_ d.config_).converged
    && (calculate d.data_ d.config_).mserValue.le d.config_.convergenceThreshold
  · simp
  · simp [triggerCallback]

/-- The call of `checkConvergence` on an unlatched detector with a gate open. -/
theorem checkConvergence_of_gated (d : SteadyStateDetector) (hun : d.converged_ = false)
    (hgate : d.isInWarmingPeriod = true ∨ d.data_.length < d.config_.minSamples) :
    d.checkConvergence = ⟨d, false, []⟩ := by
  unfold checkConvergence
  simp only [hun, Bool.false_eq_true, if_false]
  rcases hgate with h | h
  · simp [h]
  · split
    · rfl
    · simp [h]

theorem isInWarmingPeriod_eq (d : SteadyStateDetector) :
    d.isInWarmingPeriod
      = (d.config_.enableWarming && decide (d.data_.length < d.config_.warmingSteps)) := by
  unfold isInWarmingPeriod
  cases d.config_.enableWarming <;> simp

theorem isInWarmingPeriod_eq_false (d : SteadyStateDetector) :
    d.isInWarmingPeriod = false
      ↔ ¬ (d.config_.enableWarming = true ∧ d.data_.length < d.config_.warmingSteps) := by
  rw [isInWarmingPeriod_eq]
  cases d.config_.enableWarming <;> simp

theorem isInWarmingPeriod_eq_true (d : SteadyStateDetector) :
    d.isInWarmingPeriod = true
      ↔ (d.config_.enableWarming = true ∧ d.data_.length < d.config_.warmingSteps) := by
  rw [isInWarmingPeriod_eq]
  cases d.config_.enableWarming <;> simp

/-- C12: in an unlatched detector with both gates closed, `checkConvergence()` sets
`lastResult = calculate(buffer, cfg)` and `lastCheckIndex = |buffer|`, leaves the buffer
unchanged, and sets the latch, invoking the callback once with `lastResult`, if and only if
`lastResult.converged` is true and `lastResult.mserValue <= cfg.convergenceThreshold`; its return
value is the latch after the call. -/
theorem C12_check_with_gates_closed (d : SteadyStateDetector) (hun : d.hasConverged = false)
    (hwarm : ¬ (d.config_.enableWarming = true ∧ d.data_.length < d.config_.warmingSteps))
    (hmin : d.config_.minSamples ≤ d.data_.length) :
    d.checkConvergence.det.lastResult_ = calculate d.data_ d.config_ ∧
    d.checkConvergence.det.lastCheckIndex_ = d.data_.length ∧
    d.checkConvergence.det.data_ = d.data_ ∧
    (d.checkConvergence.det.hasConverged = true ↔
      (d.checkConvergence.det.lastResult_.converged = true ∧
        d.checkConvergence.det.lastResult_.mserValue.le d.config_.convergenceThreshold = true)) ∧
    d.checkConvergence.events
      = Event.estimatorPass d.data_.length ::
          (if d.checkConvergence.det.hasConverged = true then
            d.triggerCallback d.checkConvergence.det.lastResult_ else []) ∧
    d.checkConvergence.ret = d.checkConvergence.det.hasConverged := by
  rw [checkConvergence_of_open d hun ((isInWarmingPeriod_eq_false d).mpr hwarm) hmin]
  refine ⟨rfl, rfl, rfl, ?_, rfl, rfl⟩
  show d.evaluateConvergence (calculate d.data_ d.config_) = true ↔
    ((calculate d.data_ d.config_).converged = true ∧
      (calculate d.data_ d.config_).mserValue.le d.config_.convergenceThreshold = true)
  simp only [evaluateConvergence_eq, Bool.and_eq_true]

/-- C12 at a detector without warm-up that holds one sample. -/
theorem C12_check_with_gates_closed_witness :
    (openDetector.hasConverged = false ∧
      ¬ (openDetector.config_.enableWarming = true
          ∧ openDetector.data_.length < openDetector.config_.warmingSteps) ∧
      openDetector.config_.minSamples ≤ openDetector.data_.length) ∧
    openDetector.checkConvergence.det.lastResult_
      = calculate openDetector.data_ openDetector.config_ ∧
    openDetector.checkConvergence.det.lastCheckIndex_ = openDetector.data_.length ∧
    openDetector.checkConvergence.det.data_ = openDetector.data_ ∧
    openDetector.checkConvergence.ret = openDetector.checkConvergence.det.hasConverged :=
  have h := C12_check_with_gates_closed openDetector (by decide) (by decide) (by decide)
  ⟨⟨by decide, by decide, by decide⟩, h.1, h.2.1, h.2.2.1, h.2.2.2.2.2⟩

theorem shouldPerformCheck_eq (d : SteadyStateDetector) :
    d.shouldPerformCheck
      = (!(d.config_.enableWarming && decide (d.data_.length < d.config_.warmingSteps))
          && decide (d.config_.minSamples ≤ d.data_.length)
          && decide (d.config_.checkInterval
              ≤ (d.data_.length + sizeModulus - d.lastCheckIndex_) % sizeModulus)) := by
  unfold shouldPerformCheck
  rw [isInWarmingPeriod_eq]
  cases d.config_.enableWarming && decide (d.data_.length < d.config_.warmingSteps)
  · by_cases h : d.data_.length < d.config_.minSamples
    · simp [h]
    · simp [h, Nat.le_of_not_lt h]
  · simp

/-- The append that leaves a gate open and the buffer within `maxSamples`. -/
theorem addDataPoint_of_gated (d : SteadyStateDetector) (v : Dbl) (hun : d.converged_ = false)
    (hroom : d.data_.length + 1 ≤ d.config_.maxSamples)
    (hgate : (d.config_.enableWarming = true ∧ d.data_.length + 1 < d.config_.warmingSteps)
      ∨ d.data_.length + 1 < d.config_.minSamples) :
    d.addDataPoint v = ⟨{ d with data_ := d.data_ ++ [v] }, false, []⟩ := by
  have hlen : (d.data_ ++ [v]).length = d.data_.length + 1 := by simp
  unfold addDataPoint
  simp only [hun, Bool.false_eq_true, if_false, hlen, gt_iff_lt, not_lt.mpr hroom,
    shouldPerformCheck_eq]
  rcases hgate with h | h
  · simp [h.1, h.2]
  · simp [h]

/-- C13: in an unlatched detector, while the warm-up gate or the minimum-samples gate is open,
`checkConvergence()` returns false, runs no estimator pass and leaves `lastResult`,
`lastCheckIndex` and the latch unchanged; and an `addDataPoint(v)` that brings the buffer to a
size at which a gate is open, without exceeding `maxSamples`, returns false, runs no estimator
pass and leaves `lastResult`, `lastCheckIndex` and the latch unchanged. -/
theorem C13_no_pass_while_gated (d : SteadyStateDetector) (v : Dbl)
    (hun : d.hasConverged = false) :
    ((d.config_.enableWarming = true ∧ d.data_.length < d.config_.warmingSteps)
        ∨ d.data_.length < d.config_.minSamples →
      d.checkConvergence.ret = false ∧
      d.checkConvergence.events = [] ∧
      d.checkConvergence.det.lastResult_ = d.lastResult_ ∧
      d.checkConvergence.det.lastCheckIndex_ = d.lastCheckIndex_ ∧
      d.checkConvergence.det.hasConverged = false) ∧
    (((d.config_.enableWarming = true ∧ d.data_.length + 1 < d.config_.warmingSteps)
        ∨ d.data_.length + 1 < d.config_.minSamples) →
      d.data_.length + 1 ≤ d.config_.maxSamples →
      (d.addDataPoint v).ret = false ∧
      (d.addDataPoint v).events = [] ∧
      (d.addDataPoint v).det.data_ = d.data_ ++ [v] ∧
      (d.addDataPoint v).det.lastResult_ = d.lastResult_ ∧
      (d.addDataPoint v).det.lastCheckIndex_ = d.lastCheckIndex_ ∧
      (d.addDataPoint v).det.hasConverged = false) := by
  constructor
  · intro hgate
    rw [checkConvergence_of_gated d hun (hgate.imp (isInWarmingPeriod_eq_true d).mpr id)]
    exact ⟨rfl, rfl, rfl, rfl, hun⟩
  · intro hgate hroom
    rw [addDataPoint_of_gated d v hun hroom hgate]
    exact ⟨rfl, rfl, rfl, rfl, rfl, hun⟩

/-- C13 at a freshly constructed detector with the default configuration. -/
theorem C13_no_pass_while_gated_witness :
    (SteadyStateDetector.new SteadyStateConfig.init).hasConverged = false ∧
    ((SteadyStateDetector.new SteadyStateConfig.init).checkConvergence.ret = false ∧
      (SteadyStateDetector.new SteadyStateConfig.init).checkConvergence.events = [] ∧
      (SteadyStateDetector.new SteadyStateConfig.init).checkConvergence.det.lastResult_
        = (SteadyStateDetector.new SteadyStateConfig.init).lastResult_ ∧
      (SteadyStateDetector.new SteadyStateConfig.init).checkConvergence.det.lastCheckIndex_
        = (SteadyStateDetector.new SteadyStateConfig.init).lastCheckIndex_ ∧
      (SteadyStateDetector.new SteadyStateConfig.init).checkConvergence.det.hasConverged
        = false) ∧
    (((SteadyStateDetector.new SteadyStateConfig.init).addDataPoint (Dbl.fin 1)).ret = false ∧
      ((SteadyStateDetector.new SteadyStateConfig.init).addDataPoint (Dbl.fin 1)).events = []) :=
  have h := C13_no_pass_while_gated (SteadyStateDetector.new SteadyStateConfig.init) (Dbl.fin 1)
    (by decide)
  ⟨by decide, h.1 (by decide),
    (h.2 (by decide) (by decide)).1, (h.2 (by decide) (by decide)).2.1⟩

/-! ## One call of `addDataPoint` -/

theorem shouldPerformCheck_eq_checkDue (d : SteadyStateDetector) :
    d.shouldPerformCheck = checkDue d.config_ d.data_.length d.lastCheckIndex_ :=
  shouldPerformCheck_eq d

/-- The detector after the sample was pushed on the buffer. -/
theorem addDataPoint_of_room (d : SteadyStateDetector) (v : Dbl) (hun : d.converged_ = false)
    (hroom : d.data_.length + 1 ≤ d.config_.maxSamples) :
    d.addDataPoint v =
      if checkDue d.config_ (d.data_.length + 1) d.lastCheckIndex_ = true then
        ({ d with data_ := d.data_ ++ [v] } : SteadyStateDetector).checkConvergence
      else ⟨{ d with data_ := d.data_ ++ [v] }, false, []⟩ := by
  have hlen : (d.data_ ++ [v]).length = d.data_.length + 1 := by simp
  unfold addDataPoint
  simp only [hun, Bool.false_eq_true, if_false, hlen, gt_iff_lt, not_lt.mpr hroom,
    shouldPerformCheck_eq_checkDue]

/-- The append that runs the estimator. -/
theorem addDataPoint_of_check (d : SteadyStateDetector) (v : Dbl) (hun : d.converged_ = false)
    (hroom : d.data_.length + 1 ≤ d.config_.maxSamples)
    (hcheck : checkDue d.config_ (d.data_.length + 1) d.lastCheckIndex_ = true) :
    d.addDataPoint v =
      ⟨{ d with
          data_ := d.data_ ++ [v]
          lastResult_ := calculate (d.data_ ++ [v]) d.config_
          lastCheckIndex_ := d.data_.length + 1
          converged_ := d.evaluateConvergence (calculate (d.data_ ++ [v]) d.config_) },
        d.evaluateConvergence (calculate (d.data_ ++ [v]) d.config_),
        Event.estimatorPass (d.data_.length + 1) ::
          (if d.evaluateConvergence (calculate (d.data_ ++ [v]) d.config_) = true then
            d.triggerCallback (calculate (d.data_ ++ [v]) d.config_) else [])⟩ := by
  have hlen : (d.data_ ++ [v]).length = d.data_.length + 1 := by simp
  have hgates := hcheck
  unfold checkDue at hgates
  simp only [Bool.and_eq_true, Bool.not_eq_true', decide_eq_true_eq] at hgates
  obtain ⟨⟨hwarm, hmin⟩, _⟩ := hgates
  rw [addDataPoint_of_room d v hun hroom, if_pos hcheck,
    checkConvergence_of_open ({ d with data_ := d.data_ ++ [v] }) hun
      (by rw [isInWarmingPeriod_eq]; simpa [hlen] using hwarm) (by simpa [hlen] using hmin)]
  simp only [hlen]
  rfl

/-- The append that neither exhausts the buffer nor runs the estimator. -/
theorem addDataPoint_of_skip (d : SteadyStateDetector) (v : Dbl) (hun : d.converged_ = false)
    (hroom : d.data_.length + 1 ≤ d.config_.maxSamples)
    (hskip : checkDue d.config_ (d.data_.length + 1) d.lastCheckIndex_ = false) :
    d.addDataPoint v = ⟨{ d with data_ := d.data_ ++ [v] }, false, []⟩ := by
  rw [addDataPoint_of_room d v hun hroom, hskip]
  rfl

/-- What every call of `addDataPoint` preserves. -/
theorem addDataPoint_frame (d : SteadyStateDetector) (v : Dbl) :
    (d.addDataPoint v).det.config_ = d.config_ ∧
    (d.addDataPoint v).det.convergenceCallback_ = d.convergenceCallback_ ∧
    (d.lastCheckIndex_ ≤ d.data_.length →
      (d.addDataPoint v).det.lastCheckIndex_ ≤ (d.addDataPoint v).det.data_.length) := by
  by_cases hc : d.converged_ = true
  · rw [addDataPoint_of_converged d v hc]
    exact ⟨rfl, rfl, id⟩
  · have hc' : d.converged_ = false := by simpa using hc
    rcases Nat.lt_or_ge d.config_.maxSamples (d.data_.length + 1) with hfull | hroom
    · rw [addDataPoint_of_full d v hc' (by omega)]
      refine ⟨rfl, rfl, fun h => ?_⟩
      show d.lastCheckIndex_ ≤ (d.data_ ++ [v]).length
      rw [List.length_append, List.length_singleton]; omega
    · by_cases hs : checkDue d.config_ (d.data_.length + 1) d.lastCheckIndex_ = true
      · rw [addDataPoint_of_check d v hc' hroom hs]
        refine ⟨rfl, rfl, fun _ => ?_⟩
        show d.data_.length + 1 ≤ (d.data_ ++ [v]).length
        rw [List.length_append, List.length_singleton]
      · rw [addDataPoint_of_skip d v hc' hroom (by simpa using hs)]
        refine ⟨rfl, rfl, fun h => ?_⟩
        show d.lastCheckIndex_ ≤ (d.data_ ++ [v]).length
        rw [List.length_append, List.length_singleton]; omega

theorem feed_frame (d : SteadyStateDetector) (vs : List Dbl) :
    (feed d vs).config_ = d.config_ ∧
    (feed d vs).convergenceCallback_ = d.convergenceCallback_ ∧
    (d.lastCheckIndex_ ≤ d.data_.length →
      (feed d vs).lastCheckIndex_ ≤ (feed d vs).data_.length) := by
  induction vs generalizing d with
  | nil => exact ⟨rfl, rfl, id⟩
  | cons v vs ih =>
    obtain ⟨h1, h2, h3⟩ := addDataPoint_frame d v
    obtain ⟨i1, i2, i3⟩ := ih (d.addDataPoint v).det
    exact ⟨i1.trans h1, i2.trans h2, fun h => i3 (h3 h)⟩

theorem runOps_appends (d : SteadyStateDetector) (vs : List Dbl) :
    runOps d (appends vs) = feed d vs := by
  induction vs generalizing d with
  | nil => rfl
  | cons v vs ih => exact ih (d.addDataPoint v).det

/-- The estimator passes of one call of `addDataPoint`. -/
theorem passSizes_addDataPoint (d : SteadyStateDetector) (v : Dbl) :
    passSizes (d.addDataPoint v).events
      = if d.converged_ = false ∧ d.data_.length + 1 ≤ d.config_.maxSamples ∧
          checkDue d.config_ (d.data_.length + 1) d.lastCheckIndex_ = true
        then [d.data_.length + 1] else [] := by
  by_cases hc : d.converged_ = true
  · rw [addDataPoint_of_converged d v hc, if_neg (by simp [hc])]
    rfl
  · have hc' : d.converged_ = false := by simpa using hc
    rcases Nat.lt_or_ge d.config_.maxSamples (d.data_.length + 1) with hfull | hroom
    · rw [addDataPoint_of_full d v hc' (by omega), if_neg (by omega)]
      cases d.convergenceCallback_ <;> rfl
    · by_cases hs : checkDue d.config_ (d.data_.length + 1) d.lastCheckIndex_ = true
      · have hcond : d.converged_ = false ∧ d.data_.length + 1 ≤ d.config_.maxSamples ∧
            checkDue d.config_ (d.data_.length + 1) d.lastCheckIndex_ = true := ⟨hc', hroom, hs⟩
        rw [if_pos hcond, addDataPoint_of_check d v hc' hroom hs]
        simp only [triggerCallback]
        split <;> cases d.convergenceCallback_ <;> simp [passSizes]
      · rw [addDataPoint_of_skip d v hc' hroom (by simpa using hs), if_neg (by tauto)]
        rfl

/-! ## Cadence of the estimator passes -/

theorem passSizes_append (a b : List Event) : passSizes (a ++ b) = passSizes a ++ passSizes b := by
  simp [passSizes, List.filterMap_append]

theorem lastCheckIndex_addDataPoint (d : SteadyStateDetector) (v : Dbl) :
    (d.addDataPoint v).det.lastCheckIndex_
      = if d.converged_ = false ∧ d.data_.length + 1 ≤ d.config_.maxSamples ∧
          checkDue d.config_ (d.data_.length + 1) d.lastCheckIndex_ = true
        then d.data_.length + 1 else d.lastCheckIndex_ := by
  by_cases hc : d.converged_ = true
  · rw [addDataPoint_of_converged d v hc, if_neg (by simp [hc])]
  · have hc' : d.converged_ = false := by simpa using hc
    rcases Nat.lt_or_ge d.config_.maxSamples (d.data_.length + 1) with hfull | hroom
    · rw [addDataPoint_of_full d v hc' (by omega), if_neg (by omega)]
    · by_cases hs : checkDue d.config_ (d.data_.length + 1) d.lastCheckIndex_ = true
      · have hcond : d.converged_ = false ∧ d.data_.length + 1 ≤ d.config_.maxSamples ∧
            checkDue d.config_ (d.data_.length + 1) d.lastCheckIndex_ = true := ⟨hc', hroom, hs⟩
        rw [if_pos hcond, addDataPoint_of_check d v hc' hroom hs]
      · rw [addDataPoint_of_skip d v hc' hroom (by simpa using hs), if_neg (by tauto)]

theorem wrapped_difference_le (size lastCheckIndex : Nat) (h : lastCheckIndex ≤ size) :
    (size + sizeModulus - lastCheckIndex) % sizeModulus ≤ size - lastCheckIndex := by
  have : size + sizeModulus - lastCheckIndex = (size - lastCheckIndex) + sizeModulus := by omega
  rw [this, Nat.add_mod_right]
  exact Nat.mod_le _ _

theorem wrapped_difference_eq (size lastCheckIndex : Nat) (h : lastCheckIndex ≤ size)
    (hsize : size < sizeModulus) :
    (size + sizeModulus - lastCheckIndex) % sizeModulus = size - lastCheckIndex := by
  have : size + sizeModulus - lastCheckIndex = (size - lastCheckIndex) + sizeModulus := by omega
  rw [this, Nat.add_mod_right]
  exact Nat.mod_eq_of_lt (by omega)

/-- In a run of `addDataPoint` calls every estimator pass is at least `checkInterval` samples
after the previous one. -/
theorem passSizes_chain (d : SteadyStateDetector) (vs : List Dbl)
    (h : d.lastCheckIndex_ ≤ d.data_.length) :
    List.Chain (fun p s => p ≤ s ∧ s - p ≥ d.config_.checkInterval) d.lastCheckIndex_
      (passSizes (runEvents d (appends vs))) := by
  induction vs generalizing d with
  | nil => exact List.Chain.nil
  | cons v vs ih =>
    show List.Chain _ _ (passSizes ((d.addDataPoint v).events
      ++ runEvents (d.addDataPoint v).det (appends vs)))
    obtain ⟨hcfg, _, hle⟩ := addDataPoint_frame d v
    have ih' := ih (d.addDataPoint v).det (hle h)
    rw [hcfg, lastCheckIndex_addDataPoint] at ih'
    rw [passSizes_append, passSizes_addDataPoint]
    split
    · next hcond =>
      rw [if_pos hcond] at ih'
      refine List.Chain.cons ⟨by omega, ?_⟩ ih'
      have hdue := hcond.2.2
      unfold checkDue at hdue
      simp only [Bool.and_eq_true, decide_eq_true_eq] at hdue
      exact hdue.2.trans (wrapped_difference_le _ _ (by omega))
    · next hcond =>
      rw [if_neg hcond] at ih'
      exact ih'

/-- C14: in a run of `addDataPoint` calls on a fresh (or reset) detector, every estimator pass
happens at a buffer size `s` with `s - p ≥ checkInterval`, `p` being the buffer size at the
previous pass (0 if there was none); and in every state of such a run, when the detector is
unlatched, both gates are closed at the new buffer size and the new buffer size is not over
`maxSamples` (a `size_t`), `addDataPoint` runs the estimator if and only if
`|buffer| - lastCheckIndex ≥ checkInterval`, `|buffer|` being the new buffer size. -/
theorem C14_cadence (cfg : SteadyStateConfig) (callback : Option Nat) (vs : List Dbl) (v : Dbl)
    (hmax : cfg.maxSamples < 2 ^ 64) :
    List.Chain (fun p s => p ≤ s ∧ s - p ≥ cfg.checkInterval) 0
      (passSizes (runEvents ((SteadyStateDetector.new cfg).setConvergenceCallback callback)
        (appends vs))) ∧
    ((feed ((SteadyStateDetector.new cfg).setConvergenceCallback callback) vs).hasConverged
        = false →
      ¬ (cfg.enableWarming = true ∧
          (feed ((SteadyStateDetector.new cfg).setConvergenceCallback callback) vs).data_.length
            + 1 < cfg.warmingSteps) →
      cfg.minSamples
        ≤ (feed ((SteadyStateDetector.new cfg).setConvergenceCallback callback) vs).data_.length
          + 1 →
      (feed ((SteadyStateDetector.new cfg).setConvergenceCallback callback) vs).data_.length + 1
        ≤ cfg.maxSamples →
      (passSizes ((feed ((SteadyStateDetector.new cfg).setConvergenceCallback callback)
          vs).addDataPoint v).events ≠ [] ↔
        (feed ((SteadyStateDetector.new cfg).setConvergenceCallback callback) vs).data_.length + 1
          - (feed ((SteadyStateDetector.new cfg).setConvergenceCallback callback)
              vs).lastCheckIndex_ ≥ cfg.checkInterval)) := by
  constructor
  · exact passSizes_chain ((SteadyStateDetector.new cfg).setConvergenceCallback callback) vs
      (Nat.le_refl 0)
  · obtain ⟨hcfg, _, hle⟩ :=
      feed_frame ((SteadyStateDetector.new cfg).setConvergenceCallback callback) vs
    have hle' := hle (Nat.le_refl 0)
    have hcfg' : (feed ((SteadyStateDetector.new cfg).setConvergenceCallback callback)
        vs).config_ = cfg := hcfg
    generalize feed ((SteadyStateDetector.new cfg).setConvergenceCallback callback) vs = d
      at hcfg' hle' ⊢
    intro hun hwarm hmin hroom
    have hdue : checkDue d.config_ (d.data_.length + 1) d.lastCheckIndex_ = true ↔
        d.data_.length + 1 - d.lastCheckIndex_ ≥ cfg.checkInterval := by
      unfold checkDue
      rw [wrapped_difference_eq _ _ (by omega) (by simp only [sizeModulus]; omega), hcfg']
      have hw : (cfg.enableWarming && decide (d.data_.length + 1 < cfg.warmingSteps)) = false := by
        cases hE : cfg.enableWarming
        · rfl
        · simpa [hE] using hwarm
      simp [hw, hmin]
    rw [passSizes_addDataPoint, ← hdue]
    have hun' : d.converged_ = false := hun
    by_cases hd : checkDue d.config_ (d.data_.length + 1) d.lastCheckIndex_ = true
    · simp [hd, hun', hcfg', hroom]
    · simp [hd]

/-- C14 at a detector that runs the estimator at every second append: the run of four appends has
the estimator passes at the buffer sizes 2 and 4; after three appends both gates are closed and
the fourth append runs the estimator, as `4 - 2 ≥ 2`; after four appends the fifth does not, as
`5 - 4 < 2`. -/
theorem C14_cadence_witness :
    cadenceConfig.maxSamples < 2 ^ 64 ∧
    passSizes (runEvents ((SteadyStateDetector.new cadenceConfig).setConvergenceCallback none)
      (appends [Dbl.fin 1, Dbl.fin 2, Dbl.fin 3, Dbl.fin 4])) = [2, 4] ∧
    List.Chain (fun p s => p ≤ s ∧ s - p ≥ cadenceConfig.checkInterval) 0
      (passSizes (runEvents ((SteadyStateDetector.new cadenceConfig).setConvergenceCallback none)
        (appends [Dbl.fin 1, Dbl.fin 2, Dbl.fin 3, Dbl.fin 4]))) ∧
    ((feed ((SteadyStateDetector.new cadenceConfig).setConvergenceCallback none)
        [Dbl.fin 1, Dbl.fin 2, Dbl.fin 3]).hasConverged = false ∧
      ¬ (cadenceConfig.enableWarming = true ∧
          (feed ((SteadyStateDetector.new cadenceConfig).setConvergenceCallback none)
            [Dbl.fin 1, Dbl.fin 2, Dbl.fin 3]).data_.length + 1 < cadenceConfig.warmingSteps) ∧
      cadenceConfig.minSamples
        ≤ (feed ((SteadyStateDetector.new cadenceConfig).setConvergenceCallback none)
            [Dbl.fin 1, Dbl.fin 2, Dbl.fin 3]).data_.length + 1 ∧
      (feed ((SteadyStateDetector.new cadenceConfig).setConvergenceCallback none)
          [Dbl.fin 1, Dbl.fin 2, Dbl.fin 3]).data_.length + 1 ≤ cadenceConfig.maxSamples) ∧
    (passSizes ((feed ((SteadyStateDetector.new cadenceConfig).setConvergenceCallback none)
        [Dbl.fin 1, Dbl.fin 2, Dbl.fin 3]).addDataPoint (Dbl.fin 4)).events ≠ [] ↔
      (feed ((SteadyStateDetector.new cadenceConfig).setConvergenceCallback none)
          [Dbl.fin 1, Dbl.fin 2, Dbl.fin 3]).data_.length + 1
        - (feed ((SteadyStateDetector.new cadenceConfig).setConvergenceCallback none)
            [Dbl.fin 1, Dbl.fin 2, Dbl.fin 3]).lastCheckIndex_ ≥ cadenceConfig.checkInterval) ∧
    passSizes ((feed ((SteadyStateDetector.new cadenceConfig).setConvergenceCallback none)
      [Dbl.fin 1, Dbl.fin 2, Dbl.fin 3]).addDataPoint (Dbl.fin 4)).events = [4] ∧
    (feed ((SteadyStateDetector.new cadenceConfig).setConvergenceCallback none)
        [Dbl.fin 1, Dbl.fin 2, Dbl.fin 3]).data_.length + 1
      - (feed ((SteadyStateDetector.new cadenceConfig).setConvergenceCallback none)
          [Dbl.fin 1, Dbl.fin 2, Dbl.fin 3]).lastCheckIndex_ = 2 ∧
    (passSizes ((feed ((SteadyStateDetector.new cadenceConfig).setConvergenceCallback none)
        [Dbl.fin 1, Dbl.fin 2, Dbl.fin 3, Dbl.fin 4]).addDataPoint (Dbl.fin 5)).events ≠ [] ↔
      (feed ((SteadyStateDetector.new cadenceConfig).setConvergenceCallback none)
          [Dbl.fin 1, Dbl.fin 2, Dbl.fin 3, Dbl.fin 4]).data_.length + 1
        - (feed ((SteadyStateDetector.new cadenceConfig).setConvergenceCallback none)
            [Dbl.fin 1, Dbl.fin 2, Dbl.fin 3, Dbl.fin 4]).lastCheckIndex_
          ≥ cadenceConfig.checkInterval) ∧
    passSizes ((feed ((SteadyStateDetector.new cadenceConfig).setConvergenceCallback none)
      [Dbl.fin 1, Dbl.fin 2, Dbl.fin 3, Dbl.fin 4]).addDataPoint (Dbl.fin 5)).events = [] :=
  have h4 := C14_cadence cadenceConfig none [Dbl.fin 1, Dbl.fin 2, Dbl.fin 3, Dbl.fin 4]
    (Dbl.fin 5) (by decide)
  have h3 := C14_cadence cadenceConfig none [Dbl.fin 1, Dbl.fin 2, Dbl.fin 3]
    (Dbl.fin 4) (by decide)
  ⟨by decide, by decide, h4.1, ⟨by decide, by decide, by decide, by decide⟩,
    h3.2 (by decide) (by decide) (by decide) (by decide), by decide, by decide,
    h4.2 (by decide) (by decide) (by decide) (by decide), by decide⟩

/-! ## Scenario S4 -/

/-- A run of appends during which a gate stays open. -/
theorem feed_of_gated (d : SteadyStateDetector) (vs : List Dbl) (hun : d.converged_ = false)
    (hroom : d.data_.length + vs.length ≤ d.config_.maxSamples)
    (hgate : ∀ k, 1 ≤ k → k ≤ vs.length →
      (d.config_.enableWarming = true ∧ d.data_.length + k < d.config_.warmingSteps)
        ∨ d.data_.length + k < d.config_.minSamples) :
    feed d vs = { d with data_ := d.data_ ++ vs } ∧ runEvents d (appends vs) = [] := by
  induction vs generalizing d with
  | nil => simp [feed, runEvents, appends]
  | cons v vs ih =>
    rw [List.length_cons] at hroom
    have hstep := addDataPoint_of_gated d v hun (by omega)
      (hgate 1 le_rfl (by rw [List.length_cons]; omega))
    have hlen : (d.data_ ++ [v]).length = d.data_.length + 1 := by simp
    have := ih { d with data_ := d.data_ ++ [v] } hun
      (by show (d.data_ ++ [v]).length + vs.length ≤ d.config_.maxSamples; rw [hlen]; omega)
      (by
        intro k hk1 hk
        have := hgate (k + 1) (by omega) (by rw [List.length_cons]; omega)
        show (d.config_.enableWarming = true ∧ (d.data_ ++ [v]).length + k < d.config_.warmingSteps)
          ∨ (d.data_ ++ [v]).length + k < d.config_.minSamples
        rw [hlen]
        rcases this with h | h
        · exact Or.inl ⟨h.1, by omega⟩
        · exact Or.inr (by omega))
    constructor
    · show feed (d.addDataPoint v).det vs = _
      rw [hstep, this.1]
      simp
    · show (d.addDataPoint v).events ++ runEvents (d.addDataPoint v).det (appends vs) = []
      rw [hstep, this.2]
      rfl

theorem calculate_of_zeros (n : Nat) (hn : 10 ≤ n) (hsmall : n < 2 ^ 32) :
    calculate (List.replicate n (Dbl.fin 0)) warmupConfig =
      { truncationPoint := 0
        mserValue := Dbl.fin 0
        converged := true
        reason := Reason.ok
        totalSamples := n
        batchCount := 0
        variant := MSERVariant.MSER_1 } := by
  have hfin : List.replicate n (Dbl.fin 0) = finite (List.replicate n 0) := by
    rw [finite, List.map_replicate]
  show calculateMSER1 _ = _
  rw [hfin, calculateMSER1_finite _ (by rw [List.length_replicate]; exact hn),
    findOptimalTruncationPoint_replicate n 0 (by omega) hsmall, List.length_replicate]
  rfl

/-- The first 19 appends of scenario S4 and the 20th. -/
theorem warmup_run (n : Nat) (hn : n = 19) :
    feed warmupDetector (List.replicate n (Dbl.fin 0))
      = { warmupDetector with data_ := List.replicate n (Dbl.fin 0) } ∧
    runEvents warmupDetector (appends (List.replicate n (Dbl.fin 0))) = [] ∧
    (feed warmupDetector (List.replicate n (Dbl.fin 0))).addDataPoint (Dbl.fin 0) =
      ⟨{ warmupDetector with
          data_ := List.replicate (n + 1) (Dbl.fin 0)
          lastResult_ := calculate (List.replicate (n + 1) (Dbl.fin 0)) warmupConfig
          lastCheckIndex_ := n + 1
          converged_ := true },
        true,
        [Event.estimatorPass (n + 1),
          Event.callback 0 (calculate (List.replicate (n + 1) (Dbl.fin 0)) warmupConfig)]⟩ := by
  have hgated := feed_of_gated warmupDetector (List.replicate n (Dbl.fin 0)) rfl
    (by rw [List.length_replicate, hn]; decide)
    (by
      intro k _ hk
      rw [List.length_replicate, hn] at hk
      left
      refine ⟨rfl, ?_⟩
      show 0 + k < 20
      omega)
  have hdata : ([] : List Dbl) ++ List.replicate n (Dbl.fin 0) = List.replicate n (Dbl.fin 0) :=
    List.nil_append _
  have hfeed : feed warmupDetector (List.replicate n (Dbl.fin 0))
      = { warmupDetector with data_ := List.replicate n (Dbl.fin 0) } := by
    rw [hgated.1]; rfl
  refine ⟨hfeed, hgated.2, ?_⟩
  rw [hfeed]
  have hsnoc : List.replicate n (Dbl.fin 0) ++ [Dbl.fin 0] = List.replicate (n + 1) (Dbl.fin 0) :=
    (List.replicate_succ' ..).symm
  have hconv : warmupDetector.evaluateConvergence
      (calculate (List.replicate (n + 1) (Dbl.fin 0)) warmupConfig) = true := by
    rw [calculate_of_zeros (n + 1) (by omega) (by omega), evaluateConvergence_eq]
    simp [warmupDetector, setConvergenceCallback, SteadyStateDetector.new, warmupConfig, Dbl.le]
  rw [addDataPoint_of_check _ (Dbl.fin 0) rfl
    (by show (List.replicate n (Dbl.fin 0)).length + 1 ≤ 1000; rw [List.length_replicate]; omega)
    (by
      show checkDue warmupConfig ((List.replicate n (Dbl.fin 0)).length + 1) 0 = true
      rw [List.length_replicate, hn]
      decide)]
  have hcfg : warmupDetector.config_ = warmupConfig := rfl
  simp only [hsnoc, List.length_replicate, hcfg]
  rw [evaluateConvergence_eq, hcfg] at hconv
  simp only [evaluateConvergence_eq, hconv, if_true, triggerCallback]
  rfl

theorem runEvents_append (d : SteadyStateDetector) (a b : List Op) :
    runEvents d (a ++ b) = runEvents d a ++ runEvents (runOps d a) b := by
  induction a generalizing d with
  | nil => rfl
  | cons op a ih =>
    show (op.apply d).events ++ runEvents (op.apply d).det (a ++ b) = _
    rw [ih]
    simp [runEvents, runOps, List.append_assoc]

theorem appends_append (a b : List Dbl) : appends (a ++ b) = appends a ++ appends b := by
  simp [appends]

/-- The scenario S4 for `n = 19` leading samples: the appends `1, ..., n` run no estimator pass,
the append `n + 1` runs it and sets the latch, the append `n + 2` changes nothing. -/
theorem warmup_scenario (n : Nat) (hn : n = 19) :
    runEvents warmupDetector (appends (List.replicate n (Dbl.fin 0))) = [] ∧
    ((feed warmupDetector (List.replicate n (Dbl.fin 0))).addDataPoint (Dbl.fin 0)).ret = true ∧
    ((feed warmupDetector (List.replicate n (Dbl.fin 0))).addDataPoint (Dbl.fin 0)).events
      = [Event.estimatorPass (n + 1),
          Event.callback 0 (feed warmupDetector (List.replicate (n + 1) (Dbl.fin 0))).lastResult_] ∧
    (feed warmupDetector (List.replicate (n + 1) (Dbl.fin 0))).hasConverged = true ∧
    (feed warmupDetector (List.replicate (n + 1) (Dbl.fin 0))).lastCheckIndex_ = n + 1 ∧
    (feed warmupDetector (List.replicate (n + 1) (Dbl.fin 0))).lastResult_
      = { truncationPoint := 0
          mserValue := Dbl.fin 0
          converged := true
          reason := Reason.ok
          totalSamples := n + 1
          batchCount := 0
          variant := MSERVariant.MSER_1 } ∧
    (feed warmupDetector (List.replicate (n + 1) (Dbl.fin 0))).addDataPoint (Dbl.fin 0)
      = ⟨feed warmupDetector (List.replicate (n + 1) (Dbl.fin 0)), true, []⟩ ∧
    callbackResults (runEvents warmupDetector (appends (List.replicate (n + 2) (Dbl.fin 0))))
      = [(feed warmupDetector (List.replicate (n + 1) (Dbl.fin 0))).lastResult_] := by
  obtain ⟨h1, h2, h3⟩ := warmup_run n hn
  have hfeed : feed warmupDetector (List.replicate (n + 1) (Dbl.fin 0))
      = ((feed warmupDetector (List.replicate n (Dbl.fin 0))).addDataPoint (Dbl.fin 0)).det := by
    rw [List.replicate_succ', feed_append_singleton]
  have hlatched : (feed warmupDetector (List.replicate (n + 1) (Dbl.fin 0))).converged_ = true := by
    rw [hfeed, h3]
  have hlast := addDataPoint_of_converged _ (Dbl.fin 0) hlatched
  refine ⟨h2, by rw [h3], by rw [hfeed, h3], hlatched, by rw [hfeed, h3], ?_, hlast, ?_⟩
  · rw [hfeed, h3]
    exact calculate_of_zeros (n + 1) (by omega) (by omega)
  · have hsplit : List.replicate (n + 2) (Dbl.fin 0)
        = List.replicate n (Dbl.fin 0) ++ ([Dbl.fin 0] ++ [Dbl.fin 0]) := by
      rw [← List.append_assoc, ← List.replicate_succ', ← List.replicate_succ']
    rw [hsplit, appends_append, runEvents_append, h2, runOps_appends, List.nil_append,
      appends_append, runEvents_append]
    have e1 : runEvents (feed warmupDetector (List.replicate n (Dbl.fin 0))) (appends [Dbl.fin 0])
        = ((feed warmupDetector (List.replicate n (Dbl.fin 0))).addDataPoint (Dbl.fin 0)).events := by
      simp [runEvents, appends, Op.apply]
    have e2 : runOps (feed warmupDetector (List.replicate n (Dbl.fin 0))) (appends [Dbl.fin 0])
        = feed warmupDetector (List.replicate (n + 1) (Dbl.fin 0)) := by
      rw [hfeed]; rfl
    have e3 : runEvents (feed warmupDetector (List.replicate (n + 1) (Dbl.fin 0)))
        (appends [Dbl.fin 0]) = [] := by
      simp [runEvents, appends, Op.apply, hlast]
    rw [e1, e2, e3, hfeed, h3]
    rfl

/-- C15, as stated, in scenario S4 with samples equal to 0: after the 20th append the estimator
has run (at the buffer size 20) and the latch is set, so it is not the 21st append that runs the
check. -/
theorem C15_twentieth_append :
    ¬ (runEvents warmupDetector (appends (List.replicate 19 (Dbl.fin 0))) = [] ∧
        passSizes (runEvents warmupDetector (appends (List.replicate 20 (Dbl.fin 0)))) = [] ∧
        (feed warmupDetector (List.replicate 20 (Dbl.fin 0))).lastCheckIndex_ = 0 ∧
        (feed warmupDetector (List.replicate 20 (Dbl.fin 0))).hasConverged = false ∧
        ((feed warmupDetector (List.replicate 19 (Dbl.fin 0))).addDataPoint (Dbl.fin 0)).ret
          = false ∧
        passSizes ((feed warmupDetector (List.replicate 20 (Dbl.fin 0))).addDataPoint
          (Dbl.fin 0)).events ≠ [] ∧
        (feed warmupDetector (List.replicate 21 (Dbl.fin 0))).hasConverged = true ∧
        (callbackResults (runEvents warmupDetector
          (appends (List.replicate 21 (Dbl.fin 0))))).length = 1) := by
  intro h
  have hs := (warmup_scenario 19 rfl).2.2.2.1
  have := h.2.2.2.1
  rw [show (20 : Nat) = 19 + 1 from rfl, hs] at this
  exact Bool.noConfusion this

/-- C15 as amended: in scenario S4 with samples equal to 0, no estimator pass has run after the
19th append; the 20th append runs the check (`lastCheckIndex = 20`), sets the latch, invokes the
callback with `lastResult` and returns true; the 21st append returns true and changes nothing, so
the callback has been invoked exactly once. -/
theorem C15_warmup_scenario :
    runEvents warmupDetector (appends (List.replicate 19 (Dbl.fin 0))) = [] ∧
    ((feed warmupDetector (List.replicate 19 (Dbl.fin 0))).addDataPoint (Dbl.fin 0)).ret = true ∧
    ((feed warmupDetector (List.replicate 19 (Dbl.fin 0))).addDataPoint (Dbl.fin 0)).events
      = [Event.estimatorPass 20,
          Event.callback 0 (feed warmupDetector (List.replicate 20 (Dbl.fin 0))).lastResult_] ∧
    (feed warmupDetector (List.replicate 20 (Dbl.fin 0))).hasConverged = true ∧
    (feed warmupDetector (List.replicate 20 (Dbl.fin 0))).lastCheckIndex_ = 20 ∧
    (feed warmupDetector (List.replicate 20 (Dbl.fin 0))).lastResult_
      = { truncationPoint := 0
          mserValue := Dbl.fin 0
          converged := true
          reason := Reason.ok
          totalSamples := 20
          batchCount := 0
          variant := MSERVariant.MSER_1 } ∧
    (feed warmupDetector (List.replicate 20 (Dbl.fin 0))).addDataPoint (Dbl.fin 0)
      = ⟨feed warmupDetector (List.replicate 20 (Dbl.fin 0)), true, []⟩ ∧
    callbackResults (runEvents warmupDetector (appends (List.replicate 21 (Dbl.fin 0))))
      = [(feed warmupDetector (List.replicate 20 (Dbl.fin 0))).lastResult_] :=
  warmup_scenario 19 rfl

/-! ## `reset` -/

/-- C16: `reset()` yields the state of a freshly constructed detector with the same `cfg` and the
same callback: empty buffer, default `lastResult`, latch false, `lastCheckIndex` 0; consequently,
feeding a sequence to a fresh detector, calling `reset()` and feeding the sequence again gives the
same detector, in particular the same `lastResult`, `hasConverged()` and sample count, as the
first feeding. -/
theorem C16_reset (d : SteadyStateDetector) (cfg : SteadyStateConfig) (vs : List Dbl) :
    d.reset = (SteadyStateDetector.new d.config_).setConvergenceCallback d.convergenceCallback_ ∧
    (d.reset.data_ = [] ∧ d.reset.lastResult_ = MSERResult.init ∧ d.reset.hasConverged = false ∧
      d.reset.lastCheckIndex_ = 0 ∧ d.reset.config_ = d.config_ ∧
      d.reset.convergenceCallback_ = d.convergenceCallback_) ∧
    (feed (SteadyStateDetector.new cfg) vs).reset = SteadyStateDetector.new cfg ∧
    feed (feed (SteadyStateDetector.new cfg) vs).reset vs = feed (SteadyStateDetector.new cfg) vs ∧
    (feed (feed (SteadyStateDetector.new cfg) vs).reset vs).getLastResult
      = (feed (SteadyStateDetector.new cfg) vs).getLastResult ∧
    (feed (feed (SteadyStateDetector.new cfg) vs).reset vs).hasConverged
      = (feed (SteadyStateDetector.new cfg) vs).hasConverged ∧
    (feed (feed (SteadyStateDetector.new cfg) vs).reset vs).getCurrentSampleCount
      = (feed (SteadyStateDetector.new cfg) vs).getCurrentSampleCount := by
  have hreset : (feed (SteadyStateDetector.new cfg) vs).reset = SteadyStateDetector.new cfg := by
    obtain ⟨h1, h2, _⟩ := feed_frame (SteadyStateDetector.new cfg) vs
    unfold reset
    rw [h1, h2]
    rfl
  refine ⟨rfl, ⟨rfl, rfl, rfl, rfl, rfl, rfl⟩, hreset, ?_, ?_, ?_, ?_⟩ <;> rw [hreset]

/-! ## The latch and `lastResult` -/

theorem calculateMSER1_reason (data : TimeSeriesData)
    (h : (calculateMSER1 data).converged = true) : (calculateMSER1 data).reason = Reason.ok := by
  unfold calculateMSER1 at h ⊢
  cases hv : validateData data 10
  · simp [hv] at h
  · simp only [hv, Bool.not_true, Bool.false_eq_true, if_false] at h ⊢
    simp [h]

theorem calculateMSERm_reason (data : TimeSeriesData) (B : Nat)
    (h : (calculateMSERm data B).converged = true) : (calculateMSERm data B).reason = Reason.ok := by
  cases hv : validateData data (B * 2 % sizeModulus)
  · rw [calculateMSERm_of_invalid data B hv] at h
    simp at h
  · by_cases hfew : (createBatchMeans data B).length < 10
    · rw [calculateMSERm_of_few_batches data B hv hfew] at h
      simp at h
    · unfold calculateMSERm at h ⊢
      simp only [hv, Bool.not_true, Bool.false_eq_true, if_false, hfew] at h ⊢
      simp [h]

theorem calculate_reason (data : TimeSeriesData) (cfg : SteadyStateConfig)
    (h : (calculate data cfg).converged = true) : (calculate data cfg).reason = Reason.ok := by
  revert h
  unfold calculate
  cases cfg.variant
  · exact calculateMSER1_reason data
  · exact calculateMSERm_reason data 5
  · exact calculateMSERm_reason data cfg.batchSize

theorem settled_checkConvergence (d : SteadyStateDetector) (h : settled d) :
    settled d.checkConvergence.det := by
  by_cases hc : d.converged_ = true
  · rw [checkConvergence_of_converged d hc]; exact h
  · have hc' : d.converged_ = false := by simpa using hc
    by_cases hgate : d.isInWarmingPeriod = true ∨ d.data_.length < d.config_.minSamples
    · rw [checkConvergence_of_gated d hc' hgate]; exact h
    · rw [checkConvergence_of_open d hc' (by simpa using fun hw => hgate (Or.inl hw))
        (by omega)]
      intro hl
      left
      have hl' : d.evaluateConvergence (calculate d.data_ d.config_) = true := hl
      rw [evaluateConvergence_eq, Bool.and_eq_true] at hl'
      exact ⟨hl'.1, calculate_reason _ _ hl'.1⟩

theorem settled_addDataPoint (d : SteadyStateDetector) (v : Dbl) (h : settled d) :
    settled (d.addDataPoint v).det := by
  by_cases hc : d.converged_ = true
  · rw [addDataPoint_of_converged d v hc]; exact h
  · have hc' : d.converged_ = false := by simpa using hc
    rcases Nat.lt_or_ge d.config_.maxSamples (d.data_.length + 1) with hfull | hroom
    · rw [addDataPoint_of_full d v hc' (by omega)]
      intro _
      exact Or.inr ⟨rfl, rfl⟩
    · by_cases hs : checkDue d.config_ (d.data_.length + 1) d.lastCheckIndex_ = true
      · rw [addDataPoint_of_check d v hc' hroom hs]
        intro hl
        left
        have hl' : d.evaluateConvergence (calculate (d.data_ ++ [v]) d.config_) = true := hl
        rw [evaluateConvergence_eq, Bool.and_eq_true] at hl'
        exact ⟨hl'.1, calculate_reason _ _ hl'.1⟩
      · rw [addDataPoint_of_skip d v hc' hroom (by simpa using hs)]
        intro hl
        exact absurd (hc'.symm.trans hl) (by decide)

theorem settled_feed (d : SteadyStateDetector) (vs : List Dbl) (h : settled d) :
    settled (feed d vs) := by
  induction vs generalizing d with
  | nil => exact h
  | cons v vs ih => exact ih _ (settled_addDataPoint d v h)

/-- A call of `addDataPoint` that returns true leaves the latch set. -/
theorem addDataPoint_ret (d : SteadyStateDetector) (v : Dbl)
    (h : (d.addDataPoint v).ret = true) : (d.addDataPoint v).det.converged_ = true := by
  by_cases hc : d.converged_ = true
  · rw [addDataPoint_of_converged d v hc]; exact hc
  · have hc' : d.converged_ = false := by simpa using hc
    rcases Nat.lt_or_ge d.config_.maxSamples (d.data_.length + 1) with hfull | hroom
    · rw [addDataPoint_of_full d v hc' (by omega)] at h
      simp at h
    · by_cases hs : checkDue d.config_ (d.data_.length + 1) d.lastCheckIndex_ = true
      · rw [addDataPoint_of_check d v hc' hroom hs] at h ⊢
        exact h
      · rw [addDataPoint_of_skip d v hc' hroom (by simpa using hs)] at h
        simp at h

/-- The detector after `addDataPoints` is the detector after the same appends made one by one. -/
theorem addDataPoints_det (d : SteadyStateDetector) (vs : List Dbl) :
    (d.addDataPoints vs).det = feed d vs := by
  induction vs generalizing d with
  | nil => rfl
  | cons v vs ih =>
    show (if (d.addDataPoint v).ret = true then (⟨(d.addDataPoint v).det, true,
      (d.addDataPoint v).events⟩ : Step) else _).det = feed (d.addDataPoint v).det vs
    split
    · next hret =>
      have hl : (d.addDataPoint v).det.converged_ = true := addDataPoint_ret d v hret
      exact (feed_of_converged _ vs hl).symm
    · exact ih _

theorem settled_apply (d : SteadyStateDetector) (op : Op) (h : settled d) :
    settled (op.apply d).det := by
  cases op with
  | addDataPoint v => exact settled_addDataPoint d v h
  | addDataPoints vs =>
    show settled (d.addDataPoints vs).det
    rw [addDataPoints_det]
    exact settled_feed d vs h
  | checkConvergence => exact settled_checkConvergence d h
  | reset => intro hl; exact absurd hl (by simp [Op.apply, reset])
  | updateConfig cfg => exact h
  | setConvergenceCallback cb => exact h

theorem settled_runOps (d : SteadyStateDetector) (ops : List Op) (h : settled d) :
    settled (runOps d ops) := by
  induction ops generalizing d with
  | nil => exact h
  | cons op ops ih => exact ih _ (settled_apply d op h)

/-- C17: in every detector state reached from a freshly constructed detector by public
operations, if `hasConverged()` is true then exactly one of the following holds:
`lastResult.converged` is true with the success reason, or `lastResult.converged` is false with
the reason max-samples-exhausted. -/
theorem C17_terminal_states (cfg : SteadyStateConfig) (ops : List Op)
    (hlatched : (runOps (SteadyStateDetector.new cfg) ops).hasConverged = true) :
    (((runOps (SteadyStateDetector.new cfg) ops).lastResult_.converged = true ∧
        (runOps (SteadyStateDetector.new cfg) ops).lastResult_.reason = Reason.ok) ∨
      ((runOps (SteadyStateDetector.new cfg) ops).lastResult_.converged = false ∧
        (runOps (SteadyStateDetector.new cfg) ops).lastResult_.reason
          = Reason.maxSamplesExhausted)) ∧
    ¬ (((runOps (SteadyStateDetector.new cfg) ops).lastResult_.converged = true ∧
        (runOps (SteadyStateDetector.new cfg) ops).lastResult_.reason = Reason.ok) ∧
      ((runOps (SteadyStateDetector.new cfg) ops).lastResult_.converged = false ∧
        (runOps (SteadyStateDetector.new cfg) ops).lastResult_.reason
          = Reason.maxSamplesExhausted)) := by
  have hnew : settled (SteadyStateDetector.new cfg) := by
    intro h
    exact absurd h (by simp [SteadyStateDetector.new])
  refine ⟨settled_runOps _ ops hnew hlatched, ?_⟩
  rintro ⟨⟨h1, _⟩, ⟨h2, _⟩⟩
  rw [h1] at h2
  exact Bool.noConfusion h2

/-- C17 at scenario S5: six appends to a fresh detector with `maxSamples = 5`. -/
theorem C17_terminal_states_witness :
    (runOps (SteadyStateDetector.new exhaustionConfig)
      (appends (List.replicate 6 (Dbl.fin 0)))).hasConverged = true ∧
    ((runOps (SteadyStateDetector.new exhaustionConfig)
        (appends (List.replicate 6 (Dbl.fin 0)))).lastResult_.converged = true ∧
      (runOps (SteadyStateDetector.new exhaustionConfig)
        (appends (List.replicate 6 (Dbl.fin 0)))).lastResult_.reason = Reason.ok ∨
      (runOps (SteadyStateDetector.new exhaustionConfig)
        (appends (List.replicate 6 (Dbl.fin 0)))).lastResult_.converged = false ∧
      (runOps (SteadyStateDetector.new exhaustionConfig)
        (appends (List.replicate 6 (Dbl.fin 0)))).lastResult_.reason
          = Reason.maxSamplesExhausted) :=
  ⟨by decide,
    (C17_terminal_states exhaustionConfig (appends (List.replicate 6 (Dbl.fin 0)))
      (by decide)).1⟩

/-! ## `addDataPoints` -/

theorem addDataPoints_cons (d : SteadyStateDetector) (v : Dbl) (vs : List Dbl) :
    d.addDataPoints (v :: vs) =
      if (d.addDataPoint v).ret = true then
        ⟨(d.addDataPoint v).det, true, (d.addDataPoint v).events⟩
      else
        ⟨((d.addDataPoint v).det.addDataPoints vs).det,
          ((d.addDataPoint v).det.addDataPoints vs).ret,
          (d.addDataPoint v).events ++ ((d.addDataPoint v).det.addDataPoints vs).events⟩ := rfl

theorem addDataPoints_of_latched (d : SteadyStateDetector) (vs : List Dbl)
    (h : d.converged_ = true) :
    d.addDataPoints vs = ⟨d, !vs.isEmpty, []⟩ := by
  cases vs with
  | nil => rfl
  | cons v vs => rw [addDataPoints_cons, addDataPoint_of_converged d v h]; rfl

/-- The three outcomes of an append to an unlatched detector: the buffer is exhausted, the
estimator ran and the detector converged, or the detector is still unlatched. -/
theorem addDataPoint_outcomes (d : SteadyStateDetector) (v : Dbl) (hun : d.converged_ = false) :
    (d.addDataPoint v).det.data_ = d.data_ ++ [v] ∧
    (((d.addDataPoint v).ret = false ∧ (d.addDataPoint v).det.converged_ = true ∧
        (d.addDataPoint v).det.lastResult_.reason = Reason.maxSamplesExhausted) ∨
      ((d.addDataPoint v).ret = true ∧ (d.addDataPoint v).det.converged_ = true ∧
        (d.addDataPoint v).det.lastResult_.reason = Reason.ok) ∨
      ((d.addDataPoint v).ret = false ∧ (d.addDataPoint v).det.converged_ = false)) := by
  rcases Nat.lt_or_ge d.config_.maxSamples (d.data_.length + 1) with hfull | hroom
  · rw [addDataPoint_of_full d v hun (by omega)]
    exact ⟨rfl, Or.inl ⟨rfl, rfl, rfl⟩⟩
  · by_cases hs : checkDue d.config_ (d.data_.length + 1) d.lastCheckIndex_ = true
    · rw [addDataPoint_of_check d v hun hroom hs]
      refine ⟨rfl, Or.inr ?_⟩
      cases hev : d.evaluateConvergence (calculate (d.data_ ++ [v]) d.config_)
      · exact Or.inr ⟨rfl, rfl⟩
      · rw [evaluateConvergence_eq, Bool.and_eq_true] at hev
        exact Or.inl ⟨rfl, rfl, calculate_reason _ _ hev.1⟩
    · rw [addDataPoint_of_skip d v hun hroom (by simpa using hs)]
      exact ⟨rfl, Or.inr (Or.inr ⟨rfl, hun⟩)⟩

/-- The return value of `addDataPoints` on an unlatched detector. -/
theorem addDataPoints_ret (d : SteadyStateDetector) (vs : List Dbl) (hun : d.converged_ = false) :
    (d.addDataPoints vs).ret = true ↔
      ((d.addDataPoints vs).det.converged_ = true ∧
        ¬ ((d.addDataPoints vs).det.lastResult_.reason = Reason.maxSamplesExhausted ∧
          (d.addDataPoints vs).det.data_ = d.data_ ++ vs)) := by
  induction vs generalizing d with
  | nil =>
    show false = true ↔ _
    simp [addDataPoints, hun]
  | cons v vs ih =>
    obtain ⟨hdata, hcase⟩ := addDataPoint_outcomes d v hun
    rw [addDataPoints_cons]
    rcases hcase with ⟨hret, hl, hreason⟩ | ⟨hret, hl, hreason⟩ | ⟨hret, hl⟩
    · simp only [hret, Bool.false_eq_true, if_false,
        addDataPoints_of_latched _ vs hl, hl, hreason, hdata, true_and]
      cases vs with
      | nil => simp
      | cons w ws => simp
    · simp only [hret, if_true, hl, hreason, true_and]
      simp
    · simp only [hret, Bool.false_eq_true, if_false]
      rw [ih _ hl, hdata, List.append_assoc]
      rfl

/-- The samples that `addDataPoints` appends to an unlatched detector. -/
theorem addDataPoints_prefix (d : SteadyStateDetector) (vs : List Dbl)
    (hun : d.converged_ = false) :
    ∃ j, j ≤ vs.length ∧ feed d vs = feed d (vs.take j) ∧
      (feed d vs).data_ = d.data_ ++ vs.take j ∧
      (∀ i, i < j → (feed d (vs.take i)).converged_ = false) ∧
      (j < vs.length → (feed d (vs.take j)).converged_ = true) := by
  induction vs generalizing d with
  | nil => exact ⟨0, le_rfl, rfl, by simp [feed], fun i hi => absurd hi (Nat.not_lt_zero i),
      fun h => absurd h (Nat.lt_irrefl 0)⟩
  | cons v vs ih =>
    obtain ⟨hdata, hcase⟩ := addDataPoint_outcomes d v hun
    have hfeed : ∀ ws, feed d (v :: ws) = feed (d.addDataPoint v).det ws := fun _ => rfl
    have hlatched_case : (d.addDataPoint v).det.converged_ = true →
        ∃ j, j ≤ (v :: vs).length ∧ feed d (v :: vs) = feed d ((v :: vs).take j) ∧
          (feed d (v :: vs)).data_ = d.data_ ++ (v :: vs).take j ∧
          (∀ i, i < j → (feed d ((v :: vs).take i)).converged_ = false) ∧
          (j < (v :: vs).length → (feed d ((v :: vs).take j)).converged_ = true) := by
      intro hl
      refine ⟨1, by simp, ?_, ?_, ?_, ?_⟩
      · rw [hfeed, feed_of_converged _ vs hl]; rfl
      · rw [hfeed, feed_of_converged _ vs hl, hdata]; rfl
      · intro i hi
        have : i = 0 := by omega
        subst this
        exact hun
      · intro _
        exact hl
    rcases hcase with ⟨_, hl, _⟩ | ⟨_, hl, _⟩ | ⟨_, hl⟩
    · exact hlatched_case hl
    · exact hlatched_case hl
    · obtain ⟨j, hj, hfj, hdj, hbefore, hafter⟩ := ih _ hl
      refine ⟨j + 1, by simp [hj], ?_, ?_, ?_, ?_⟩
      · rw [hfeed, List.take_succ_cons, hfeed]; exact hfj
      · rw [hfeed, hdj, hdata, List.take_succ_cons, List.append_assoc]; rfl
      · intro i hi
        cases i with
        | zero => exact hun
        | succ i =>
          rw [List.take_succ_cons, hfeed]
          exact hbefore i (by omega)
      · intro h
        rw [List.take_succ_cons, hfeed]
        exact hafter (by simpa using h)

/-- C18, as stated, at the detector of scenario S5 after five samples and a list of one sample:
the append settles the detector (it sets the latch by exhaustion), but `addDataPoints` returns
false. -/
theorem C18_exhaustion_by_last_sample :
    ¬ ((fullDetector.addDataPoints [Dbl.fin 0]).ret = true
        ↔ (fullDetector.addDataPoints [Dbl.fin 0]).det.hasConverged = true) := by
  decide

/-- C18 as amended: on an unlatched detector, `addDataPoints(vs)` appends the elements of `vs` in
order up to and including the first element whose append sets the latch and appends none after
it, and it returns true if and only if the latch is set when it returns, except that it returns
false when the latch was set by the exhaustion of `maxSamples` at the last element of `vs`. -/
theorem C18_addDataPoints (d : SteadyStateDetector) (vs : List Dbl)
    (hun : d.hasConverged = false) :
    (d.addDataPoints vs).det = feed d vs ∧
    (∃ j, j ≤ vs.length ∧
      (d.addDataPoints vs).det = feed d (vs.take j) ∧
      (d.addDataPoints vs).det.data_ = d.data_ ++ vs.take j ∧
      (∀ i, i < j → (feed d (vs.take i)).hasConverged = false) ∧
      (j < vs.length → (feed d (vs.take j)).hasConverged = true)) ∧
    ((d.addDataPoints vs).ret = true ↔
      ((d.addDataPoints vs).det.hasConverged = true ∧
        ¬ ((d.addDataPoints vs).det.lastResult_.reason = Reason.maxSamplesExhausted ∧
          (d.addDataPoints vs).det.data_ = d.data_ ++ vs))) := by
  refine ⟨addDataPoints_det d vs, ?_, addDataPoints_ret d vs hun⟩
  rw [addDataPoints_det]
  exact addDataPoints_prefix d vs hun

/-- C18 as amended, at the detector of scenario S5 after five samples and a list of three
samples. -/
theorem C18_addDataPoints_witness :
    fullDetector.hasConverged = false ∧
    (fullDetector.addDataPoints [Dbl.fin 1, Dbl.fin 2, Dbl.fin 3]).det
      = feed fullDetector [Dbl.fin 1, Dbl.fin 2, Dbl.fin 3] ∧
    ((fullDetector.addDataPoints [Dbl.fin 1, Dbl.fin 2, Dbl.fin 3]).ret = true ↔
      ((fullDetector.addDataPoints [Dbl.fin 1, Dbl.fin 2, Dbl.fin 3]).det.hasConverged = true ∧
        ¬ ((fullDetector.addDataPoints [Dbl.fin 1, Dbl.fin 2, Dbl.fin 3]).det.lastResult_.reason
            = Reason.maxSamplesExhausted ∧
          (fullDetector.addDataPoints [Dbl.fin 1, Dbl.fin 2, Dbl.fin 3]).det.data_
            = fullDetector.data_ ++ [Dbl.fin 1, Dbl.fin 2, Dbl.fin 3]))) :=
  have h := C18_addDataPoints fullDetector [Dbl.fin 1, Dbl.fin 2, Dbl.fin 3] (by decide)
  ⟨by decide, h.1, h.2.2⟩

/-! ## Segments of a series -/

theorem length_segment {α : Type} (Y : List α) (a b : Nat) (hb : b ≤ Y.length) :
    (segment Y a b).length = b - a := by
  unfold segment
  rw [List.length_take, List.length_drop]
  omega

/-! ## The callback -/

theorem callbackResults_append (a b : List Event) :
    callbackResults (a ++ b) = callbackResults a ++ callbackResults b := by
  simp [callbackResults, List.filterMap_append]

/-- The invocations of the callback in one call of `addDataPoint`. -/
theorem callbackResults_addDataPoint (d : SteadyStateDetector) (v : Dbl) :
    callbackResults (d.addDataPoint v).events =
      if d.converged_ = false ∧ (d.addDataPoint v).det.converged_ = true ∧
          d.convergenceCallback_.isSome = true
      then [(d.addDataPoint v).det.lastResult_] else [] := by
  by_cases hc : d.converged_ = true
  · rw [addDataPoint_of_converged d v hc]
    simp [hc, callbackResults]
  · have hc' : d.converged_ = false := by simpa using hc
    rcases Nat.lt_or_ge d.config_.maxSamples (d.data_.length + 1) with hfull | hroom
    · rw [addDataPoint_of_full d v hc' (by omega)]
      cases hcb : d.convergenceCallback_ <;> simp [hc', callbackResults]
    · by_cases hs : checkDue d.config_ (d.data_.length + 1) d.lastCheckIndex_ = true
      · rw [addDataPoint_of_check d v hc' hroom hs]
        cases hev : d.evaluateConvergence (calculate (d.data_ ++ [v]) d.config_) <;>
          cases hcb : d.convergenceCallback_ <;>
          simp [hc', callbackResults, triggerCallback, hcb]
      · rw [addDataPoint_of_skip d v hc' hroom (by simpa using hs)]
        simp [hc', callbackResults]

/-- The invocations of the callback in one call of `checkConvergence`. -/
theorem callbackResults_checkConvergence (d : SteadyStateDetector) :
    callbackResults d.checkConvergence.events =
      if d.converged_ = false ∧ d.checkConvergence.det.converged_ = true ∧
          d.convergenceCallback_.isSome = true
      then [d.checkConvergence.det.lastResult_] else [] := by
  by_cases hc : d.converged_ = true
  · rw [checkConvergence_of_converged d hc]
    simp [hc, callbackResults]
  · have hc' : d.converged_ = false := by simpa using hc
    by_cases hgate : d.isInWarmingPeriod = true ∨ d.data_.length < d.config_.minSamples
    · rw [checkConvergence_of_gated d hc' hgate]
      simp [hc', callbackResults]
    · have hwarm : d.isInWarmingPeriod = false := by
        cases h : d.isInWarmingPeriod
        · rfl
        · exact absurd (Or.inl h) hgate
      have hmin : d.config_.minSamples ≤ d.data_.length := by
        by_contra h
        exact hgate (Or.inr (by omega))
      rw [checkConvergence_of_open d hc' hwarm hmin]
      cases hev : d.evaluateConvergence (calculate d.data_ d.config_) <;>
        cases hcb : d.convergenceCallback_ <;>
        simp [hc', callbackResults, triggerCallback, hcb]

/-- The invocations of the callback in one call of `addDataPoints`. -/
theorem callbackResults_addDataPoints (d : SteadyStateDetector) (vs : List Dbl) :
    callbackResults (d.addDataPoints vs).events =
      if d.converged_ = false ∧ (d.addDataPoints vs).det.converged_ = true ∧
          d.convergenceCallback_.isSome = true
      then [(d.addDataPoints vs).det.lastResult_] else [] := by
  by_cases hc : d.converged_ = true
  · rw [addDataPoints_of_latched d vs hc]
    simp [hc, callbackResults]
  · have hun : d.converged_ = false := by simpa using hc
    induction vs generalizing d with
    | nil =>
      show callbackResults [] = if d.converged_ = false ∧ d.converged_ = true ∧ _ then _ else _
      simp [hun, callbackResults]
    | cons v vs ih =>
      have hone := callbackResults_addDataPoint d v
      obtain ⟨_, hcase⟩ := addDataPoint_outcomes d v hun
      have hframe := (addDataPoint_frame d v).2.1
      rw [addDataPoints_cons]
      rcases hcase with ⟨hret, hl, _⟩ | ⟨hret, hl, _⟩ | ⟨hret, hl⟩
      · simp only [hret, Bool.false_eq_true, if_false, addDataPoints_of_latched _ vs hl,
          List.append_nil]
        exact hone
      · simp only [hret, if_true]
        exact hone
      · simp only [hret, Bool.false_eq_true, if_false, callbackResults_append]
        rw [hone, ih _ (by simp [hl]) hl, hframe]
        simp [hun, hl]

/-- The invocations of the callback in one call of a run, and the callback after the call. -/
theorem callbackResults_apply (d : SteadyStateDetector) (op : Op) (hop : op ≠ Op.reset)
    (hcb : ∀ callback, op ≠ Op.setConvergenceCallback callback) :
    (op.apply d).det.convergenceCallback_ = d.convergenceCallback_ ∧
    callbackResults (op.apply d).events =
      if d.converged_ = false ∧ (op.apply d).det.converged_ = true ∧
          d.convergenceCallback_.isSome = true
      then [(op.apply d).det.lastResult_] else [] := by
  cases op with
  | addDataPoint v => exact ⟨(addDataPoint_frame d v).2.1, callbackResults_addDataPoint d v⟩
  | addDataPoints vs =>
    refine ⟨?_, callbackResults_addDataPoints d vs⟩
    show (d.addDataPoints vs).det.convergenceCallback_ = _
    rw [addDataPoints_det]
    exact (feed_frame d vs).2.1
  | checkConvergence =>
    refine ⟨?_, callbackResults_checkConvergence d⟩
    show d.checkConvergence.det.convergenceCallback_ = _
    unfold checkConvergence
    split
    · rfl
    · split
      · rfl
      · split
        · rfl
        · dsimp only
          split <;> rfl
  | reset => exact absurd rfl hop
  | updateConfig cfg =>
    refine ⟨rfl, ?_⟩
    show callbackResults [] = if d.converged_ = false ∧ d.converged_ = true ∧ _ then _ else _
    by_cases hc : d.converged_ = true <;> simp [hc, callbackResults]
  | setConvergenceCallback cb => exact absurd rfl (hcb cb)

/-- The callback stays the same in a run without `setConvergenceCallback`. -/
theorem callback_runOps (d : SteadyStateDetector) (ops : List Op)
    (hrun : ∀ op ∈ ops, op ≠ Op.reset ∧ ∀ callback, op ≠ Op.setConvergenceCallback callback) :
    (runOps d ops).convergenceCallback_ = d.convergenceCallback_ := by
  induction ops generalizing d with
  | nil => rfl
  | cons op ops ih =>
    have h := hrun op (List.mem_cons_self _ _)
    show (runOps (op.apply d).det ops).convergenceCallback_ = _
    rw [ih _ (fun op' hop' => hrun op' (List.mem_cons_of_mem _ hop'))]
    exact (callbackResults_apply d op h.1 h.2).1

/-- The callback is invoked at most once in a run without `reset`, and not at all when the latch
is set at the start of the run. -/
theorem callbackResults_runEvents (d : SteadyStateDetector) (ops : List Op)
    (hrun : ∀ op ∈ ops, op ≠ Op.reset ∧ ∀ callback, op ≠ Op.setConvergenceCallback callback) :
    (d.converged_ = true → callbackResults (runEvents d ops) = []) ∧
    (callbackResults (runEvents d ops)).length ≤ 1 := by
  induction ops generalizing d with
  | nil => exact ⟨fun _ => rfl, Nat.zero_le 1⟩
  | cons op ops ih =>
    have h := hrun op (List.mem_cons_self _ _)
    obtain ⟨ih1, ih2⟩ := ih (op.apply d).det
      (fun op' hop' => hrun op' (List.mem_cons_of_mem _ hop'))
    have hone := (callbackResults_apply d op h.1 h.2).2
    have hev : runEvents d (op :: ops) = (op.apply d).events ++ runEvents (op.apply d).det ops :=
      rfl
    rw [hev, callbackResults_append, hone]
    constructor
    · intro hc
      rw [ih1 (apply_of_converged d op hc h.1)]
      simp [hc]
    · by_cases hl : (op.apply d).det.converged_ = true
      · rw [ih1 hl]
        split <;> simp
      · simpa [hl] using ih2

/-- C20: in every run of `addDataPoint`, `addDataPoints`, `checkConvergence` and `updateConfig`
calls on a detector (no `reset`, and no `setConvergenceCallback`, so that the callback is the
same in the whole run), the convergence callback is invoked at most once in the run, and a call of
the run invokes it, when a callback is installed, exactly if the call changes the latch from false
to true: then it invokes it once, with an argument equal to `lastResult` as it stands when the
call returns. -/
theorem C20_callback_once (d : SteadyStateDetector) (ops : List Op)
    (hrun : ∀ op ∈ ops, op ≠ Op.reset ∧ ∀ callback, op ≠ Op.setConvergenceCallback callback) :
    (callbackResults (runEvents d ops)).length ≤ 1 ∧
    ∀ before op after, ops = before ++ op :: after →
      runEvents d ops
        = runEvents d before ++ (op.apply (runOps d before)).events
          ++ runEvents (op.apply (runOps d before)).det after ∧
      (runOps d before).convergenceCallback_ = d.convergenceCallback_ ∧
      callbackResults (op.apply (runOps d before)).events =
        if (runOps d before).hasConverged = false ∧
            (op.apply (runOps d before)).det.hasConverged = true ∧
            d.convergenceCallback_.isSome = true
        then [(op.apply (runOps d before)).det.getLastResult] else [] := by
  refine ⟨(callbackResults_runEvents d ops hrun).2, ?_⟩
  intro before op after hsplit
  have hbefore : ∀ op' ∈ before,
      op' ≠ Op.reset ∧ ∀ callback, op' ≠ Op.setConvergenceCallback callback :=
    fun op' hop' => hrun op' (by rw [hsplit]; exact List.mem_append_left _ hop')
  have hop := hrun op (by rw [hsplit]; simp)
  have hcallback := callback_runOps d before hbefore
  refine ⟨?_, hcallback, ?_⟩
  · rw [hsplit, runEvents_append, List.append_assoc]
    rfl
  · have hone := (callbackResults_apply (runOps d before) op hop.1 hop.2).2
    rw [hcallback] at hone
    exact hone

/-- C20 at the detector of scenario S5 after five samples, with a callback installed: the call of
`addDataPoints` exhausts the buffer and invokes the callback, no other call of the run does. -/
theorem C20_callback_once_witness :
    (∀ op ∈ trackedCalls,
      op ≠ Op.reset ∧ ∀ callback, op ≠ Op.setConvergenceCallback callback) ∧
    (callbackResults (runEvents listeningDetector trackedCalls)).length ≤ 1 ∧
    callbackResults ((Op.addDataPoints [Dbl.fin 0, Dbl.fin 0]).apply
        (runOps listeningDetector [Op.updateConfig exhaustionConfig])).events =
      if (runOps listeningDetector [Op.updateConfig exhaustionConfig]).hasConverged = false ∧
          ((Op.addDataPoints [Dbl.fin 0, Dbl.fin 0]).apply
            (runOps listeningDetector [Op.updateConfig exhaustionConfig])).det.hasConverged
              = true ∧
          listeningDetector.convergenceCallback_.isSome = true
      then [((Op.addDataPoints [Dbl.fin 0, Dbl.fin 0]).apply
        (runOps listeningDetector [Op.updateConfig exhaustionConfig])).det.getLastResult]
      else [] :=
  have hrun : ∀ op ∈ trackedCalls,
      op ≠ Op.reset ∧ ∀ callback, op ≠ Op.setConvergenceCallback callback := by
    simp [trackedCalls]
  have h := C20_callback_once listeningDetector trackedCalls hrun
  ⟨hrun, h.1,
    (h.2 [Op.updateConfig exhaustionConfig] (Op.addDataPoints [Dbl.fin 0, Dbl.fin 0])
      [Op.checkConvergence, Op.addDataPoint (Dbl.fin 1)] rfl).2.2⟩

/-- The run `trackedCalls` on `listeningDetector` invokes the callback once, in the call of
`addDataPoints`, with the result of the exhaustion. -/
theorem trackedCalls_events :
    runEvents listeningDetector trackedCalls
      = [Event.callback 7 { MSERResult.init with
          converged := false, reason := Reason.maxSamplesExhausted }] := by
  decide

/-! ## `lastCheckIndex` and the buffer size -/

/-- Every public operation preserves `lastCheckIndex_ ≤ data_.size()`. -/
theorem lastCheckIndex_le_apply (d : SteadyStateDetector) (op : Op)
    (h : d.lastCheckIndex_ ≤ d.data_.length) :
    (op.apply d).det.lastCheckIndex_ ≤ (op.apply d).det.data_.length := by
  cases op with
  | addDataPoint v => exact (addDataPoint_frame d v).2.2 h
  | addDataPoints vs =>
    show (d.addDataPoints vs).det.lastCheckIndex_ ≤ (d.addDataPoints vs).det.data_.length
    rw [addDataPoints_det]
    exact (feed_frame d vs).2.2 h
  | checkConvergence =>
    show d.checkConvergence.det.lastCheckIndex_ ≤ d.checkConvergence.det.data_.length
    unfold checkConvergence
    split
    · exact h
    · split
      · exact h
      · split
        · exact h
        · dsimp only
          split <;> exact Nat.le_refl _
  | reset => exact Nat.le_refl 0
  | updateConfig cfg => exact h
  | setConvergenceCallback cb => exact h

theorem lastCheckIndex_le_runOps (d : SteadyStateDetector) (ops : List Op)
    (h : d.lastCheckIndex_ ≤ d.data_.length) :
    (runOps d ops).lastCheckIndex_ ≤ (runOps d ops).data_.length := by
  induction ops generalizing d with
  | nil => exact h
  | cons op ops ih => exact ih _ (lastCheckIndex_le_apply d op h)

/-- C21: in every detector state reachable from a freshly constructed detector by a sequence of
public operations, `lastCheckIndex ≤ |buffer|`; so the unsigned subtraction
`data_.size() - lastCheckIndex_` of `shouldPerformCheck` does not underflow, neither in that state
nor after the `push_back` of `addDataPoint`, where `shouldPerformCheck` is called: for every buffer
size that a `size_t` holds its result is the difference of the two numbers. -/
theorem C21_lastCheckIndex_le (d : SteadyStateDetector) (v : Dbl)
    (hreach : ∃ cfg ops, d = runOps (SteadyStateDetector.new cfg) ops) :
    d.lastCheckIndex_ ≤ d.data_.length ∧
    d.lastCheckIndex_ ≤ (d.data_ ++ [v]).length ∧
    (d.data_.length < sizeModulus →
      (d.data_.length + sizeModulus - d.lastCheckIndex_) % sizeModulus
        = d.data_.length - d.lastCheckIndex_ ∧
      d.shouldPerformCheck
        = (!(d.config_.enableWarming && decide (d.data_.length < d.config_.warmingSteps))
            && decide (d.config_.minSamples ≤ d.data_.length)
            && decide (d.config_.checkInterval ≤ d.data_.length - d.lastCheckIndex_))) ∧
    ((d.data_ ++ [v]).length < sizeModulus →
      ((d.data_ ++ [v]).length + sizeModulus - d.lastCheckIndex_) % sizeModulus
        = (d.data_ ++ [v]).length - d.lastCheckIndex_ ∧
      ({ d with data_ := d.data_ ++ [v] } : SteadyStateDetector).shouldPerformCheck
        = (!(d.config_.enableWarming && decide ((d.data_ ++ [v]).length < d.config_.warmingSteps))
            && decide (d.config_.minSamples ≤ (d.data_ ++ [v]).length)
            && decide (d.config_.checkInterval
                ≤ (d.data_ ++ [v]).length - d.lastCheckIndex_))) := by
  obtain ⟨cfg, ops, rfl⟩ := hreach
  have hle := lastCheckIndex_le_runOps (SteadyStateDetector.new cfg) ops (Nat.le_refl 0)
  have hle' : (runOps (SteadyStateDetector.new cfg) ops).lastCheckIndex_
      ≤ ((runOps (SteadyStateDetector.new cfg) ops).data_ ++ [v]).length := by
    rw [List.length_append, List.length_singleton]
    omega
  refine ⟨hle, hle', fun hsize => ?_, fun hsize => ?_⟩
  · have hd := wrapped_difference_eq _ _ hle hsize
    refine ⟨hd, ?_⟩
    rw [shouldPerformCheck_eq, hd]
  · have hd := wrapped_difference_eq _ _ hle' hsize
    refine ⟨hd, ?_⟩
    rw [shouldPerformCheck_eq]
    show (_ && _ && decide (_ ≤ (((runOps (SteadyStateDetector.new cfg) ops).data_ ++ [v]).length
      + sizeModulus - (runOps (SteadyStateDetector.new cfg) ops).lastCheckIndex_)
        % sizeModulus)) = _
    rw [hd]

/-- C21 at a detector on which `checkConvergence` ran the estimator after one append:
`lastCheckIndex` is 1 and the buffer holds one sample. -/
theorem C21_lastCheckIndex_le_witness :
    (∃ cfg ops, checkedDetector = runOps (SteadyStateDetector.new cfg) ops) ∧
    checkedDetector.lastCheckIndex_ = 1 ∧
    checkedDetector.data_.length = 1 ∧
    checkedDetector.lastCheckIndex_ ≤ checkedDetector.data_.length ∧
    checkedDetector.lastCheckIndex_ ≤ (checkedDetector.data_ ++ [Dbl.fin 1]).length ∧
    (checkedDetector.data_.length + sizeModulus - checkedDetector.lastCheckIndex_) % sizeModulus
      = checkedDetector.data_.length - checkedDetector.lastCheckIndex_ :=
  have h := C21_lastCheckIndex_le checkedDetector (Dbl.fin 1) ⟨_, _, rfl⟩
  ⟨⟨_, _, rfl⟩, by decide, by decide, h.1, h.2.1, (h.2.2.1 (by decide)).1⟩

/-! ## Validated inputs -/

/-- A candidate `k < ⌊n/2⌋` of the search passes the guard of `calculateMSERValue`. -/
theorem calculateMSERValue_of_scanned (data : TimeSeriesData) (k : Nat)
    (hk : k < data.length / 2) :
    ¬ (k ≥ data.length ∨ data.length - k < 2) ∧
    calculateMSERValue data k
      = (sumSquaredDeviations data (calculateMean data k data.length) k data.length).div
          (Dbl.ofNat ((data.length - k) * (data.length - k) % sizeModulus)) := by
  have hguard : ¬ (k ≥ data.length ∨ data.length - k < 2) := by omega
  refine ⟨hguard, ?_⟩
  unfold calculateMSERValue
  simp only
  rw [if_neg hguard]

/-- A series whose samples are all finite is the image of a series of rationals. -/
theorem eq_finite_of_all_isfinite (data : TimeSeriesData)
    (h : ∀ x ∈ data, x.isfinite = true) : ∃ Y : List ℚ, data = finite Y := by
  induction data with
  | nil => exact ⟨[], rfl⟩
  | cons x xs ih =>
    obtain ⟨Y, hY⟩ := ih (fun y hy => h y (List.mem_cons_of_mem _ hy))
    have hx := h x (List.mem_cons_self _ _)
    cases x with
    | fin q => exact ⟨q :: Y, by rw [hY]; rfl⟩
    | pinf => exact Bool.noConfusion hx
    | ninf => exact Bool.noConfusion hx
    | nan => exact Bool.noConfusion hx

theorem validateData_eq_true (data : TimeSeriesData) (m : Nat) :
    validateData data m = true ↔ (∀ x ∈ data, x.isfinite = true) ∧ m ≤ data.length := by
  unfold validateData
  by_cases h : data.length < m
  · simp only [h, if_true, Bool.false_eq_true, false_iff, not_and]
    intro _
    omega
  · simp only [h, if_false, List.all_eq_true]
    exact ⟨fun hall => ⟨hall, by omega⟩, fun hall => hall.1⟩

/-- A finite value of the statistic of finite samples is a non-negative rational. -/
theorem calculateMSERValue_nonneg (Y : List ℚ) (k : Nat) (h : k + 2 ≤ Y.length)
    (hlt : (calculateMSERValue (finite Y) k).lt Dbl.pinf = true) :
    ∃ q : ℚ, 0 ≤ q ∧ calculateMSERValue (finite Y) k = Dbl.fin q := by
  rw [calculateMSERValue_finite Y k h] at hlt ⊢
  have hS := sum_sq_nonneg (Y.drop k) (suffixMean Y k)
  by_cases hd : (Y.length - k) * (Y.length - k) % sizeModulus = 0
  · rw [hd, Dbl.div_zero_not_lt_pinf _ hS] at hlt
    exact Bool.noConfusion hlt
  · have hne : ((((Y.length - k) * (Y.length - k) % sizeModulus : Nat)) : ℚ) ≠ 0 := by
      exact_mod_cast hd
    rw [Dbl.ofNat, Dbl.div_fin _ _ hne]
    exact ⟨_, div_nonneg hS (by positivity), rfl⟩

/-- The search on at least four finite samples returns a non-negative rational. -/
theorem findOptimalTruncationPoint_nonneg (Y : List ℚ) (h2 : 2 ≤ Y.length / 2) :
    ∃ q : ℚ, 0 ≤ q ∧ (findOptimalTruncationPoint (finite Y)).2 = Dbl.fin q := by
  have hl := length_finite Y
  have hlt := findOptimalTruncationPoint_lt_pinf Y h2
  obtain ⟨_, hB⟩ := search_invariant (finite Y) ((finite Y).length / 2)
  rw [← findOptimalTruncationPoint_eq_foldl _ (by rw [hl]; exact h2)] at hB
  rcases hB with hB | ⟨h1, hval, _, _⟩
  · rw [hB] at hlt
    exact Bool.noConfusion hlt
  · rw [hl] at h1
    rw [hval] at hlt ⊢
    exact calculateMSERValue_nonneg Y _ (by omega) hlt

/-- The result of `calculateMSER1` on at least ten finite samples. -/
theorem calculateMSER1_of_valid (Y : List ℚ) (hn : 10 ≤ Y.length) :
    (∃ q : ℚ, 0 ≤ q ∧ (calculateMSER1 (finite Y)).mserValue = Dbl.fin q) ∧
    (calculateMSER1 (finite Y)).converged = true ∧
    (calculateMSER1 (finite Y)).reason = Reason.ok := by
  have hlt := findOptimalTruncationPoint_lt_pinf Y (by omega)
  rw [calculateMSER1_finite Y hn]
  exact ⟨findOptimalTruncationPoint_nonneg Y (by omega), hlt, by simp [hlt]⟩

/-- The result of `calculateMSERm` on finite samples that make at least ten batches. -/
theorem calculateMSERm_of_valid (Y : List ℚ) (B : Nat) (hn : 10 ≤ Y.length / B) :
    (∃ q : ℚ, 0 ≤ q ∧ (calculateMSERm (finite Y) B).mserValue = Dbl.fin q) ∧
    (calculateMSERm (finite Y) B).converged = true ∧
    (calculateMSERm (finite Y) B).reason = Reason.ok := by
  have hB : 1 ≤ B := by
    rcases Nat.eq_zero_or_pos B with h | h
    · rw [h, Nat.div_zero] at hn
      omega
    · exact h
  obtain ⟨hreason, hconv⟩ := calculateMSERm_ok Y B hB hn
  refine ⟨?_, hconv, hreason⟩
  rw [calculateMSERm_finite Y B hB hn]
  show ∃ q : ℚ, 0 ≤ q ∧ (findOptimalTruncationPoint (createBatchMeans (finite Y) B)).2 = Dbl.fin q
  rw [createBatchMeans_finite Y B hB]
  apply findOptimalTruncationPoint_nonneg
  simp only [List.length_map, List.length_range]
  omega

/-! ## The max-samples path and `lastResult` -/

/-- C23: for every unlatched detector with `|buffer| ≥ cfg.maxSamples`, `addDataPoint(v)` runs no
estimator pass and writes only the fields `converged` and `reason` of `lastResult`: the fields
`truncationPoint`, `mserValue`, `totalSamples`, `batchCount` and `variant` of `lastResult`, and
`lastCheckIndex`, are as before the call, while the buffer has one sample more. -/
theorem C23_max_samples_frame (d : SteadyStateDetector) (v : Dbl)
    (hun : d.hasConverged = false) (hfull : d.config_.maxSamples ≤ d.data_.length) :
    (d.addDataPoint v).det.lastResult_
      = { d.lastResult_ with converged := false, reason := Reason.maxSamplesExhausted } ∧
    (d.addDataPoint v).det.lastResult_.truncationPoint = d.lastResult_.truncationPoint ∧
    (d.addDataPoint v).det.lastResult_.mserValue = d.lastResult_.mserValue ∧
    (d.addDataPoint v).det.lastResult_.totalSamples = d.lastResult_.totalSamples ∧
    (d.addDataPoint v).det.lastResult_.batchCount = d.lastResult_.batchCount ∧
    (d.addDataPoint v).det.lastResult_.variant = d.lastResult_.variant ∧
    (d.addDataPoint v).det.lastCheckIndex_ = d.lastCheckIndex_ ∧
    passSizes (d.addDataPoint v).events = [] ∧
    (d.addDataPoint v).det.data_ = d.data_ ++ [v] := by
  rw [addDataPoint_of_full d v hun hfull]
  refine ⟨rfl, rfl, rfl, rfl, rfl, rfl, rfl, ?_, rfl⟩
  cases d.convergenceCallback_ <;> rfl

/-- C23 at a detector with `maxSamples = 2` on which the estimator ran at the buffer sizes 1 and
2: after the third append `lastResult.totalSamples` is still 2, the size at the last estimator
pass, and the buffer holds 3 samples. -/
theorem C23_max_samples_frame_witness :
    (passedDetector.hasConverged = false ∧
      passedDetector.config_.maxSamples ≤ passedDetector.data_.length) ∧
    (passedDetector.addDataPoint (Dbl.fin 0)).det.lastResult_.truncationPoint
      = passedDetector.lastResult_.truncationPoint ∧
    (passedDetector.addDataPoint (Dbl.fin 0)).det.lastResult_.mserValue
      = passedDetector.lastResult_.mserValue ∧
    (passedDetector.addDataPoint (Dbl.fin 0)).det.lastResult_.totalSamples
      = passedDetector.lastResult_.totalSamples ∧
    (passedDetector.addDataPoint (Dbl.fin 0)).det.lastResult_.batchCount
      = passedDetector.lastResult_.batchCount ∧
    (passedDetector.addDataPoint (Dbl.fin 0)).det.lastResult_.variant
      = passedDetector.lastResult_.variant ∧
    (passedDetector.addDataPoint (Dbl.fin 0)).det.lastCheckIndex_
      = passedDetector.lastCheckIndex_ ∧
    passedDetector.lastCheckIndex_ = 2 ∧
    (passedDetector.addDataPoint (Dbl.fin 0)).det.lastResult_.totalSamples = 2 ∧
    (passedDetector.addDataPoint (Dbl.fin 0)).det.data_.length = 3 :=
  have h := C23_max_samples_frame passedDetector (Dbl.fin 0) (by decide) (by decide)
  ⟨⟨by decide, by decide⟩, h.2.1, h.2.2.1, h.2.2.2.1, h.2.2.2.2.1, h.2.2.2.2.2.1,
    h.2.2.2.2.2.2.1, by decide, by decide, by decide⟩

/-- The sixth append of scenario S5 (no estimator pass ran before it) leaves in `lastResult` the
defaults of the fields that the max-samples path does not write. -/
theorem exhaustedDetector_lastResult :
    exhaustedDetector.lastResult_
      = { MSERResult.init with converged := false, reason := Reason.maxSamplesExhausted } ∧
    exhaustedDetector.lastResult_.totalSamples = 0 ∧
    exhaustedDetector.data_.length = 6 ∧
    exhaustedDetector.lastCheckIndex_ = 0 := by
  decide

/-! ## Rounding to the nearest integer -/

theorem Dbl.roundHalfEven_le (x : ℚ) (N : ℤ) (h : x ≤ N) : Dbl.roundHalfEven x ≤ N := by
  have hfl : ⌊x⌋ ≤ N := Int.floor_le_iff.mpr (lt_of_le_of_lt h (by exact_mod_cast Int.lt_succ N)) 
  unfold Dbl.roundHalfEven
  by_cases h1 : x - ⌊x⌋ < 1 / 2
  · rw [if_pos h1]; exact hfl
  · have hne : (⌊x⌋ : ℚ) < x := by linarith
    have hlt : ⌊x⌋ < N := by
      have : (⌊x⌋ : ℚ) < N := lt_of_lt_of_le hne h
      exact_mod_cast this
    rw [if_neg h1]
    split
    · omega
    · split
      · exact hfl
      · omega

theorem Dbl.le_roundHalfEven (x : ℚ) (N : ℤ) (h : (N : ℚ) ≤ x) : N ≤ Dbl.roundHalfEven x := by
  have hfl : N ≤ ⌊x⌋ := Int.le_floor.mpr h
  unfold Dbl.roundHalfEven
  split
  · exact hfl
  · split
    · omega
    · split
      · exact hfl
      · omega

/-! ## Rounding to binary64 -/

theorem Dbl.exponent_lt (a : ℚ) : a < 2 ^ (Dbl.exponent a + 1) := by
  have h1 : a < ((2 : ℕ) : ℚ) ^ (Int.log 2 a + 1) := Int.lt_zpow_succ_log_self (by norm_num) a
  have h2 : ((2 : ℕ) : ℚ) ^ (Int.log 2 a + 1) ≤ (2 : ℚ) ^ (Dbl.exponent a + 1) := by
    rw [Nat.cast_ofNat]
    apply zpow_le_zpow_right₀ (by norm_num)
    unfold Dbl.exponent
    omega
  exact lt_of_lt_of_le h1 h2

theorem Dbl.exponent_le (a : ℚ) (ha : 0 < a) (h : -1022 < Dbl.exponent a) :
    (2 : ℚ) ^ Dbl.exponent a ≤ a := by
  have he : Dbl.exponent a = Int.log 2 a := by
    unfold Dbl.exponent at h ⊢
    omega
  rw [he]
  have := Int.zpow_log_le_self (R := ℚ) (b := 2) (r := a) (by norm_num) ha
  rwa [Nat.cast_ofNat] at this

theorem Dbl.exponent_ge (a : ℚ) : -1022 ≤ Dbl.exponent a := by
  unfold Dbl.exponent
  omega

theorem Dbl.ulp_pos (a : ℚ) : (0 : ℚ) < 2 ^ (Dbl.exponent a - 52) := zpow_pos (by norm_num) _

theorem Dbl.roundMagnitude_nonneg (a : ℚ) (ha : 0 ≤ a) : 0 ≤ Dbl.roundMagnitude a := by
  unfold Dbl.roundMagnitude
  have h0 : (0 : ℤ) ≤ Dbl.roundHalfEven (a / 2 ^ (Dbl.exponent a - 52)) :=
    Dbl.le_roundHalfEven _ 0 (by
      rw [Int.cast_zero]
      exact div_nonneg ha (Dbl.ulp_pos a).le)
  exact mul_nonneg (by exact_mod_cast h0) (Dbl.ulp_pos a).le

/-- A number `j * 2 ^ m` with `j ≤ 2 ^ 53` is a whole multiple of the unit in the last place of
every magnitude whose exponent is at most `m + 52`. -/
theorem Dbl.multiple_of_ulp (j : ℕ) (m e : ℤ) (h : e - 52 ≤ m) :
    ((j : ℚ) * 2 ^ m) / 2 ^ (e - 52) = ((j * 2 ^ (m - (e - 52)).toNat : ℤ) : ℚ) := by
  have hk : ((m - (e - 52)).toNat : ℤ) = m - (e - 52) := Int.toNat_of_nonneg (by omega)
  have h2 : (2 : ℚ) ≠ 0 := by norm_num
  have hpow : (2 : ℚ) ^ m = 2 ^ (m - (e - 52)).toNat * 2 ^ (e - 52) := by
    rw [← zpow_natCast (2 : ℚ), hk, ← zpow_add₀ h2]
    congr 1
    ring
  push_cast
  rw [div_eq_iff (zpow_pos (by norm_num) _).ne', mul_assoc, ← hpow]

theorem Dbl.significand_le (j : ℕ) (m : ℤ) (hj : j ≤ 2 ^ 53) :
    (j : ℚ) * 2 ^ m ≤ 2 ^ (53 + m) := by
  have h1 : (j : ℚ) ≤ ((2 ^ 53 : ℕ) : ℚ) := Nat.cast_le.mpr hj
  have e : (((2 ^ 53 : ℕ)) : ℚ) = 2 ^ (53 : ℤ) := by norm_num
  rw [e] at h1
  calc (j : ℚ) * 2 ^ m ≤ 2 ^ (53 : ℤ) * 2 ^ m :=
        mul_le_mul_of_nonneg_right h1 (zpow_pos (by norm_num) _).le
    _ = 2 ^ (53 + m) := by rw [zpow_add₀ (by norm_num)]

theorem Dbl.two_pow_52_mul_ulp (e : ℤ) :
    ((2 ^ 52 : ℤ) : ℚ) * 2 ^ (e - 52) = 2 ^ e := by
  have h2 : (2 : ℚ) ≠ 0 := by norm_num
  have h52 : ((2 ^ 52 : ℤ) : ℚ) = 2 ^ (52 : ℤ) := by norm_num
  rw [h52, ← zpow_add₀ h2]
  congr 1
  ring

/-- Rounding does not cross a representable number from below. -/
theorem Dbl.roundMagnitude_le (a : ℚ) (ha : 0 < a) (j : ℕ) (m : ℤ) (hj : j ≤ 2 ^ 53)
    (hm : -1074 ≤ m) (h : a ≤ (j : ℚ) * 2 ^ m) : Dbl.roundMagnitude a ≤ (j : ℚ) * 2 ^ m := by
  have hu := Dbl.ulp_pos a
  unfold Dbl.roundMagnitude
  rcases le_or_lt (Dbl.exponent a - 52) m with hcase | hcase
  · have hmult := Dbl.multiple_of_ulp j m (Dbl.exponent a) hcase
    have hle : Dbl.roundHalfEven (a / 2 ^ (Dbl.exponent a - 52))
        ≤ (j * 2 ^ (m - (Dbl.exponent a - 52)).toNat : ℤ) := by
      apply Dbl.roundHalfEven_le
      rw [← hmult]
      exact div_le_div_of_nonneg_right h hu.le
    have hle' : (Dbl.roundHalfEven (a / 2 ^ (Dbl.exponent a - 52)) : ℚ)
        ≤ ((j * 2 ^ (m - (Dbl.exponent a - 52)).toNat : ℤ) : ℚ) := by exact_mod_cast hle
    calc (Dbl.roundHalfEven (a / 2 ^ (Dbl.exponent a - 52)) : ℚ) * 2 ^ (Dbl.exponent a - 52)
        ≤ ((j * 2 ^ (m - (Dbl.exponent a - 52)).toNat : ℤ) : ℚ) * 2 ^ (Dbl.exponent a - 52) :=
          mul_le_mul_of_nonneg_right hle' hu.le
      _ = (j : ℚ) * 2 ^ m := by rw [← hmult, div_mul_cancel₀ _ hu.ne']
  · have hnormal : (2 : ℚ) ^ Dbl.exponent a ≤ a := Dbl.exponent_le a ha (by omega)
    have hB : (j : ℚ) * 2 ^ m ≤ 2 ^ Dbl.exponent a :=
      (Dbl.significand_le j m hj).trans (zpow_le_zpow_right₀ (by norm_num) (by omega))
    have ha2 : a = 2 ^ Dbl.exponent a := le_antisymm (h.trans hB) hnormal
    have hquot : a / 2 ^ (Dbl.exponent a - 52) = ((2 ^ 52 : ℤ) : ℚ) := by
      rw [div_eq_iff hu.ne', Dbl.two_pow_52_mul_ulp]
      exact ha2
    have hle : Dbl.roundHalfEven (a / 2 ^ (Dbl.exponent a - 52)) ≤ (2 ^ 52 : ℤ) :=
      Dbl.roundHalfEven_le _ _ hquot.le
    have hle' : (Dbl.roundHalfEven (a / 2 ^ (Dbl.exponent a - 52)) : ℚ) ≤ ((2 ^ 52 : ℤ) : ℚ) := by
      exact_mod_cast hle
    calc (Dbl.roundHalfEven (a / 2 ^ (Dbl.exponent a - 52)) : ℚ) * 2 ^ (Dbl.exponent a - 52)
        ≤ ((2 ^ 52 : ℤ) : ℚ) * 2 ^ (Dbl.exponent a - 52) :=
          mul_le_mul_of_nonneg_right hle' hu.le
      _ = a := by rw [← hquot, div_mul_cancel₀ _ hu.ne']
      _ ≤ (j : ℚ) * 2 ^ m := h

/-- Rounding does not cross a representable number from above. -/
theorem Dbl.le_roundMagnitude (a : ℚ) (ha : 0 < a) (j : ℕ) (m : ℤ) (hj : j ≤ 2 ^ 53)
    (hm : -1074 ≤ m) (h : (j : ℚ) * 2 ^ m ≤ a) : (j : ℚ) * 2 ^ m ≤ Dbl.roundMagnitude a := by
  have hu := Dbl.ulp_pos a
  unfold Dbl.roundMagnitude
  rcases le_or_lt (Dbl.exponent a - 52) m with hcase | hcase
  · have hmult := Dbl.multiple_of_ulp j m (Dbl.exponent a) hcase
    have hle : (j * 2 ^ (m - (Dbl.exponent a - 52)).toNat : ℤ)
        ≤ Dbl.roundHalfEven (a / 2 ^ (Dbl.exponent a - 52)) := by
      apply Dbl.le_roundHalfEven
      rw [← hmult]
      exact div_le_div_of_nonneg_right h hu.le
    have hle' : ((j * 2 ^ (m - (Dbl.exponent a - 52)).toNat : ℤ) : ℚ)
        ≤ (Dbl.roundHalfEven (a / 2 ^ (Dbl.exponent a - 52)) : ℚ) := by exact_mod_cast hle
    calc (j : ℚ) * 2 ^ m
        = ((j * 2 ^ (m - (Dbl.exponent a - 52)).toNat : ℤ) : ℚ) * 2 ^ (Dbl.exponent a - 52) := by
          rw [← hmult, div_mul_cancel₀ _ hu.ne']
      _ ≤ (Dbl.roundHalfEven (a / 2 ^ (Dbl.exponent a - 52)) : ℚ) * 2 ^ (Dbl.exponent a - 52) :=
          mul_le_mul_of_nonneg_right hle' hu.le
  · have hnormal : (2 : ℚ) ^ Dbl.exponent a ≤ a := Dbl.exponent_le a ha (by omega)
    have hB : (j : ℚ) * 2 ^ m ≤ 2 ^ Dbl.exponent a :=
      (Dbl.significand_le j m hj).trans (zpow_le_zpow_right₀ (by norm_num) (by omega))
    have hquot : ((2 ^ 52 : ℤ) : ℚ) ≤ a / 2 ^ (Dbl.exponent a - 52) := by
      rw [le_div_iff₀ hu]
      rw [Dbl.two_pow_52_mul_ulp]
      exact hnormal
    have hle : (2 ^ 52 : ℤ) ≤ Dbl.roundHalfEven (a / 2 ^ (Dbl.exponent a - 52)) :=
      Dbl.le_roundHalfEven _ _ hquot
    have hle' : ((2 ^ 52 : ℤ) : ℚ) ≤ (Dbl.roundHalfEven (a / 2 ^ (Dbl.exponent a - 52)) : ℚ) := by
      exact_mod_cast hle
    calc (j : ℚ) * 2 ^ m ≤ 2 ^ Dbl.exponent a := hB
      _ = ((2 ^ 52 : ℤ) : ℚ) * 2 ^ (Dbl.exponent a - 52) := (Dbl.two_pow_52_mul_ulp _).symm
      _ ≤ (Dbl.roundHalfEven (a / 2 ^ (Dbl.exponent a - 52)) : ℚ) * 2 ^ (Dbl.exponent a - 52) :=
          mul_le_mul_of_nonneg_right hle' hu.le

theorem Dbl.round64_zero : Dbl.round64 0 = Dbl.fin 0 := by
  simp [Dbl.round64]

theorem Dbl.round64_of_pos (q : ℚ) (hq : 0 < q) :
    Dbl.round64 q
      = if 2 ^ 1024 ≤ Dbl.roundMagnitude q then Dbl.pinf else Dbl.fin (Dbl.roundMagnitude q) := by
  unfold Dbl.round64
  rw [if_neg hq.ne', abs_of_pos hq]
  simp [hq, Dbl.signedInf]

theorem Dbl.round64_neg (q : ℚ) : Dbl.round64 (-q) = (Dbl.round64 q).neg := by
  rcases lt_trichotomy q 0 with h | h | h
  · have h1 : ¬ 0 < q := not_lt.mpr h.le
    have h2 : 0 < -q := neg_pos.mpr h
    unfold Dbl.round64
    rw [if_neg h.ne, if_neg h2.ne', abs_neg]
    split <;> simp [h1, h2, Dbl.signedInf, Dbl.neg]
  · subst h
    simp [Dbl.round64, Dbl.neg]
  · have h1 : ¬ 0 < -q := not_lt.mpr (neg_nonpos.mpr h.le)
    unfold Dbl.round64
    rw [if_neg h.ne', if_neg (neg_ne_zero.mpr h.ne'), abs_neg]
    split <;> simp [h1, h, Dbl.signedInf, Dbl.neg]

/-- The rounding of a non-negative result is a non-negative number or `+∞`. -/
theorem Dbl.round64_nonneg (q : ℚ) (h : 0 ≤ q) :
    Dbl.round64 q = Dbl.pinf ∨ ∃ r : ℚ, 0 ≤ r ∧ Dbl.round64 q = Dbl.fin r := by
  rcases h.eq_or_lt with h0 | hpos
  · subst h0
    exact Or.inr ⟨0, le_rfl, Dbl.round64_zero⟩
  · rw [Dbl.round64_of_pos q hpos]
    split
    · exact Or.inl rfl
    · exact Or.inr ⟨_, Dbl.roundMagnitude_nonneg q hpos.le, rfl⟩

/-- The rounding of a result that is at most a representable number `j * 2 ^ m` in magnitude is a
finite value that is at most that number in magnitude. -/
theorem Dbl.round64_le (q : ℚ) (j : ℕ) (m : ℤ) (hj : j ≤ 2 ^ 53) (hm : -1074 ≤ m)
    (hB : (j : ℚ) * 2 ^ m < 2 ^ 1024) (h : |q| ≤ (j : ℚ) * 2 ^ m) :
    ∃ r : ℚ, Dbl.round64 q = Dbl.fin r ∧ |r| ≤ (j : ℚ) * 2 ^ m := by
  have hpos : ∀ p : ℚ, 0 < p → p ≤ (j : ℚ) * 2 ^ m →
      Dbl.round64 p = Dbl.fin (Dbl.roundMagnitude p) ∧
        |Dbl.roundMagnitude p| ≤ (j : ℚ) * 2 ^ m := by
    intro p hp hle
    have hr := Dbl.roundMagnitude_le p hp j m hj hm hle
    rw [Dbl.round64_of_pos p hp, if_neg (not_le.mpr (lt_of_le_of_lt hr hB)),
      abs_of_nonneg (Dbl.roundMagnitude_nonneg p hp.le)]
    exact ⟨rfl, hr⟩
  rcases lt_trichotomy q 0 with hq | hq | hq
  · obtain ⟨h1, h2⟩ := hpos (-q) (neg_pos.mpr hq) (by rwa [abs_of_neg hq] at h)
    refine ⟨-Dbl.roundMagnitude (-q), ?_, by rwa [abs_neg]⟩
    have := Dbl.round64_neg (-q)
    rw [neg_neg, h1] at this
    exact this
  · subst hq
    exact ⟨0, Dbl.round64_zero, by simpa using h⟩
  · obtain ⟨h1, h2⟩ := hpos q hq (by rwa [abs_of_pos hq] at h)
    exact ⟨_, h1, h2⟩

/-- The rounding of a result that is at least a positive representable number `j * 2 ^ m` is at
least that number, or `+∞`. -/
theorem Dbl.le_round64 (q : ℚ) (j : ℕ) (m : ℤ) (hj : j ≤ 2 ^ 53) (hm : -1074 ≤ m)
    (hpos : 0 < (j : ℚ) * 2 ^ m) (h : (j : ℚ) * 2 ^ m ≤ q) :
    Dbl.round64 q = Dbl.pinf ∨ ∃ r : ℚ, (j : ℚ) * 2 ^ m ≤ r ∧ Dbl.round64 q = Dbl.fin r := by
  have hq : 0 < q := lt_of_lt_of_le hpos h
  rw [Dbl.round64_of_pos q hq]
  split
  · exact Or.inl rfl
  · exact Or.inr ⟨_, Dbl.le_roundMagnitude q hq j m hj hm h, rfl⟩

/-- Overflow: a result of `2 ^ 1024` or more is rounded to `+∞`. -/
theorem Dbl.round64_overflow (q : ℚ) (h : 2 ^ 1024 ≤ q) : Dbl.round64 q = Dbl.pinf := by
  have h1 : ((1 : ℕ) : ℚ) * 2 ^ (1024 : ℤ) ≤ q := by
    have e : ((1 : ℕ) : ℚ) * 2 ^ (1024 : ℤ) = 2 ^ 1024 := by norm_num
    rw [e]
    exact h
  have hq : 0 < q := lt_of_lt_of_le (by positivity) h
  have hr := Dbl.le_roundMagnitude q hq 1 1024 (by norm_num) (by norm_num) h1
  rw [Dbl.round64_of_pos q hq, if_pos]
  have e : ((1 : ℕ) : ℚ) * 2 ^ (1024 : ℤ) = 2 ^ 1024 := by norm_num
  rw [e] at hr
  exact hr

/-- A representable number is its own rounding. -/
theorem Dbl.round64_exact (j : ℕ) (m : ℤ) (hj : j ≤ 2 ^ 53) (hm : -1074 ≤ m)
    (hB : (j : ℚ) * 2 ^ m < 2 ^ 1024) : Dbl.round64 ((j : ℚ) * 2 ^ m) = Dbl.fin ((j : ℚ) * 2 ^ m) := by
  have h0 : 0 ≤ (j : ℚ) * 2 ^ m := mul_nonneg (Nat.cast_nonneg j) (zpow_pos (by norm_num) _).le
  rcases h0.eq_or_lt with hz | hpos
  · rw [← hz]
    exact Dbl.round64_zero
  · have hu := Dbl.roundMagnitude_le _ hpos j m hj hm le_rfl
    have hl := Dbl.le_roundMagnitude _ hpos j m hj hm le_rfl
    rw [Dbl.round64_of_pos _ hpos, if_neg (not_le.mpr (lt_of_le_of_lt hu hB)),
      le_antisymm hu hl]

/-- The conversion of a `size_t` that is not zero to `double` is a finite value of at least 1. -/
theorem Dbl.round64_natCast (n : ℕ) (h1 : 1 ≤ n) (h : n < 2 ^ 64) :
    ∃ r : ℚ, 1 ≤ r ∧ Dbl.round64 (n : ℚ) = Dbl.fin r := by
  have hup : |(n : ℚ)| ≤ ((1 : ℕ) : ℚ) * 2 ^ (64 : ℤ) := by
    rw [abs_of_nonneg (Nat.cast_nonneg n)]
    have : (n : ℚ) ≤ ((2 ^ 64 : ℕ) : ℚ) := Nat.cast_le.mpr h.le
    calc (n : ℚ) ≤ ((2 ^ 64 : ℕ) : ℚ) := this
      _ = ((1 : ℕ) : ℚ) * 2 ^ (64 : ℤ) := by norm_num
  obtain ⟨r, hr, _⟩ := Dbl.round64_le (n : ℚ) 1 64 (by norm_num) (by norm_num)
    (by norm_num) hup
  have hlow : ((1 : ℕ) : ℚ) * 2 ^ (0 : ℤ) ≤ (n : ℚ) := by
    have : ((1 : ℕ) : ℚ) ≤ (n : ℚ) := Nat.cast_le.mpr h1
    simpa using this
  rcases Dbl.le_round64 (n : ℚ) 1 0 (by norm_num) (by norm_num) (by norm_num) hlow with hinf | ⟨r', hr', hfin⟩
  · rw [hr] at hinf
    exact Dbl.noConfusion hinf
  · exact ⟨r', by simpa using hr', hfin⟩

/-! ## The search loop in an arithmetic that rounds -/

/-- The invariant of the search loop after the candidates `0, ..., m - 1`. -/
theorem Rounded.search_invariant_rnd (rnd : ℚ → Dbl) (data : TimeSeriesData) (m : Nat) :
    let r := (List.range m).foldl (Rounded.searchStep rnd data) (0, Dbl.pinf)
    (∀ k, k < m → (Rounded.calculateMSERValue rnd data k).lt r.2 = false) ∧
    (r = (0, Dbl.pinf) ∨
      (r.1 < m ∧ r.2 = Rounded.calculateMSERValue rnd data r.1 ∧ r.2.lt Dbl.pinf = true ∧
        ∀ k, k < r.1 → (Rounded.calculateMSERValue rnd data k).le r.2 = false)) := by
  induction m with
  | zero => simp
  | succ m ih =>
    simp only [List.range_succ, List.foldl_append, List.foldl_cons, List.foldl_nil]
    set r := (List.range m).foldl (Rounded.searchStep rnd data) (0, Dbl.pinf) with hr
    obtain ⟨hA, hB⟩ := ih
    unfold Rounded.searchStep
    by_cases hlt : (Rounded.calculateMSERValue rnd data m).lt r.2 = true
    · simp only [hlt, if_true]
      refine ⟨?_, Or.inr ⟨Nat.lt_succ_self m, trivial, Dbl.lt_pinf_of_lt hlt, ?_⟩⟩
      · intro k hk
        rcases Nat.lt_succ_iff_lt_or_eq.mp hk with h | h
        · exact (Dbl.lt_of_lt_of_not_lt hlt (hA k h)).1
        · subst h; exact Dbl.lt_irrefl _
      · intro k hk
        exact (Dbl.lt_of_lt_of_not_lt hlt (hA k hk)).2
    · have hlt' : (Rounded.calculateMSERValue rnd data m).lt r.2 = false := by simpa using hlt
      simp only [hlt', Bool.false_eq_true, if_false]
      refine ⟨?_, ?_⟩
      · intro k hk
        rcases Nat.lt_succ_iff_lt_or_eq.mp hk with h | h
        · exact hA k h
        · subst h; exact hlt'
      · rcases hB with h | ⟨h1, h2, h3, h4⟩
        · exact Or.inl h
        · exact Or.inr ⟨Nat.lt_succ_of_lt h1, h2, h3, h4⟩

theorem Rounded.findOptimalTruncationPoint_eq_foldl_rnd (rnd : ℚ → Dbl) (data : TimeSeriesData)
    (h : 2 ≤ data.length / 2) :
    Rounded.findOptimalTruncationPoint rnd data
      = (List.range (data.length / 2)).foldl (Rounded.searchStep rnd data) (0, Dbl.pinf) := by
  unfold Rounded.findOptimalTruncationPoint
  simp only
  rw [if_neg (by omega)]

/-- The outcome of the search, whatever the arithmetic: no candidate is below the value returned;
if a candidate is below `+∞` the value returned is the value of the candidate returned, which is
the first of the least ones; if none is, the search returns `(0, +∞)`. -/
theorem Rounded.findOptimalTruncationPoint_spec (rnd : ℚ → Dbl) (data : TimeSeriesData)
    (h2 : 2 ≤ data.length / 2) :
    (∀ k, k < data.length / 2 →
      (Rounded.calculateMSERValue rnd data k).lt (Rounded.findOptimalTruncationPoint rnd data).2
        = false) ∧
    ((∃ k, k < data.length / 2 ∧ (Rounded.calculateMSERValue rnd data k).lt Dbl.pinf = true) →
      (Rounded.findOptimalTruncationPoint rnd data).1 < data.length / 2 ∧
      (Rounded.findOptimalTruncationPoint rnd data).2
        = Rounded.calculateMSERValue rnd data (Rounded.findOptimalTruncationPoint rnd data).1 ∧
      (Rounded.findOptimalTruncationPoint rnd data).2.lt Dbl.pinf = true ∧
      ∀ k, k < (Rounded.findOptimalTruncationPoint rnd data).1 →
        (Rounded.calculateMSERValue rnd data k).le (Rounded.findOptimalTruncationPoint rnd data).2
          = false) ∧
    ((¬ ∃ k, k < data.length / 2 ∧ (Rounded.calculateMSERValue rnd data k).lt Dbl.pinf = true) →
      Rounded.findOptimalTruncationPoint rnd data = (0, Dbl.pinf)) := by
  obtain ⟨hA, hB⟩ := Rounded.search_invariant_rnd rnd data (data.length / 2)
  rw [← Rounded.findOptimalTruncationPoint_eq_foldl_rnd rnd data h2] at hA hB
  refine ⟨hA, ?_, ?_⟩
  · rintro ⟨k, hk, hfin⟩
    rcases hB with h0 | h
    · have := hA k hk
      rw [h0, hfin] at this
      exact Bool.noConfusion this
    · exact h
  · intro hnone
    rcases hB with h0 | ⟨h1, hval, hlt, _⟩
    · exact h0
    · exact absurd ⟨_, h1, by rw [← hval]; exact hlt⟩ hnone

/-! ## Results of the estimator in an arithmetic that rounds -/

theorem Rounded.length_createBatchMeans_rnd (rnd : ℚ → Dbl) (data : TimeSeriesData) (B : Nat) :
    (Rounded.createBatchMeans rnd data B).length = data.length / B := by
  unfold Rounded.createBatchMeans
  split
  · next h => simp [h]
  · simp

theorem Rounded.calculateMSER1_of_invalid_rnd (rnd : ℚ → Dbl) (data : TimeSeriesData)
    (h : validateData data 10 = false) :
    Rounded.calculateMSER1 rnd data =
      { MSERResult.init with
        variant := MSERVariant.MSER_1
        totalSamples := data.length
        converged := false
        reason := Reason.insufficientData } := by
  unfold Rounded.calculateMSER1
  simp [h]

theorem Rounded.calculateMSER1_of_valid_rnd (rnd : ℚ → Dbl) (data : TimeSeriesData)
    (h : validateData data 10 = true) :
    Rounded.calculateMSER1 rnd data =
      { truncationPoint := (Rounded.findOptimalTruncationPoint rnd data).1
        mserValue := (Rounded.findOptimalTruncationPoint rnd data).2
        converged := (Rounded.findOptimalTruncationPoint rnd data).2.lt Dbl.pinf
        reason := if (Rounded.findOptimalTruncationPoint rnd data).2.lt Dbl.pinf = true
          then Reason.ok else Reason.notConverged
        totalSamples := data.length
        batchCount := 0
        variant := MSERVariant.MSER_1 } := by
  unfold Rounded.calculateMSER1
  simp [h, MSERResult.init]

theorem Rounded.calculateMSERm_of_invalid_rnd (rnd : ℚ → Dbl) (data : TimeSeriesData) (B : Nat)
    (h : validateData data (B * 2 % sizeModulus) = false) :
    Rounded.calculateMSERm rnd data B =
      { MSERResult.init with
        variant := if B = 5 then MSERVariant.MSER_5 else MSERVariant.MSER_M
        totalSamples := data.length
        converged := false
        reason := Reason.insufficientBatchData } := by
  unfold Rounded.calculateMSERm
  simp [h]

theorem Rounded.calculateMSERm_of_few_batches_rnd (rnd : ℚ → Dbl) (data : TimeSeriesData) (B : Nat)
    (h : validateData data (B * 2 % sizeModulus) = true) (hfew : data.length / B < 10) :
    Rounded.calculateMSERm rnd data B =
      { MSERResult.init with
        variant := if B = 5 then MSERVariant.MSER_5 else MSERVariant.MSER_M
        totalSamples := data.length
        batchCount := data.length / B
        converged := false
        reason := Reason.insufficientBatches } := by
  unfold Rounded.calculateMSERm
  simp [h, hfew, Rounded.length_createBatchMeans_rnd]

theorem Rounded.calculateMSERm_of_valid_rnd (rnd : ℚ → Dbl) (data : TimeSeriesData) (B : Nat)
    (h : validateData data (B * 2 % sizeModulus) = true) (hmany : 10 ≤ data.length / B) :
    Rounded.calculateMSERm rnd data B =
      { truncationPoint :=
          (Rounded.findOptimalTruncationPoint rnd (Rounded.createBatchMeans rnd data B)).1
        mserValue :=
          (Rounded.findOptimalTruncationPoint rnd (Rounded.createBatchMeans rnd data B)).2
        converged :=
          (Rounded.findOptimalTruncationPoint rnd
            (Rounded.createBatchMeans rnd data B)).2.lt Dbl.pinf
        reason :=
          if (Rounded.findOptimalTruncationPoint rnd
            (Rounded.createBatchMeans rnd data B)).2.lt Dbl.pinf = true
          then Reason.ok else Reason.notConverged
        totalSamples := data.length
        batchCount := data.length / B
        variant := if B = 5 then MSERVariant.MSER_5 else MSERVariant.MSER_M } := by
  unfold Rounded.calculateMSERm
  simp [h, not_lt.mpr hmany, Rounded.length_createBatchMeans_rnd, MSERResult.init]

/-! ## Claims on the search and on the failure results -/

/-- The reasons of the results on finite samples, whatever the rounding `rnd` of the operations:
`calculateMSER1` reports insufficient-data exactly when `|data| < 10`; when `2 * B` does not
overflow, `calculateMSERm` reports insufficient-batch-data exactly when `|data| < 2 * B` and
insufficient-batches exactly when `|data| ≥ 2 * B` and `⌊|data|/B⌋ < 10`; the failure results
have `converged = false`, `mserValue = 0` and `truncationPoint = 0`; every other result has the
success reason when its `mserValue` is below `+∞` and the did-not-converge reason when not. -/
theorem Rounded.reasons_of_finite (rnd : ℚ → Dbl) (Y : List ℚ) (B : Nat) (hov : 2 * B < 2 ^ 64) :
    ((Rounded.calculateMSER1 rnd (finite Y)).reason = Reason.insufficientData
      ↔ Y.length < 10) ∧
    (Y.length < 10 →
      (Rounded.calculateMSER1 rnd (finite Y)).converged = false ∧
      (Rounded.calculateMSER1 rnd (finite Y)).mserValue = Dbl.fin 0 ∧
      (Rounded.calculateMSER1 rnd (finite Y)).truncationPoint = 0) ∧
    (10 ≤ Y.length →
      ((Rounded.calculateMSER1 rnd (finite Y)).reason = Reason.ok ∨
        (Rounded.calculateMSER1 rnd (finite Y)).reason = Reason.notConverged) ∧
      ((Rounded.calculateMSER1 rnd (finite Y)).reason = Reason.ok
        ↔ (Rounded.calculateMSER1 rnd (finite Y)).mserValue.lt Dbl.pinf = true)) ∧
    ((Rounded.calculateMSERm rnd (finite Y) B).reason = Reason.insufficientBatchData
      ↔ Y.length < 2 * B) ∧
    ((Rounded.calculateMSERm rnd (finite Y) B).reason = Reason.insufficientBatches
      ↔ 2 * B ≤ Y.length ∧ Y.length / B < 10) ∧
    (2 * B ≤ Y.length ∧ 10 ≤ Y.length / B →
      ((Rounded.calculateMSERm rnd (finite Y) B).reason = Reason.ok ∨
        (Rounded.calculateMSERm rnd (finite Y) B).reason = Reason.notConverged) ∧
      ((Rounded.calculateMSERm rnd (finite Y) B).reason = Reason.ok
        ↔ (Rounded.calculateMSERm rnd (finite Y) B).mserValue.lt Dbl.pinf = true)) ∧
    (Y.length < 2 * B ∨ Y.length / B < 10 →
      (Rounded.calculateMSERm rnd (finite Y) B).converged = false ∧
      (Rounded.calculateMSERm rnd (finite Y) B).mserValue = Dbl.fin 0 ∧
      (Rounded.calculateMSERm rnd (finite Y) B).truncationPoint = 0) := by
  have hmod : B * 2 % sizeModulus = 2 * B := by
    rw [Nat.mul_comm, Nat.mod_eq_of_lt (by simpa [sizeModulus] using hov)]
  have hl := length_finite Y
  have h1 : (Rounded.calculateMSER1 rnd (finite Y)).reason = Reason.insufficientData
      ↔ Y.length < 10 := by
    by_cases hn : Y.length < 10
    · rw [Rounded.calculateMSER1_of_invalid_rnd rnd _ (by rw [validateData_finite]; simpa using hn)]
      simp [hn]
    · rw [Rounded.calculateMSER1_of_valid_rnd rnd _ (by rw [validateData_finite]; simpa using hn)]
      constructor
      · intro h
        simp only at h
        split at h <;> exact absurd h (by decide)
      · intro h; exact absurd h hn
  have h1f : Y.length < 10 →
      (Rounded.calculateMSER1 rnd (finite Y)).converged = false ∧
      (Rounded.calculateMSER1 rnd (finite Y)).mserValue = Dbl.fin 0 ∧
      (Rounded.calculateMSER1 rnd (finite Y)).truncationPoint = 0 := by
    intro hn
    rw [Rounded.calculateMSER1_of_invalid_rnd rnd _ (by rw [validateData_finite]; simpa using hn)]
    exact ⟨rfl, rfl, rfl⟩
  have h1s : 10 ≤ Y.length →
      ((Rounded.calculateMSER1 rnd (finite Y)).reason = Reason.ok ∨
        (Rounded.calculateMSER1 rnd (finite Y)).reason = Reason.notConverged) ∧
      ((Rounded.calculateMSER1 rnd (finite Y)).reason = Reason.ok
        ↔ (Rounded.calculateMSER1 rnd (finite Y)).mserValue.lt Dbl.pinf = true) := by
    intro hn
    rw [Rounded.calculateMSER1_of_valid_rnd rnd _ (by rw [validateData_finite]; simpa using hn)]
    simp only
    cases (Rounded.findOptimalTruncationPoint rnd (finite Y)).2.lt Dbl.pinf <;> simp
  rcases Nat.lt_or_ge Y.length (2 * B) with hshort | hlong
  · have hres := Rounded.calculateMSERm_of_invalid_rnd rnd (finite Y) B
      (by rw [validateData_finite, hmod]; simpa using hshort)
    refine ⟨h1, h1f, h1s, ?_, ?_, ?_, ?_⟩
    · rw [hres]; simp [hshort]
    · rw [hres]
      constructor
      · intro h; exact Reason.noConfusion h
      · intro h; omega
    · intro h; omega
    · intro _; rw [hres]; exact ⟨rfl, rfl, rfl⟩
  · have hvalid : validateData (finite Y) (B * 2 % sizeModulus) = true := by
      rw [validateData_finite, hmod]; simpa using hlong
    rcases Nat.lt_or_ge (Y.length / B) 10 with hfew | hmany
    · have hres := Rounded.calculateMSERm_of_few_batches_rnd rnd (finite Y) B hvalid
        (by rw [hl]; exact hfew)
      refine ⟨h1, h1f, h1s, ?_, ?_, ?_, ?_⟩
      · rw [hres]
        constructor
        · intro h; exact Reason.noConfusion h
        · intro h; omega
      · rw [hres]; simp [hlong, hfew]
      · intro h; omega
      · intro _; rw [hres]; exact ⟨rfl, rfl, rfl⟩
    · have hres := Rounded.calculateMSERm_of_valid_rnd rnd (finite Y) B hvalid
        (by rw [hl]; exact hmany)
      refine ⟨h1, h1f, h1s, ?_, ?_, ?_, ?_⟩
      · rw [hres]
        constructor
        · intro h
          simp only at h
          split at h <;> exact absurd h (by decide)
        · intro h; omega
      · rw [hres]
        constructor
        · intro h
          simp only at h
          split at h <;> exact absurd h (by decide)
        · intro h; omega
      · intro _
        rw [hres]
        simp only
        cases (Rounded.findOptimalTruncationPoint rnd
          (Rounded.createBatchMeans rnd (finite Y) B)).2.lt Dbl.pinf <;> simp
      · intro h; omega

/-! ## Signs in binary64 -/

theorem Dbl.round64_ne_nan (q : ℚ) : Dbl.round64 q ≠ Dbl.nan := by
  unfold Dbl.round64
  split
  · exact fun h => Dbl.noConfusion h
  · split
    · unfold Dbl.signedInf
      split <;> exact fun h => Dbl.noConfusion h
    · exact fun h => Dbl.noConfusion h

theorem Dbl.zero_le_iff (x : Dbl) :
    (Dbl.fin 0).le x = true ↔ x = Dbl.pinf ∨ ∃ r : ℚ, 0 ≤ r ∧ x = Dbl.fin r := by
  cases x with
  | fin q => simp [Dbl.le]
  | pinf => simp [Dbl.le]
  | ninf => simp [Dbl.le]
  | nan => simp [Dbl.le]

theorem Dbl.zero_le_round64 (q : ℚ) (h : 0 ≤ q) : (Dbl.fin 0).le (Dbl.round64 q) = true :=
  (Dbl.zero_le_iff _).mpr (Dbl.round64_nonneg q h)

theorem Dbl.zero_le_rounded (x : Dbl) (h : (Dbl.fin 0).le x = true) :
    (Dbl.fin 0).le (x.rounded Dbl.round64) = true := by
  rcases (Dbl.zero_le_iff x).mp h with rfl | ⟨r, hr, rfl⟩
  · rfl
  · exact Dbl.zero_le_round64 r hr

theorem Dbl.zero_le_add (a b : Dbl) (ha : (Dbl.fin 0).le a = true)
    (hb : (Dbl.fin 0).le b = true) : (Dbl.fin 0).le (a.add b) = true := by
  rcases (Dbl.zero_le_iff a).mp ha with rfl | ⟨r, hr, rfl⟩ <;>
    rcases (Dbl.zero_le_iff b).mp hb with rfl | ⟨s, hs, rfl⟩
  · rfl
  · rfl
  · rfl
  · simpa [Dbl.add, Dbl.le] using add_nonneg hr hs

theorem Dbl.zero_le_mul_self (x : Dbl) (h : x ≠ Dbl.nan) : (Dbl.fin 0).le (x.mul x) = true := by
  cases x with
  | fin q => simpa [Dbl.mul, Dbl.le] using mul_self_nonneg q
  | pinf => rfl
  | ninf => rfl
  | nan => exact absurd rfl h

theorem Dbl.zero_le_div (a : Dbl) (r : ℚ) (ha : (Dbl.fin 0).le a = true) (hr : 0 < r) :
    (Dbl.fin 0).le (a.div (Dbl.fin r)) = true := by
  rcases (Dbl.zero_le_iff a).mp ha with rfl | ⟨s, hs, rfl⟩
  · simp [Dbl.div, Dbl.signedInf, hr.le, Dbl.le]
  · rw [Dbl.div_fin _ _ hr.ne']
    simpa [Dbl.le] using div_nonneg hs hr.le

theorem Dbl.rounded_ne_nan (x : Dbl) (h : x ≠ Dbl.nan) : x.rounded Dbl.round64 ≠ Dbl.nan := by
  cases x with
  | fin q => exact Dbl.round64_ne_nan q
  | pinf => exact fun h => Dbl.noConfusion h
  | ninf => exact fun h => Dbl.noConfusion h
  | nan => exact absurd rfl h

theorem Dbl.add_fin_ne_nan (a : Dbl) (q : ℚ) (h : a ≠ Dbl.nan) : a.add (Dbl.fin q) ≠ Dbl.nan := by
  cases a with
  | fin p => exact fun h => Dbl.noConfusion h
  | pinf => exact fun h => Dbl.noConfusion h
  | ninf => exact fun h => Dbl.noConfusion h
  | nan => exact absurd rfl h

theorem Dbl.fin_sub_ne_nan (q : ℚ) (a : Dbl) (h : a ≠ Dbl.nan) : (Dbl.fin q).sub a ≠ Dbl.nan := by
  cases a with
  | fin p => exact fun h => Dbl.noConfusion h
  | pinf => exact fun h => Dbl.noConfusion h
  | ninf => exact fun h => Dbl.noConfusion h
  | nan => exact absurd rfl h

theorem Dbl.div_fin_ne_nan (a : Dbl) (r : ℚ) (h : a ≠ Dbl.nan) (hr : 0 < r) :
    a.div (Dbl.fin r) ≠ Dbl.nan := by
  cases a with
  | fin p => rw [Dbl.div_fin _ _ hr.ne']; exact fun h => Dbl.noConfusion h
  | pinf => simp [Dbl.div, Dbl.signedInf, hr.le]
  | ninf => simp [Dbl.div, Dbl.signedInf, not_lt.mpr hr.le]
  | nan => exact absurd rfl h

theorem Dbl.nan_add (b : Dbl) : Dbl.nan.add b = Dbl.nan := by
  cases b <;> rfl

theorem Dbl.add_nan (a : Dbl) : a.add Dbl.nan = Dbl.nan := by
  cases a <;> rfl

theorem Dbl.nan_sub (b : Dbl) : Dbl.nan.sub b = Dbl.nan := by
  cases b <;> rfl

theorem Dbl.nan_mul (b : Dbl) : Dbl.nan.mul b = Dbl.nan := by
  cases b <;> rfl

theorem Dbl.nan_div (b : Dbl) : Dbl.nan.div b = Dbl.nan := by
  cases b <;> rfl

/-! ## The square root -/

theorem Dbl.rootApprox_nonneg (q : ℚ) : 0 ≤ Dbl.rootApprox q := by
  unfold Dbl.rootApprox
  positivity

theorem Dbl.sqrt_fin (rnd : ℚ → Dbl) (q : ℚ) (h : 0 ≤ q) :
    Dbl.sqrt rnd (Dbl.fin q) = rnd (Dbl.rootApprox q) := by
  simp [Dbl.sqrt, not_lt.mpr h]

/-- The value `rootApprox q` is the square root of `q ≥ 0` cut after 2800 binary digits: its
square is at most `q`, and the square of the next number with 2800 binary digits is above `q`. -/
theorem Dbl.rootApprox_spec (q : ℚ) (h : 0 ≤ q) :
    Dbl.rootApprox q * Dbl.rootApprox q ≤ q ∧
    q < (Dbl.rootApprox q + 1 / 2 ^ 2800) * (Dbl.rootApprox q + 1 / 2 ^ 2800) := by
  have hden : (0 : ℚ) < q.den := by exact_mod_cast q.den_pos
  have hnum : ((q.num.toNat : ℕ) : ℚ) = q.num := by
    have : (q.num.toNat : ℤ) = q.num := Int.toNat_of_nonneg (Rat.num_nonneg.mpr h)
    exact_mod_cast this
  have hq : q = (q.num.toNat : ℚ) / q.den := by
    rw [hnum]
    exact (Rat.num_div_den q).symm
  set N : ℕ := q.num.toNat * q.den * 4 ^ 2800 with hN
  have hN' : (N : ℚ) = q * ((q.den : ℚ) * 2 ^ 2800) * ((q.den : ℚ) * 2 ^ 2800) := by
    rw [hN]
    simp only [Nat.cast_mul, Nat.cast_pow, Nat.cast_ofNat]
    nth_rewrite 3 [hq]
    have h4 : (4 : ℚ) ^ 2800 = 2 ^ 2800 * 2 ^ 2800 := by
      rw [← mul_pow]
      norm_num
    rw [h4]
    field_simp
    ring
  have hD : (0 : ℚ) < (q.den : ℚ) * 2 ^ 2800 := by positivity
  have h1 : ((Nat.sqrt N : ℕ) : ℚ) * (Nat.sqrt N : ℕ) ≤ (N : ℚ) := by
    have := Nat.sqrt_le N
    exact_mod_cast this
  have h2 : (N : ℚ) < ((Nat.sqrt N : ℕ) + 1 : ℚ) * ((Nat.sqrt N : ℕ) + 1) := by
    have := Nat.lt_succ_sqrt N
    exact_mod_cast this
  have hroot : Dbl.rootApprox q = (Nat.sqrt N : ℚ) / ((q.den : ℚ) * 2 ^ 2800) := rfl
  constructor
  · rw [hroot, div_mul_div_comm, div_le_iff₀ (mul_pos hD hD)]
    calc ((Nat.sqrt N : ℕ) : ℚ) * (Nat.sqrt N : ℕ) ≤ (N : ℚ) := h1
      _ = q * ((q.den : ℚ) * 2 ^ 2800 * ((q.den : ℚ) * 2 ^ 2800)) := by rw [hN']; ring
  · have hstep : Dbl.rootApprox q + 1 / ((q.den : ℚ) * 2 ^ 2800)
        ≤ Dbl.rootApprox q + 1 / 2 ^ 2800 := by
      have hone : (1 : ℚ) ≤ q.den := by exact_mod_cast q.den_pos
      have : (1 : ℚ) / ((q.den : ℚ) * 2 ^ 2800) ≤ 1 / 2 ^ 2800 := by
        apply one_div_le_one_div_of_le (by positivity)
        nlinarith [show (0 : ℚ) < 2 ^ 2800 by positivity]
      linarith
    have hnext : q < (Dbl.rootApprox q + 1 / ((q.den : ℚ) * 2 ^ 2800))
        * (Dbl.rootApprox q + 1 / ((q.den : ℚ) * 2 ^ 2800)) := by
      rw [hroot, ← add_div, div_mul_div_comm, lt_div_iff₀ (mul_pos hD hD)]
      calc q * ((q.den : ℚ) * 2 ^ 2800 * ((q.den : ℚ) * 2 ^ 2800)) = (N : ℚ) := by
            rw [hN']; ring
        _ < ((Nat.sqrt N : ℕ) + 1 : ℚ) * ((Nat.sqrt N : ℕ) + 1) := h2
    have hpos : 0 ≤ Dbl.rootApprox q + 1 / ((q.den : ℚ) * 2 ^ 2800) :=
      add_nonneg (Dbl.rootApprox_nonneg q) (by positivity)
    exact lt_of_lt_of_le hnext (mul_le_mul hstep hstep hpos (hpos.trans hstep))

theorem Dbl.zero_le_sqrt (x : Dbl) (h : (Dbl.fin 0).le x = true) :
    (Dbl.fin 0).le (Dbl.sqrt Dbl.round64 x) = true := by
  rcases (Dbl.zero_le_iff x).mp h with rfl | ⟨r, hr, rfl⟩
  · rfl
  · rw [Dbl.sqrt_fin _ r hr]
    exact Dbl.zero_le_round64 _ (Dbl.rootApprox_nonneg r)

/-! ## `calculateStatistics` -/

theorem Rounded.sumRange_eq (rnd : ℚ → Dbl) (data : TimeSeriesData) (s e : Nat)
    (h : e ≤ data.length) :
    Rounded.sumRange rnd data s e = roundedSum rnd (segment data s e) := by
  unfold Rounded.sumRange roundedSum segment
  rcases Nat.lt_or_ge s e with hse | hse
  · exact loop_eq_foldl (fun sum x => (sum.add x).rounded rnd) data (e - s) s Dbl.zero (by omega)
  · simp [Nat.sub_eq_zero_of_le hse]

theorem Rounded.sumSquaredDeviations_eq (rnd : ℚ → Dbl) (data : TimeSeriesData) (mean : Dbl)
    (s e : Nat) (h : e ≤ data.length) :
    Rounded.sumSquaredDeviations rnd data mean s e
      = roundedSumOfSquares rnd (segment data s e) mean := by
  unfold Rounded.sumSquaredDeviations roundedSumOfSquares segment
  rcases Nat.lt_or_ge s e with hse | hse
  · exact loop_eq_foldl (fun sum x =>
      (sum.add ((((x.sub mean).rounded rnd).mul ((x.sub mean).rounded rnd)).rounded rnd)).rounded
        rnd) data (e - s) s Dbl.zero (by omega)
  · simp [Nat.sub_eq_zero_of_le hse]

theorem Rounded.calculateMean_eq (rnd : ℚ → Dbl) (data : TimeSeriesData) (s e : Nat)
    (hse : s < e) (h : e ≤ data.length) :
    Rounded.calculateMean rnd data s e
      = ((roundedSum rnd (segment data s e)).div (rnd ((e - s : Nat) : ℚ))).rounded rnd := by
  unfold Rounded.calculateMean
  rw [if_neg (by omega), Rounded.sumRange_eq rnd data s e h]

theorem Rounded.calculateStatistics_of_invalid (rnd : ℚ → Dbl) (data : TimeSeriesData)
    (a b : Nat) (h : b ≤ a ∨ data.length < b) :
    Rounded.calculateStatistics rnd data a b = Statistics.init := by
  unfold Rounded.calculateStatistics
  rw [if_pos h]

theorem Rounded.calculateStatistics_single (rnd : ℚ → Dbl) (data : TimeSeriesData) (a b : Nat)
    (hab : a < b) (hb : b ≤ data.length) (hone : b - a = 1) :
    Rounded.calculateStatistics rnd data a b =
      { mean := ((roundedSum rnd (segment data a b)).div (rnd ((b - a : Nat) : ℚ))).rounded rnd
        variance := Dbl.fin 0
        standardError := Dbl.fin 0
        sampleCount := b - a } := by
  unfold Rounded.calculateStatistics
  rw [if_neg (by omega)]
  simp only [Rounded.calculateMean_eq rnd data a b hab hb, hone, gt_iff_lt, lt_irrefl, if_false,
    Statistics.init]

theorem Rounded.calculateStatistics_many (rnd : ℚ → Dbl) (data : TimeSeriesData) (a b : Nat)
    (hb : b ≤ data.length) (hmany : 1 < b - a) :
    Rounded.calculateStatistics rnd data a b =
      { mean := ((roundedSum rnd (segment data a b)).div (rnd ((b - a : Nat) : ℚ))).rounded rnd
        variance :=
          ((roundedSumOfSquares rnd (segment data a b)
              (((roundedSum rnd (segment data a b)).div (rnd ((b - a : Nat) : ℚ))).rounded
                rnd)).div (rnd ((b - a - 1 : Nat) : ℚ))).rounded rnd
        standardError :=
          Dbl.sqrt rnd
            (((((roundedSumOfSquares rnd (segment data a b)
              (((roundedSum rnd (segment data a b)).div (rnd ((b - a : Nat) : ℚ))).rounded
                rnd)).div (rnd ((b - a - 1 : Nat) : ℚ))).rounded rnd).div
                  (rnd ((b - a : Nat) : ℚ))).rounded rnd)
        sampleCount := b - a } := by
  unfold Rounded.calculateStatistics
  rw [if_neg (by omega)]
  simp only [Rounded.calculateMean_eq rnd data a b (by omega) hb,
    Rounded.sumSquaredDeviations_eq rnd data _ a b hb, gt_iff_lt, hmany, if_true,
    Statistics.init]

theorem roundedSum_ne_nan (l : List Dbl) (h : ∀ x ∈ l, x.isfinite = true) :
    roundedSum Dbl.round64 l ≠ Dbl.nan := by
  have hgen : ∀ (l : List Dbl) (acc : Dbl), (∀ x ∈ l, x.isfinite = true) → acc ≠ Dbl.nan →
      l.foldl (fun sum x => (sum.add x).rounded Dbl.round64) acc ≠ Dbl.nan := by
    intro l
    induction l with
    | nil => intro acc _ hacc; exact hacc
    | cons x xs ih =>
      intro acc hfin hacc
      rw [List.foldl_cons]
      apply ih _ (fun y hy => hfin y (List.mem_cons_of_mem _ hy))
      have hx := hfin x (List.mem_cons_self _ _)
      cases x with
      | fin q => exact Dbl.rounded_ne_nan _ (Dbl.add_fin_ne_nan acc q hacc)
      | pinf => exact Bool.noConfusion hx
      | ninf => exact Bool.noConfusion hx
      | nan => exact Bool.noConfusion hx
  exact hgen l Dbl.zero h (fun h => Dbl.noConfusion h)

theorem roundedSumOfSquares_nonneg (l : List Dbl) (mean : Dbl)
    (h : ∀ x ∈ l, x.isfinite = true) (hmean : mean ≠ Dbl.nan) :
    (Dbl.fin 0).le (roundedSumOfSquares Dbl.round64 l mean) = true := by
  have hgen : ∀ (l : List Dbl) (acc : Dbl), (∀ x ∈ l, x.isfinite = true) →
      (Dbl.fin 0).le acc = true →
      (Dbl.fin 0).le (l.foldl (fun sum x =>
        (sum.add ((((x.sub mean).rounded Dbl.round64).mul
          ((x.sub mean).rounded Dbl.round64)).rounded Dbl.round64)).rounded Dbl.round64) acc)
        = true := by
    intro l
    induction l with
    | nil => intro acc _ hacc; exact hacc
    | cons x xs ih =>
      intro acc hfin hacc
      rw [List.foldl_cons]
      apply ih _ (fun y hy => hfin y (List.mem_cons_of_mem _ hy))
      have hx := hfin x (List.mem_cons_self _ _)
      cases x with
      | fin q =>
        apply Dbl.zero_le_rounded
        apply Dbl.zero_le_add _ _ hacc
        apply Dbl.zero_le_rounded
        exact Dbl.zero_le_mul_self _ (Dbl.rounded_ne_nan _ (Dbl.fin_sub_ne_nan q mean hmean))
      | pinf => exact Bool.noConfusion hx
      | ninf => exact Bool.noConfusion hx
      | nan => exact Bool.noConfusion hx
  exact hgen l Dbl.zero h (by simp [Dbl.zero, Dbl.le])

/-- C19, as stated, at the series of two NaN and the range `[0, 2)`: the standard error is NaN,
and NaN is not non-negative. -/
theorem C19_series_of_nan :
    ¬ (Dbl.fin 0).le
        (Rounded.calculateStatistics Dbl.round64 [Dbl.nan, Dbl.nan] 0 2).standardError = true := by
  rw [Rounded.calculateStatistics_many _ _ 0 2 (by decide) (by decide)]
  simp [roundedSum, roundedSumOfSquares, segment, Dbl.nan_add, Dbl.nan_div, Dbl.rounded,
    Dbl.nan_sub, Dbl.nan_mul, Dbl.add_nan, Dbl.sqrt, Dbl.le]

/-- C19 as amended: for every series, in binary64, and indices `a < b ≤ |data|` with `n = b - a`,
`calculateStatistics(data, a, b)` returns `sampleCount = n`, as mean the quotient of the sum of
`data[a..b)` by `n`, as variance the quotient of the sum of the squares of the deviations
`data[i] - mean` by `n - 1` when `n > 1` and 0 when `n = 1`, every operation of these sums and
quotients rounded, and as standard error the rounded square root of the rounded quotient
`variance / n` when `n > 1` and 0 when `n = 1`.  When the samples of `data[a..b)` are finite (and
`b` is a `size_t`), the variance and the standard error are non-negative: each is a finite value
`≥ 0` or `+∞`.  The root that is rounded has a square that differs from `variance / n` by the
effect of cutting the root after 2800 binary digits only.  For every range with `a ≥ b` or
`b > |data|` the function returns all-zero statistics with `sampleCount = 0`. -/
theorem C19_rounded_statistics (data : TimeSeriesData) (a b : Nat) (hab : a < b)
    (hb : b ≤ data.length) :
    (Rounded.calculateStatistics Dbl.round64 data a b).sampleCount = b - a ∧
    (Rounded.calculateStatistics Dbl.round64 data a b).mean
      = ((roundedSum Dbl.round64 (segment data a b)).div
          (Dbl.round64 ((b - a : Nat) : ℚ))).rounded Dbl.round64 ∧
    (1 < b - a →
      (Rounded.calculateStatistics Dbl.round64 data a b).variance
        = ((roundedSumOfSquares Dbl.round64 (segment data a b)
              (Rounded.calculateStatistics Dbl.round64 data a b).mean).div
            (Dbl.round64 ((b - a - 1 : Nat) : ℚ))).rounded Dbl.round64 ∧
      (Rounded.calculateStatistics Dbl.round64 data a b).standardError
        = Dbl.sqrt Dbl.round64
            (((Rounded.calculateStatistics Dbl.round64 data a b).variance.div
              (Dbl.round64 ((b - a : Nat) : ℚ))).rounded Dbl.round64)) ∧
    (b - a = 1 →
      (Rounded.calculateStatistics Dbl.round64 data a b).variance = Dbl.fin 0 ∧
      (Rounded.calculateStatistics Dbl.round64 data a b).standardError = Dbl.fin 0) ∧
    ((∀ x ∈ segment data a b, x.isfinite = true) → b < 2 ^ 64 →
      (Rounded.calculateStatistics Dbl.round64 data a b).mean ≠ Dbl.nan ∧
      (Dbl.fin 0).le (Rounded.calculateStatistics Dbl.round64 data a b).variance = true ∧
      (Dbl.fin 0).le (Rounded.calculateStatistics Dbl.round64 data a b).standardError = true) ∧
    (∀ q : ℚ, 0 ≤ q →
      Dbl.sqrt Dbl.round64 (Dbl.fin q) = Dbl.round64 (Dbl.rootApprox q) ∧
      0 ≤ Dbl.rootApprox q ∧
      Dbl.rootApprox q * Dbl.rootApprox q ≤ q ∧
      q < (Dbl.rootApprox q + 1 / 2 ^ 2800) * (Dbl.rootApprox q + 1 / 2 ^ 2800)) ∧
    (∀ a0 b0, b0 ≤ a0 ∨ data.length < b0 →
      Rounded.calculateStatistics Dbl.round64 data a0 b0
        = ⟨Dbl.fin 0, Dbl.fin 0, Dbl.fin 0, 0⟩) := by
  have hroot : ∀ q : ℚ, 0 ≤ q →
      Dbl.sqrt Dbl.round64 (Dbl.fin q) = Dbl.round64 (Dbl.rootApprox q) ∧
      0 ≤ Dbl.rootApprox q ∧
      Dbl.rootApprox q * Dbl.rootApprox q ≤ q ∧
      q < (Dbl.rootApprox q + 1 / 2 ^ 2800) * (Dbl.rootApprox q + 1 / 2 ^ 2800) :=
    fun q hq => ⟨Dbl.sqrt_fin _ q hq, Dbl.rootApprox_nonneg q, Dbl.rootApprox_spec q hq⟩
  have hinvalid : ∀ a0 b0, b0 ≤ a0 ∨ data.length < b0 →
      Rounded.calculateStatistics Dbl.round64 data a0 b0
        = ⟨Dbl.fin 0, Dbl.fin 0, Dbl.fin 0, 0⟩ :=
    fun a0 b0 h => Rounded.calculateStatistics_of_invalid _ data a0 b0 h
  have hmean : (∀ x ∈ segment data a b, x.isfinite = true) → b < 2 ^ 64 →
      ((roundedSum Dbl.round64 (segment data a b)).div
        (Dbl.round64 ((b - a : Nat) : ℚ))).rounded Dbl.round64 ≠ Dbl.nan := by
    intro hfin hsize
    obtain ⟨r, hr, hn⟩ := Dbl.round64_natCast (b - a) (by omega) (by omega)
    rw [hn]
    exact Dbl.rounded_ne_nan _
      (Dbl.div_fin_ne_nan _ r (roundedSum_ne_nan _ hfin) (by linarith))
  rcases Nat.lt_or_ge 1 (b - a) with hmany | hone
  · rw [Rounded.calculateStatistics_many _ data a b hb hmany]
    refine ⟨rfl, rfl, fun _ => ⟨rfl, rfl⟩, fun h => absurd h (by omega), ?_, hroot, hinvalid⟩
    intro hfin hsize
    have hm := hmean hfin hsize
    obtain ⟨r, hr, hn⟩ := Dbl.round64_natCast (b - a) (by omega) (by omega)
    obtain ⟨r1, hr1, hn1⟩ := Dbl.round64_natCast (b - a - 1) (by omega) (by omega)
    have hvar : (Dbl.fin 0).le
        (((roundedSumOfSquares Dbl.round64 (segment data a b)
          (((roundedSum Dbl.round64 (segment data a b)).div
            (Dbl.round64 ((b - a : Nat) : ℚ))).rounded Dbl.round64)).div
              (Dbl.round64 ((b - a - 1 : Nat) : ℚ))).rounded Dbl.round64) = true := by
      rw [hn1]
      exact Dbl.zero_le_rounded _
        (Dbl.zero_le_div _ r1 (roundedSumOfSquares_nonneg _ _ hfin hm) (by linarith))
    refine ⟨hm, hvar, ?_⟩
    apply Dbl.zero_le_sqrt
    apply Dbl.zero_le_rounded
    have hquot := Dbl.zero_le_div _ r hvar (by linarith)
    rw [← hn] at hquot
    exact hquot
  · have h1 : b - a = 1 := by omega
    rw [Rounded.calculateStatistics_single _ data a b hab hb h1]
    refine ⟨rfl, rfl, fun h => absurd h (by omega), fun _ => ⟨rfl, rfl⟩, ?_, hroot, hinvalid⟩
    intro hfin hsize
    exact ⟨hmean hfin hsize, by simp [Dbl.le], by simp [Dbl.le]⟩

/-- C19 as amended, at the series `0, 3, 6` and the range `[0, 3)`. -/
theorem C19_rounded_statistics_witness :
    (0 < 3 ∧ 3 ≤ (finite [0, 3, 6]).length) ∧
    ((∀ x ∈ segment (finite [0, 3, 6]) 0 3, x.isfinite = true) ∧ 3 < 2 ^ 64) ∧
    (Rounded.calculateStatistics Dbl.round64 (finite [0, 3, 6]) 0 3).sampleCount = 3 - 0 ∧
    (Rounded.calculateStatistics Dbl.round64 (finite [0, 3, 6]) 0 3).standardError
      = Dbl.sqrt Dbl.round64
          (((Rounded.calculateStatistics Dbl.round64 (finite [0, 3, 6]) 0 3).variance.div
            (Dbl.round64 ((3 - 0 : Nat) : ℚ))).rounded Dbl.round64) ∧
    (Dbl.fin 0).le (Rounded.calculateStatistics Dbl.round64 (finite [0, 3, 6]) 0 3).variance
      = true ∧
    (Dbl.fin 0).le (Rounded.calculateStatistics Dbl.round64 (finite [0, 3, 6]) 0 3).standardError
      = true :=
  have h := C19_rounded_statistics (finite [0, 3, 6]) 0 3 (by decide) (by decide)
  have hfin : ∀ x ∈ segment (finite [0, 3, 6]) 0 3, x.isfinite = true := by decide
  ⟨⟨by decide, by decide⟩, ⟨hfin, by decide⟩, h.1, (h.2.2.1 (by decide)).2,
    (h.2.2.2.2.1 hfin (by decide)).2.1, (h.2.2.2.2.1 hfin (by decide)).2.2⟩

/-! ## The value of a candidate in binary64 -/

/-- A candidate `k < ⌊n/2⌋` of the search passes the guard of `calculateMSERValue`. -/
theorem Rounded.calculateMSERValue_of_scanned_rnd (rnd : ℚ → Dbl) (data : TimeSeriesData) (k : Nat)
    (hk : k < data.length / 2) :
    ¬ (k ≥ data.length ∨ data.length - k < 2) ∧
    Rounded.calculateMSERValue rnd data k
      = ((roundedSumOfSquares rnd (segment data k data.length)
            (((roundedSum rnd (segment data k data.length)).div
              (rnd ((data.length - k : Nat) : ℚ))).rounded rnd)).div
          (rnd (((data.length - k) * (data.length - k) % sizeModulus : Nat) : ℚ))).rounded
            rnd := by
  have hguard : ¬ (k ≥ data.length ∨ data.length - k < 2) := by omega
  refine ⟨hguard, ?_⟩
  unfold Rounded.calculateMSERValue
  simp only
  rw [if_neg hguard, Rounded.calculateMean_eq rnd data k data.length (by omega) le_rfl,
    Rounded.sumSquaredDeviations_eq rnd data _ k data.length le_rfl]

theorem Dbl.nonneg_or_nan_rounded (x : Dbl) (h : x = Dbl.nan ∨ (Dbl.fin 0).le x = true) :
    x.rounded Dbl.round64 = Dbl.nan ∨ (Dbl.fin 0).le (x.rounded Dbl.round64) = true := by
  rcases h with rfl | h
  · exact Or.inl rfl
  · exact Or.inr (Dbl.zero_le_rounded x h)

theorem Dbl.nonneg_or_nan_add (a b : Dbl) (ha : a = Dbl.nan ∨ (Dbl.fin 0).le a = true)
    (hb : b = Dbl.nan ∨ (Dbl.fin 0).le b = true) :
    a.add b = Dbl.nan ∨ (Dbl.fin 0).le (a.add b) = true := by
  rcases ha with rfl | ha
  · exact Or.inl (Dbl.nan_add b)
  · rcases hb with rfl | hb
    · exact Or.inl (Dbl.add_nan a)
    · exact Or.inr (Dbl.zero_le_add a b ha hb)

theorem Dbl.nonneg_or_nan_mul_self (x : Dbl) :
    x.mul x = Dbl.nan ∨ (Dbl.fin 0).le (x.mul x) = true := by
  by_cases h : x = Dbl.nan
  · subst h
    exact Or.inl rfl
  · exact Or.inr (Dbl.zero_le_mul_self x h)

theorem Dbl.nonneg_or_nan_div (a d : Dbl) (ha : a = Dbl.nan ∨ (Dbl.fin 0).le a = true)
    (hd : (Dbl.fin 0).le d = true) :
    a.div d = Dbl.nan ∨ (Dbl.fin 0).le (a.div d) = true := by
  rcases ha with rfl | ha
  · exact Or.inl (Dbl.nan_div d)
  · rcases (Dbl.zero_le_iff a).mp ha with rfl | ⟨s, hs, rfl⟩ <;>
      rcases (Dbl.zero_le_iff d).mp hd with rfl | ⟨r, hr, rfl⟩
    · exact Or.inl rfl
    · right
      simp [Dbl.div, Dbl.signedInf, hr, Dbl.le]
    · right
      simp [Dbl.div, Dbl.le]
    · rcases hr.eq_or_lt with h0 | hpos
      · subst h0
        rcases hs.eq_or_lt with hs0 | hspos
        · subst hs0
          left
          simp [Dbl.div]
        · right
          simp [Dbl.div, hspos.ne', hspos, Dbl.signedInf, Dbl.le]
      · exact Or.inr (Dbl.zero_le_div _ r ha hpos)

theorem roundedSumOfSquares_nonneg_or_nan (l : List Dbl) (mean : Dbl) :
    roundedSumOfSquares Dbl.round64 l mean = Dbl.nan ∨
      (Dbl.fin 0).le (roundedSumOfSquares Dbl.round64 l mean) = true := by
  have hgen : ∀ (l : List Dbl) (acc : Dbl), (acc = Dbl.nan ∨ (Dbl.fin 0).le acc = true) →
      (l.foldl (fun sum x =>
        (sum.add ((((x.sub mean).rounded Dbl.round64).mul
          ((x.sub mean).rounded Dbl.round64)).rounded Dbl.round64)).rounded Dbl.round64) acc
            = Dbl.nan ∨
      (Dbl.fin 0).le (l.foldl (fun sum x =>
        (sum.add ((((x.sub mean).rounded Dbl.round64).mul
          ((x.sub mean).rounded Dbl.round64)).rounded Dbl.round64)).rounded Dbl.round64) acc)
        = true) := by
    intro l
    induction l with
    | nil => intro acc hacc; exact hacc
    | cons x xs ih =>
      intro acc hacc
      rw [List.foldl_cons]
      apply ih
      exact Dbl.nonneg_or_nan_rounded _
        (Dbl.nonneg_or_nan_add _ _ hacc
          (Dbl.nonneg_or_nan_rounded _ (Dbl.nonneg_or_nan_mul_self _)))
  exact hgen l Dbl.zero (Or.inr (by simp [Dbl.zero, Dbl.le]))

/-- In binary64 the value of a candidate is NaN, `+∞` or a finite value `≥ 0`, whatever the
series. -/
theorem Rounded.calculateMSERValue_nonneg_or_nan (data : TimeSeriesData) (k : Nat) :
    Rounded.calculateMSERValue Dbl.round64 data k = Dbl.nan ∨
      (Dbl.fin 0).le (Rounded.calculateMSERValue Dbl.round64 data k) = true := by
  by_cases hguard : k ≥ data.length ∨ data.length - k < 2
  · right
    unfold Rounded.calculateMSERValue
    simp only
    rw [if_pos hguard]
    rfl
  · unfold Rounded.calculateMSERValue
    simp only
    rw [if_neg hguard, Rounded.sumSquaredDeviations_eq Dbl.round64 data _ k data.length le_rfl]
    exact Dbl.nonneg_or_nan_rounded _
      (Dbl.nonneg_or_nan_div _ _ (roundedSumOfSquares_nonneg_or_nan _ _)
        (Dbl.zero_le_round64 _ (Nat.cast_nonneg _)))

/-- A value below `+∞` that is NaN, `+∞` or `≥ 0` is a finite value `≥ 0`. -/
theorem Dbl.fin_of_lt_pinf (x : Dbl) (h : x = Dbl.nan ∨ (Dbl.fin 0).le x = true)
    (hlt : x.lt Dbl.pinf = true) : ∃ q : ℚ, 0 ≤ q ∧ x = Dbl.fin q := by
  rcases h with rfl | h
  · exact Bool.noConfusion hlt
  · rcases (Dbl.zero_le_iff x).mp h with rfl | h
    · exact Bool.noConfusion hlt
    · exact h

/-! ## Overflow -/

theorem Dbl.two_zpow_lt (m : ℤ) (h : m < 1024) : (2 : ℚ) ^ m < 2 ^ 1024 := by
  have h1 : (2 : ℚ) ^ m < 2 ^ (1024 : ℤ) := zpow_lt_zpow_right₀ (by norm_num) h
  have h2 : (2 : ℚ) ^ (1024 : ℤ) = 2 ^ 1024 := zpow_natCast 2 1024
  rwa [h2] at h1

theorem Dbl.round64_two_pow_1023 : Dbl.round64 (2 ^ 1023) = Dbl.fin (2 ^ 1023) := by
  have e : ((1 : ℕ) : ℚ) * 2 ^ (1023 : ℤ) = 2 ^ 1023 := by
    rw [Nat.cast_one, one_mul]
    exact zpow_natCast 2 1023
  have h := Dbl.round64_exact 1 1023 (by norm_num) (by norm_num)
    (by rw [Nat.cast_one, one_mul]; exact Dbl.two_zpow_lt 1023 (by norm_num))
  rwa [e] at h

theorem Dbl.round64_two_pow_1024 : Dbl.round64 (2 ^ 1023 + 2 ^ 1023) = Dbl.pinf := by
  apply Dbl.round64_overflow
  rw [show (1024 : ℕ) = 1023 + 1 from rfl, pow_succ, mul_two]

theorem roundedSum_pinf (l : List Dbl) (h : ∀ x ∈ l, x.isfinite = true) :
    l.foldl (fun sum x => (sum.add x).rounded Dbl.round64) Dbl.pinf = Dbl.pinf := by
  induction l with
  | nil => rfl
  | cons x xs ih =>
    rw [List.foldl_cons]
    have hx := h x (List.mem_cons_self _ _)
    cases x with
    | fin q => exact ih (fun y hy => h y (List.mem_cons_of_mem _ hy))
    | pinf => exact Bool.noConfusion hx
    | ninf => exact Bool.noConfusion hx
    | nan => exact Bool.noConfusion hx

/-- The sum of two or more samples equal to a value whose double overflows. -/
theorem roundedSum_overflow (H : ℚ) (h1 : Dbl.round64 H = Dbl.fin H)
    (h2 : Dbl.round64 (H + H) = Dbl.pinf) (c : Nat) :
    roundedSum Dbl.round64 (List.replicate (c + 2) (Dbl.fin H)) = Dbl.pinf := by
  unfold roundedSum
  rw [List.replicate_succ, List.replicate_succ, List.foldl_cons, List.foldl_cons]
  have e1 : (Dbl.zero.add (Dbl.fin H)).rounded Dbl.round64 = Dbl.fin H := by
    show Dbl.round64 (0 + H) = _
    rw [zero_add]
    exact h1
  have e2 : ((Dbl.fin H).add (Dbl.fin H)).rounded Dbl.round64 = Dbl.pinf := h2
  rw [e1, e2]
  apply roundedSum_pinf
  intro x hx
  rw [List.eq_of_mem_replicate hx]
  rfl

/-- The squared deviations of finite samples from the mean `+∞` sum to `+∞`. -/
theorem roundedSumOfSquares_overflow (H : ℚ) (c : Nat) :
    roundedSumOfSquares Dbl.round64 (List.replicate (c + 1) (Dbl.fin H)) Dbl.pinf
      = Dbl.pinf := by
  have hstep : ∀ acc : Dbl, acc = Dbl.fin 0 ∨ acc = Dbl.pinf →
      (acc.add (((((Dbl.fin H).sub Dbl.pinf).rounded Dbl.round64).mul
        (((Dbl.fin H).sub Dbl.pinf).rounded Dbl.round64)).rounded
          Dbl.round64)).rounded Dbl.round64 = Dbl.pinf := by
    intro acc hacc
    rcases hacc with rfl | rfl <;> rfl
  have hgen : ∀ (c : Nat) (acc : Dbl), acc = Dbl.fin 0 ∨ acc = Dbl.pinf →
      (List.replicate (c + 1) (Dbl.fin H)).foldl (fun sum x =>
        (sum.add ((((x.sub Dbl.pinf).rounded Dbl.round64).mul
          ((x.sub Dbl.pinf).rounded Dbl.round64)).rounded Dbl.round64)).rounded Dbl.round64) acc
        = Dbl.pinf := by
    intro c
    induction c with
    | zero =>
      intro acc hacc
      exact hstep acc hacc
    | succ c ih =>
      intro acc hacc
      rw [List.replicate_succ, List.foldl_cons, hstep acc hacc]
      exact ih _ (Or.inr rfl)
  exact hgen c Dbl.zero (Or.inl rfl)

theorem segment_replicate (n k : Nat) (x : Dbl) :
    segment (List.replicate n x) k (List.replicate n x).length = List.replicate (n - k) x := by
  simp [segment]

/-- In binary64 every candidate of the search on a series of fewer than `2 ^ 32` samples equal to
a value whose double overflows has the value `+∞`: the sum of the samples overflows. -/
theorem Rounded.calculateMSERValue_overflow (H : ℚ) (h1 : Dbl.round64 H = Dbl.fin H)
    (h2 : Dbl.round64 (H + H) = Dbl.pinf) (n k : Nat) (hn : n < 2 ^ 32) (hk : k < n / 2) :
    Rounded.calculateMSERValue Dbl.round64 (List.replicate n (Dbl.fin H)) k = Dbl.pinf := by
  have hlen : (List.replicate n (Dbl.fin H)).length = n := List.length_replicate _ _
  rw [(Rounded.calculateMSERValue_of_scanned_rnd Dbl.round64 _ k (by rw [hlen]; exact hk)).2,
    segment_replicate, hlen]
  obtain ⟨c, hc⟩ : ∃ c, n - k = c + 2 := ⟨n - k - 2, by omega⟩
  obtain ⟨r, hr, hcnt⟩ := Dbl.round64_natCast (n - k) (by omega) (by omega)
  have hsq : (n - k) * (n - k) < 2 ^ 64 := by
    have h1 : n - k < 2 ^ 32 := by omega
    calc (n - k) * (n - k) < 2 ^ 32 * 2 ^ 32 := Nat.mul_lt_mul'' h1 h1
      _ = 2 ^ 64 := by norm_num
  have hmod : (n - k) * (n - k) % sizeModulus = (n - k) * (n - k) :=
    Nat.mod_eq_of_lt (by simpa [sizeModulus] using hsq)
  obtain ⟨r2, hr2, hdiv⟩ := Dbl.round64_natCast ((n - k) * (n - k))
    (Nat.mul_pos (by omega) (by omega)) hsq
  have hmean : ((roundedSum Dbl.round64 (List.replicate (n - k) (Dbl.fin H))).div
      (Dbl.round64 ((n - k : Nat) : ℚ))).rounded Dbl.round64 = Dbl.pinf := by
    rw [hcnt, hc, roundedSum_overflow H h1 h2 c]
    simp [Dbl.div, Dbl.signedInf, (by linarith : (0 : ℚ) ≤ r), Dbl.rounded]
  rw [hmean, hmod, hdiv]
  have hS : roundedSumOfSquares Dbl.round64 (List.replicate (n - k) (Dbl.fin H))
      Dbl.pinf = Dbl.pinf := by
    rw [hc]
    exact roundedSumOfSquares_overflow H (c + 1)
  rw [hS]
  simp [Dbl.div, Dbl.signedInf, (by linarith : (0 : ℚ) ≤ r2), Dbl.rounded]

/-- The result of `calculateMSER1` in binary64 on ten samples equal to `2 ^ 1023`. -/
theorem Rounded.calculateMSER1_huge :
    Rounded.calculateMSER1 Dbl.round64 hugeSeries =
      { truncationPoint := 0
        mserValue := Dbl.pinf
        converged := false
        reason := Reason.notConverged
        totalSamples := 10
        batchCount := 0
        variant := MSERVariant.MSER_1 } := by
  have hnone : ¬ ∃ k, k < hugeSeries.length / 2 ∧
      (Rounded.calculateMSERValue Dbl.round64 hugeSeries k).lt Dbl.pinf = true := by
    rintro ⟨k, hk, hlt⟩
    have hk' : k < 10 / 2 := hk
    rw [show hugeSeries = List.replicate 10 (Dbl.fin (2 ^ 1023)) from rfl,
      Rounded.calculateMSERValue_overflow (2 ^ 1023) Dbl.round64_two_pow_1023
        Dbl.round64_two_pow_1024 10 k (by norm_num) hk'] at hlt
    exact Bool.noConfusion hlt
  have hres := (Rounded.findOptimalTruncationPoint_spec Dbl.round64 hugeSeries
    (by decide)).2.2 hnone
  rw [Rounded.calculateMSER1_of_valid_rnd Dbl.round64 hugeSeries (by decide), hres]
  rfl

/-! ## Samples of bounded magnitude -/

/-- The rounding of a result of magnitude at most `j * 2 ^ k`, for `j ≤ 2 ^ 53` and
`k + 54 ≤ 1024`, is a finite value of magnitude at most `j * 2 ^ k`. -/
theorem Dbl.round64_le_nat (q : ℚ) (j k : ℕ) (hj : j ≤ 2 ^ 53) (hk : k + 54 ≤ 1024)
    (h : |q| ≤ (j : ℚ) * 2 ^ k) :
    ∃ r : ℚ, Dbl.round64 q = Dbl.fin r ∧ |r| ≤ (j : ℚ) * 2 ^ k := by
  have e : (2 : ℚ) ^ ((k : ℕ) : ℤ) = 2 ^ k := zpow_natCast 2 k
  have hB : (j : ℚ) * 2 ^ ((k : ℕ) : ℤ) < 2 ^ 1024 :=
    lt_of_le_of_lt (Dbl.significand_le j k hj) (Dbl.two_zpow_lt _ (by omega))
  have := Dbl.round64_le q j k hj (by omega) hB (by rw [e]; exact h)
  rwa [e] at this

theorem roundedSum_bounded (k : ℕ) (hk : k + 54 ≤ 1024) (l : List Dbl)
    (h : ∀ x ∈ l, ∃ r : ℚ, x = Dbl.fin r ∧ |r| ≤ 2 ^ k) (hlen : l.length ≤ 2 ^ 53) :
    ∃ s : ℚ, roundedSum Dbl.round64 l = Dbl.fin s ∧ |s| ≤ (l.length : ℚ) * 2 ^ k := by
  have hgen : ∀ (l : List Dbl) (acc : Dbl) (j : ℕ),
      (∀ x ∈ l, ∃ r : ℚ, x = Dbl.fin r ∧ |r| ≤ 2 ^ k) → j + l.length ≤ 2 ^ 53 →
      (∃ s : ℚ, acc = Dbl.fin s ∧ |s| ≤ (j : ℚ) * 2 ^ k) →
      ∃ s : ℚ, l.foldl (fun sum x => (sum.add x).rounded Dbl.round64) acc = Dbl.fin s ∧
        |s| ≤ ((j + l.length : ℕ) : ℚ) * 2 ^ k := by
    intro l
    induction l with
    | nil => intro acc j _ _ hacc; simpa using hacc
    | cons x xs ih =>
      intro acc j hall hj hacc
      obtain ⟨s, rfl, hs⟩ := hacc
      obtain ⟨r, rfl, hr⟩ := hall x (List.mem_cons_self _ _)
      rw [List.foldl_cons]
      rw [List.length_cons] at hj
      have hsum : |s + r| ≤ ((j + 1 : ℕ) : ℚ) * 2 ^ k := by
        have := abs_add s r
        push_cast
        linarith
      obtain ⟨t, ht, htb⟩ := Dbl.round64_le_nat (s + r) (j + 1) k (by omega) hk hsum
      have hstep : ((Dbl.fin s).add (Dbl.fin r)).rounded Dbl.round64 = Dbl.fin t := ht
      rw [hstep]
      have := ih (Dbl.fin t) (j + 1) (fun y hy => hall y (List.mem_cons_of_mem _ hy))
        (by omega) ⟨t, rfl, htb⟩
      rw [List.length_cons]
      rwa [show j + 1 + xs.length = j + (xs.length + 1) by omega] at this
  have := hgen l Dbl.zero 0 h (by omega) ⟨0, rfl, by simp⟩
  simpa using this

theorem roundedSumOfSquares_bounded (k : ℕ) (hk : 2 * k + 56 ≤ 1024) (l : List Dbl) (μ : ℚ)
    (h : ∀ x ∈ l, ∃ r : ℚ, x = Dbl.fin r ∧ |r| ≤ 2 ^ k) (hμ : |μ| ≤ 2 ^ k)
    (hlen : l.length ≤ 2 ^ 53) :
    ∃ s : ℚ, roundedSumOfSquares Dbl.round64 l (Dbl.fin μ) = Dbl.fin s ∧
      |s| ≤ (l.length : ℚ) * 2 ^ (2 * k + 2) := by
  have hsq : ∀ r : ℚ, |r| ≤ 2 ^ k →
      ∃ t : ℚ, ((((Dbl.fin r).sub (Dbl.fin μ)).rounded Dbl.round64).mul
        (((Dbl.fin r).sub (Dbl.fin μ)).rounded Dbl.round64)).rounded Dbl.round64 = Dbl.fin t ∧
        |t| ≤ 2 ^ (2 * k + 2) := by
    intro r hr
    have hdev : |r - μ| ≤ ((1 : ℕ) : ℚ) * 2 ^ (k + 1) := by
      have := abs_sub r μ
      rw [Nat.cast_one, one_mul, pow_succ]
      linarith
    obtain ⟨d, hd, hdb⟩ := Dbl.round64_le_nat (r - μ) 1 (k + 1) (by norm_num) (by omega) hdev
    rw [Dbl.sub_fin]
    have h1 : (Dbl.fin (r - μ)).rounded Dbl.round64 = Dbl.fin d := hd
    rw [h1, Dbl.mul_fin]
    rw [Nat.cast_one, one_mul] at hdb
    have hdd : |d * d| ≤ ((1 : ℕ) : ℚ) * 2 ^ (2 * k + 2) := by
      rw [abs_mul, Nat.cast_one, one_mul]
      have e : (2 : ℚ) ^ (2 * k + 2) = 2 ^ (k + 1) * 2 ^ (k + 1) := by
        rw [← pow_add]
        congr 1
        omega
      rw [e]
      exact mul_le_mul hdb hdb (abs_nonneg d) (by positivity)
    obtain ⟨t, ht, htb⟩ := Dbl.round64_le_nat (d * d) 1 (2 * k + 2) (by norm_num) (by omega) hdd
    rw [Nat.cast_one, one_mul] at htb
    exact ⟨t, ht, htb⟩
  have hgen : ∀ (l : List Dbl) (acc : Dbl) (j : ℕ),
      (∀ x ∈ l, ∃ r : ℚ, x = Dbl.fin r ∧ |r| ≤ 2 ^ k) → j + l.length ≤ 2 ^ 53 →
      (∃ s : ℚ, acc = Dbl.fin s ∧ |s| ≤ (j : ℚ) * 2 ^ (2 * k + 2)) →
      ∃ s : ℚ, l.foldl (fun sum x =>
        (sum.add ((((x.sub (Dbl.fin μ)).rounded Dbl.round64).mul
          ((x.sub (Dbl.fin μ)).rounded Dbl.round64)).rounded Dbl.round64)).rounded
            Dbl.round64) acc = Dbl.fin s ∧
        |s| ≤ ((j + l.length : ℕ) : ℚ) * 2 ^ (2 * k + 2) := by
    intro l
    induction l with
    | nil => intro acc j _ _ hacc; simpa using hacc
    | cons x xs ih =>
      intro acc j hall hj hacc
      obtain ⟨s, rfl, hs⟩ := hacc
      obtain ⟨r, rfl, hr⟩ := hall x (List.mem_cons_self _ _)
      obtain ⟨t, ht, htb⟩ := hsq r hr
      rw [List.foldl_cons, ht]
      rw [List.length_cons] at hj
      have hsum : |s + t| ≤ ((j + 1 : ℕ) : ℚ) * 2 ^ (2 * k + 2) := by
        have := abs_add s t
        push_cast
        linarith
      obtain ⟨u, hu, hub⟩ := Dbl.round64_le_nat (s + t) (j + 1) (2 * k + 2) (by omega) (by omega)
        hsum
      have hstep : ((Dbl.fin s).add (Dbl.fin t)).rounded Dbl.round64 = Dbl.fin u := hu
      rw [hstep]
      have := ih (Dbl.fin u) (j + 1) (fun y hy => hall y (List.mem_cons_of_mem _ hy))
        (by omega) ⟨u, rfl, hub⟩
      rw [List.length_cons]
      rwa [show j + 1 + xs.length = j + (xs.length + 1) by omega] at this
  have := hgen l Dbl.zero 0 h (by omega) ⟨0, rfl, by simp⟩
  simpa [roundedSumOfSquares] using this

theorem mem_of_mem_segment (data : TimeSeriesData) (a b : Nat) (x : Dbl)
    (h : x ∈ segment data a b) : x ∈ data :=
  List.mem_of_mem_drop (List.mem_of_mem_take h)

theorem Dbl.abs_div_le (s r : ℚ) (hr : 1 ≤ r) : |s / r| ≤ |s| := by
  rw [abs_div, abs_of_pos (by linarith : (0 : ℚ) < r)]
  exact div_le_self (abs_nonneg s) hr

theorem Dbl.natCast_mul_pow_le (c k : ℕ) (hc : c ≤ 2 ^ 32) :
    (c : ℚ) * 2 ^ k ≤ ((1 : ℕ) : ℚ) * 2 ^ (k + 32) := by
  have h1 : (c : ℚ) ≤ 2 ^ 32 := by exact_mod_cast hc
  rw [Nat.cast_one, one_mul, pow_add, mul_comm ((2 : ℚ) ^ k)]
  exact mul_le_mul_of_nonneg_right h1 (by positivity)

/-- The mean of at most `2 ^ 32` samples of magnitude at most `2 ^ k` is a finite value of
magnitude at most `2 ^ (k + 32)`. -/
theorem roundedMean_bounded (k : ℕ) (hk : k + 32 + 54 ≤ 1024) (l : List Dbl)
    (h : ∀ x ∈ l, ∃ r : ℚ, x = Dbl.fin r ∧ |r| ≤ 2 ^ k) (h1 : 1 ≤ l.length)
    (hlen : l.length ≤ 2 ^ 32) :
    ∃ μ : ℚ, ((roundedSum Dbl.round64 l).div (Dbl.round64 (l.length : ℚ))).rounded Dbl.round64
        = Dbl.fin μ ∧ |μ| ≤ 2 ^ (k + 32) := by
  obtain ⟨s, hs, hsb⟩ := roundedSum_bounded k (by omega) l h
    (hlen.trans (Nat.pow_le_pow_right (by norm_num) (by norm_num)))
  obtain ⟨r, hr, hcnt⟩ := Dbl.round64_natCast l.length h1
    (lt_of_le_of_lt hlen (Nat.pow_lt_pow_right (by norm_num) (by norm_num)))
  have hq : |s / r| ≤ ((1 : ℕ) : ℚ) * 2 ^ (k + 32) :=
    (Dbl.abs_div_le s r hr).trans (hsb.trans (Dbl.natCast_mul_pow_le _ k hlen))
  obtain ⟨μ, hμ, hμb⟩ := Dbl.round64_le_nat (s / r) 1 (k + 32) (by norm_num) hk hq
  rw [hs, hcnt, Dbl.div_fin _ _ (by linarith : r ≠ 0)]
  rw [Nat.cast_one, one_mul] at hμb
  exact ⟨μ, hμ, hμb⟩

/-- In binary64 the value of a scanned candidate is finite when the series has fewer than `2 ^ 32`
samples, all of magnitude at most `2 ^ k` with `k ≤ 452`: no operation overflows. -/
theorem Rounded.calculateMSERValue_bounded (k : ℕ) (hk : 2 * (k + 32) + 56 ≤ 1024)
    (data : TimeSeriesData) (h : ∀ x ∈ data, ∃ r : ℚ, x = Dbl.fin r ∧ |r| ≤ 2 ^ k)
    (hn : data.length < 2 ^ 32) (i : Nat) (hi : i < data.length / 2) :
    ∃ v : ℚ, Rounded.calculateMSERValue Dbl.round64 data i = Dbl.fin v := by
  have hlen := length_segment data i data.length le_rfl
  have hl : ∀ x ∈ segment data i data.length, ∃ r : ℚ, x = Dbl.fin r ∧ |r| ≤ 2 ^ k :=
    fun x hx => h x (mem_of_mem_segment data i data.length x hx)
  have hl' : ∀ x ∈ segment data i data.length, ∃ r : ℚ, x = Dbl.fin r ∧ |r| ≤ 2 ^ (k + 32) := by
    intro x hx
    obtain ⟨r, hr, hb⟩ := hl x hx
    refine ⟨r, hr, hb.trans ?_⟩
    exact pow_le_pow_right₀ (by norm_num) (by omega)
  obtain ⟨μ, hμ, hμb⟩ := roundedMean_bounded k (by omega) _ hl (by rw [hlen]; omega)
    (by rw [hlen]; omega)
  obtain ⟨S, hS, hSb⟩ := roundedSumOfSquares_bounded (k + 32) hk _ μ hl' hμb
    (by rw [hlen]; exact (show data.length - i ≤ 2 ^ 53 by
      have : (2 : ℕ) ^ 32 ≤ 2 ^ 53 := Nat.pow_le_pow_right (by norm_num) (by norm_num)
      omega))
  have hsq : (data.length - i) * (data.length - i) < 2 ^ 64 := by
    have h1 : data.length - i < 2 ^ 32 := by omega
    calc (data.length - i) * (data.length - i) < 2 ^ 32 * 2 ^ 32 := Nat.mul_lt_mul'' h1 h1
      _ = 2 ^ 64 := by norm_num
  have hmod : (data.length - i) * (data.length - i) % sizeModulus
      = (data.length - i) * (data.length - i) :=
    Nat.mod_eq_of_lt (by simpa [sizeModulus] using hsq)
  obtain ⟨r2, hr2, hdiv⟩ := Dbl.round64_natCast ((data.length - i) * (data.length - i))
    (Nat.mul_pos (by omega) (by omega)) hsq
  have hq : |S / r2| ≤ (((segment data i data.length).length : ℕ) : ℚ)
      * 2 ^ (2 * (k + 32) + 2) := (Dbl.abs_div_le S r2 hr2).trans hSb
  obtain ⟨v, hv, _⟩ := Dbl.round64_le_nat (S / r2) _ (2 * (k + 32) + 2)
    (by rw [hlen]; exact (show data.length - i ≤ 2 ^ 53 by
      have : (2 : ℕ) ^ 32 ≤ 2 ^ 53 := Nat.pow_le_pow_right (by norm_num) (by norm_num)
      omega)) (by omega) hq
  refine ⟨v, ?_⟩
  rw [(Rounded.calculateMSERValue_of_scanned_rnd Dbl.round64 data i hi).2, hmod, hdiv]
  rw [← hlen, hμ, hS, Dbl.div_fin _ _ (by linarith : r2 ≠ 0)]
  exact hv

/-- In binary64 the batch means of fewer than `2 ^ 32` samples of magnitude at most `2 ^ k` are
finite values of magnitude at most `2 ^ (k + 32)`. -/
theorem Rounded.createBatchMeans_bounded (k : ℕ) (hk : k + 32 + 54 ≤ 1024)
    (data : TimeSeriesData) (B : Nat)
    (h : ∀ x ∈ data, ∃ r : ℚ, x = Dbl.fin r ∧ |r| ≤ 2 ^ k) (hn : data.length < 2 ^ 32) :
    ∀ x ∈ Rounded.createBatchMeans Dbl.round64 data B,
      ∃ r : ℚ, x = Dbl.fin r ∧ |r| ≤ 2 ^ (k + 32) := by
  intro x hx
  unfold Rounded.createBatchMeans at hx
  by_cases hB : B = 0
  · rw [if_pos hB] at hx
    exact absurd hx (List.not_mem_nil _)
  · rw [if_neg hB, List.mem_map] at hx
    obtain ⟨i, hi, rfl⟩ := hx
    rw [List.mem_range] at hi
    have hle : i * B + B ≤ data.length := by
      have h1 : (i + 1) * B ≤ data.length / B * B := Nat.mul_le_mul_right B hi
      have h2 : data.length / B * B ≤ data.length := Nat.div_mul_le_self _ _
      calc i * B + B = (i + 1) * B := by ring
        _ ≤ data.length := h1.trans h2
    have hlen : (segment data (i * B) (i * B + B)).length = B := by
      rw [length_segment data _ _ hle]
      omega
    have hl : ∀ y ∈ segment data (i * B) (i * B + B), ∃ r : ℚ, y = Dbl.fin r ∧ |r| ≤ 2 ^ k :=
      fun y hy => h y (mem_of_mem_segment data _ _ y hy)
    obtain ⟨μ, hμ, hμb⟩ := roundedMean_bounded k hk _ hl (by rw [hlen]; omega)
      (by rw [hlen]; omega)
    refine ⟨μ, ?_, hμb⟩
    simp only
    rw [Rounded.sumRange_eq Dbl.round64 data _ _ hle]
    rw [hlen] at hμ
    exact hμ

/-- In binary64 the search on at least four and fewer than `2 ^ 32` samples of magnitude at most
`2 ^ k`, `k ≤ 452`, returns a value below `+∞`. -/
theorem Rounded.findOptimalTruncationPoint_bounded (k : ℕ) (hk : 2 * (k + 32) + 56 ≤ 1024)
    (data : TimeSeriesData) (h : ∀ x ∈ data, ∃ r : ℚ, x = Dbl.fin r ∧ |r| ≤ 2 ^ k)
    (hn : data.length < 2 ^ 32) (h2 : 2 ≤ data.length / 2) :
    (Rounded.findOptimalTruncationPoint Dbl.round64 data).2.lt Dbl.pinf = true := by
  obtain ⟨v, hv⟩ := Rounded.calculateMSERValue_bounded k hk data h hn 0 (by omega)
  exact ((Rounded.findOptimalTruncationPoint_spec Dbl.round64 data h2).2.1
    ⟨0, by omega, by rw [hv]; rfl⟩).2.2.1

/-! ## The success path in binary64 -/

/-- The outcome of the search in binary64. -/
theorem Rounded.search_outcome (data : TimeSeriesData) (h2 : 2 ≤ data.length / 2) :
    ((Rounded.findOptimalTruncationPoint Dbl.round64 data).2.lt Dbl.pinf = true ↔
      ∃ k, k < data.length / 2 ∧
        (Rounded.calculateMSERValue Dbl.round64 data k).lt Dbl.pinf = true) ∧
    ((Rounded.findOptimalTruncationPoint Dbl.round64 data).2.lt Dbl.pinf = true →
      ∃ q : ℚ, 0 ≤ q ∧ (Rounded.findOptimalTruncationPoint Dbl.round64 data).2 = Dbl.fin q) ∧
    ((Rounded.findOptimalTruncationPoint Dbl.round64 data).2.lt Dbl.pinf = false →
      Rounded.findOptimalTruncationPoint Dbl.round64 data = (0, Dbl.pinf)) := by
  obtain ⟨_, hsome, hnone⟩ := Rounded.findOptimalTruncationPoint_spec Dbl.round64 data h2
  have hiff : (Rounded.findOptimalTruncationPoint Dbl.round64 data).2.lt Dbl.pinf = true ↔
      ∃ k, k < data.length / 2 ∧
        (Rounded.calculateMSERValue Dbl.round64 data k).lt Dbl.pinf = true := by
    constructor
    · intro hlt
      by_contra hno
      rw [hnone hno] at hlt
      exact Bool.noConfusion hlt
    · intro hex
      exact (hsome hex).2.2.1
  refine ⟨hiff, ?_, ?_⟩
  · intro hlt
    have hval := (hsome (hiff.mp hlt)).2.1
    have hsign := Rounded.calculateMSERValue_nonneg_or_nan data
      (Rounded.findOptimalTruncationPoint Dbl.round64 data).1
    rw [← hval] at hsign
    exact Dbl.fin_of_lt_pinf _ hsign hlt
  · intro hlt
    apply hnone
    intro hex
    rw [hiff.mpr hex] at hlt
    exact Bool.noConfusion hlt

theorem bounded_of_smaller (k : ℕ) (data : TimeSeriesData)
    (h : ∀ x ∈ data, ∃ r : ℚ, x = Dbl.fin r ∧ |r| ≤ 2 ^ k) :
    ∀ x ∈ data, ∃ r : ℚ, x = Dbl.fin r ∧ |r| ≤ 2 ^ (k + 32) := by
  intro x hx
  obtain ⟨r, hr, hb⟩ := h x hx
  exact ⟨r, hr, hb.trans (pow_le_pow_right₀ (by norm_num) (by omega))⟩

/-- C22, as stated, in binary64 at ten samples equal to `2 ^ 1023`, a finite `double`: the input
passes validation, the sum of the samples overflows, every candidate has the value `+∞`, and
`calculateMSER1` returns `mserValue = +∞`, `converged = false` and the did-not-converge reason. -/
theorem C22_overflow :
    validateData hugeSeries 10 = true ∧
    (∀ k, k < hugeSeries.length / 2 →
      Rounded.calculateMSERValue Dbl.round64 hugeSeries k = Dbl.pinf) ∧
    (Rounded.calculateMSER1 Dbl.round64 hugeSeries).mserValue = Dbl.pinf ∧
    (Rounded.calculateMSER1 Dbl.round64 hugeSeries).converged = false ∧
    (Rounded.calculateMSER1 Dbl.round64 hugeSeries).reason = Reason.notConverged := by
  refine ⟨by decide, ?_, ?_, ?_, ?_⟩
  · intro k hk
    exact Rounded.calculateMSERValue_overflow (2 ^ 1023) Dbl.round64_two_pow_1023
      Dbl.round64_two_pow_1024 10 k (by norm_num) hk
  · rw [Rounded.calculateMSER1_huge]
  · rw [Rounded.calculateMSER1_huge]
  · rw [Rounded.calculateMSER1_huge]

/-- C22 as amended.  An input passes the validation of `calculateMSER1` exactly if it is a series
of finite values with `|data| ≥ 10`, and both guards of `calculateMSERm` exactly if it is a series
of finite values with `⌊|data|/B⌋ ≥ 10`.  For such an input, in binary64, every `k` scanned by
`findOptimalTruncationPoint` passes the guard `truncationPoint >= n || n - truncationPoint < 2` of
`calculateMSERValue`, whose value is then the rounded quotient it computes; `converged` is true
exactly if a scanned candidate has a computed value below `+∞`, and then the reason is the success
reason and `mserValue` is a finite value `≥ 0`; otherwise `mserValue = +∞`,
`truncationPoint = 0` and the reason is the did-not-converge reason.  When the series has fewer
than `2 ^ 32` samples, all of magnitude at most `2 ^ 400`, no operation overflows and `converged`
is true. -/
theorem C22_success_path (data : TimeSeriesData) (B : Nat) :
    ((validateData data 10 = true ↔ (∀ x ∈ data, x.isfinite = true) ∧ 10 ≤ data.length) ∧
      (validateData data 10 = true →
        (∀ k, k < data.length / 2 →
          ¬ (k ≥ data.length ∨ data.length - k < 2) ∧
          Rounded.calculateMSERValue Dbl.round64 data k
            = ((roundedSumOfSquares Dbl.round64 (segment data k data.length)
                  (((roundedSum Dbl.round64 (segment data k data.length)).div
                    (Dbl.round64 ((data.length - k : Nat) : ℚ))).rounded Dbl.round64)).div
                (Dbl.round64
                  (((data.length - k) * (data.length - k) % sizeModulus : Nat) : ℚ))).rounded
                  Dbl.round64) ∧
        ((Rounded.calculateMSER1 Dbl.round64 data).converged = true ↔
          ∃ k, k < data.length / 2 ∧
            (Rounded.calculateMSERValue Dbl.round64 data k).lt Dbl.pinf = true) ∧
        ((Rounded.calculateMSER1 Dbl.round64 data).converged = true →
          (Rounded.calculateMSER1 Dbl.round64 data).reason = Reason.ok ∧
          ∃ q : ℚ, 0 ≤ q ∧ (Rounded.calculateMSER1 Dbl.round64 data).mserValue = Dbl.fin q) ∧
        ((Rounded.calculateMSER1 Dbl.round64 data).converged = false →
          (Rounded.calculateMSER1 Dbl.round64 data).reason = Reason.notConverged ∧
          (Rounded.calculateMSER1 Dbl.round64 data).mserValue = Dbl.pinf ∧
          (Rounded.calculateMSER1 Dbl.round64 data).truncationPoint = 0) ∧
        ((∀ x ∈ data, ∃ r : ℚ, x = Dbl.fin r ∧ |r| ≤ 2 ^ 400) → data.length < 2 ^ 32 →
          (Rounded.calculateMSER1 Dbl.round64 data).converged = true))) ∧
    (((validateData data (B * 2 % sizeModulus) = true
          ∧ ¬ (Rounded.createBatchMeans Dbl.round64 data B).length < 10)
        ↔ (∀ x ∈ data, x.isfinite = true) ∧ 10 ≤ data.length / B) ∧
      (validateData data (B * 2 % sizeModulus) = true →
        ¬ (Rounded.createBatchMeans Dbl.round64 data B).length < 10 →
        (∀ k, k < (Rounded.createBatchMeans Dbl.round64 data B).length / 2 →
          ¬ (k ≥ (Rounded.createBatchMeans Dbl.round64 data B).length
            ∨ (Rounded.createBatchMeans Dbl.round64 data B).length - k < 2)) ∧
        ((Rounded.calculateMSERm Dbl.round64 data B).converged = true ↔
          ∃ k, k < (Rounded.createBatchMeans Dbl.round64 data B).length / 2 ∧
            (Rounded.calculateMSERValue Dbl.round64
              (Rounded.createBatchMeans Dbl.round64 data B) k).lt Dbl.pinf = true) ∧
        ((Rounded.calculateMSERm Dbl.round64 data B).converged = true →
          (Rounded.calculateMSERm Dbl.round64 data B).reason = Reason.ok ∧
          ∃ q : ℚ, 0 ≤ q ∧ (Rounded.calculateMSERm Dbl.round64 data B).mserValue = Dbl.fin q) ∧
        ((Rounded.calculateMSERm Dbl.round64 data B).converged = false →
          (Rounded.calculateMSERm Dbl.round64 data B).reason = Reason.notConverged ∧
          (Rounded.calculateMSERm Dbl.round64 data B).mserValue = Dbl.pinf ∧
          (Rounded.calculateMSERm Dbl.round64 data B).truncationPoint = 0) ∧
        ((∀ x ∈ data, ∃ r : ℚ, x = Dbl.fin r ∧ |r| ≤ 2 ^ 400) → data.length < 2 ^ 32 →
          (Rounded.calculateMSERm Dbl.round64 data B).converged = true))) := by
  have hguards : (validateData data (B * 2 % sizeModulus) = true
      ∧ ¬ (Rounded.createBatchMeans Dbl.round64 data B).length < 10)
        ↔ (∀ x ∈ data, x.isfinite = true) ∧ 10 ≤ data.length / B := by
    rw [validateData_eq_true, Rounded.length_createBatchMeans_rnd]
    constructor
    · rintro ⟨⟨hfin, _⟩, hten⟩
      exact ⟨hfin, by omega⟩
    · rintro ⟨hfin, hten⟩
      have h10 : 10 * B ≤ data.length :=
        (Nat.mul_le_mul_right B hten).trans (Nat.div_mul_le_self _ _)
      exact ⟨⟨hfin, (Nat.mod_le _ _).trans (by omega)⟩, by omega⟩
  refine ⟨⟨validateData_eq_true data 10, fun hvalid => ?_⟩, hguards, fun hvalid hten => ?_⟩
  · obtain ⟨_, hn⟩ := (validateData_eq_true data 10).mp hvalid
    obtain ⟨hiff, hsign, hnone⟩ := Rounded.search_outcome data (by omega)
    rw [Rounded.calculateMSER1_of_valid_rnd Dbl.round64 data hvalid]
    refine ⟨fun k hk => Rounded.calculateMSERValue_of_scanned_rnd Dbl.round64 data k hk, hiff,
      fun hc => ?_, fun hc => ?_, fun hb hsmall => ?_⟩
    · have hc' : (Rounded.findOptimalTruncationPoint Dbl.round64 data).2.lt Dbl.pinf = true := hc
      exact ⟨if_pos hc', hsign hc'⟩
    · have hc' : (Rounded.findOptimalTruncationPoint Dbl.round64 data).2.lt Dbl.pinf = false := hc
      refine ⟨if_neg (by rw [hc']; exact Bool.false_ne_true), ?_, ?_⟩
      · show (Rounded.findOptimalTruncationPoint Dbl.round64 data).2 = Dbl.pinf
        rw [hnone hc']
      · show (Rounded.findOptimalTruncationPoint Dbl.round64 data).1 = 0
        rw [hnone hc']
    · exact Rounded.findOptimalTruncationPoint_bounded 400 (by norm_num) data hb hsmall
        (by omega)
  · have hlen := Rounded.length_createBatchMeans_rnd Dbl.round64 data B
    have hmany : 10 ≤ data.length / B := by omega
    obtain ⟨hiff, hsign, hnone⟩ := Rounded.search_outcome
      (Rounded.createBatchMeans Dbl.round64 data B) (by omega)
    rw [Rounded.calculateMSERm_of_valid_rnd Dbl.round64 data B hvalid hmany]
    refine ⟨fun k hk => by omega, hiff, fun hc => ?_, fun hc => ?_, fun hb hsmall => ?_⟩
    · have hc' : (Rounded.findOptimalTruncationPoint Dbl.round64
          (Rounded.createBatchMeans Dbl.round64 data B)).2.lt Dbl.pinf = true := hc
      exact ⟨if_pos hc', hsign hc'⟩
    · have hc' : (Rounded.findOptimalTruncationPoint Dbl.round64
          (Rounded.createBatchMeans Dbl.round64 data B)).2.lt Dbl.pinf = false := hc
      refine ⟨if_neg (by rw [hc']; exact Bool.false_ne_true), ?_, ?_⟩
      · show (Rounded.findOptimalTruncationPoint Dbl.round64
          (Rounded.createBatchMeans Dbl.round64 data B)).2 = Dbl.pinf
        rw [hnone hc']
      · show (Rounded.findOptimalTruncationPoint Dbl.round64
          (Rounded.createBatchMeans Dbl.round64 data B)).1 = 0
        rw [hnone hc']
    · have hbm := Rounded.createBatchMeans_bounded 400 (by norm_num) data B hb hsmall
      have hbmlen : (Rounded.createBatchMeans Dbl.round64 data B).length < 2 ^ 32 := by
        rw [hlen]
        exact lt_of_le_of_lt (Nat.div_le_self _ _) hsmall
      exact Rounded.findOptimalTruncationPoint_bounded (400 + 32) (by norm_num) _ hbm hbmlen
        (by omega)

/-- C22 as amended, at 100 samples equal to 3, for `calculateMSER1` and for `calculateMSERm` with
`B = 5`: the samples are small, so that both calls return `converged = true` with the success
reason and a finite `mserValue ≥ 0`. -/
theorem C22_success_path_witness :
    (validateData (finite (List.replicate 100 3)) 10 = true ∧
      validateData (finite (List.replicate 100 3)) (5 * 2 % sizeModulus) = true ∧
      ¬ (Rounded.createBatchMeans Dbl.round64 (finite (List.replicate 100 3)) 5).length < 10 ∧
      (∀ x ∈ finite (List.replicate 100 3), ∃ r : ℚ, x = Dbl.fin r ∧ |r| ≤ 2 ^ 400) ∧
      (finite (List.replicate 100 3)).length < 2 ^ 32) ∧
    ((Rounded.calculateMSER1 Dbl.round64 (finite (List.replicate 100 3))).converged = true ∧
      (Rounded.calculateMSER1 Dbl.round64 (finite (List.replicate 100 3))).reason = Reason.ok ∧
      ∃ q : ℚ, 0 ≤ q ∧
        (Rounded.calculateMSER1 Dbl.round64 (finite (List.replicate 100 3))).mserValue
          = Dbl.fin q) ∧
    ((Rounded.calculateMSERm Dbl.round64 (finite (List.replicate 100 3)) 5).converged = true ∧
      (Rounded.calculateMSERm Dbl.round64 (finite (List.replicate 100 3)) 5).reason
        = Reason.ok ∧
      ∃ q : ℚ, 0 ≤ q ∧
        (Rounded.calculateMSERm Dbl.round64 (finite (List.replicate 100 3)) 5).mserValue
          = Dbl.fin q) :=
  have hvalid : validateData (finite (List.replicate 100 3)) 10 = true := by decide
  have hvalidm : validateData (finite (List.replicate 100 3)) (5 * 2 % sizeModulus) = true := by
    decide
  have hten : ¬ (Rounded.createBatchMeans Dbl.round64 (finite (List.replicate 100 3)) 5).length
      < 10 := by decide
  have hsmall : ∀ x ∈ finite (List.replicate 100 3), ∃ r : ℚ, x = Dbl.fin r ∧ |r| ≤ 2 ^ 400 := by
    intro x hx
    simp only [finite, List.map_replicate] at hx
    refine ⟨3, List.eq_of_mem_replicate hx, ?_⟩
    rw [abs_of_nonneg (by norm_num)]
    calc (3 : ℚ) ≤ 2 ^ 2 := by norm_num
      _ ≤ 2 ^ 400 := pow_le_pow_right₀ (by norm_num) (by norm_num)
  have hlen : (finite (List.replicate 100 3)).length < 2 ^ 32 := by decide
  have h := C22_success_path (finite (List.replicate 100 3)) 5
  have h1 := (h.1.2 hvalid).2.2.2.2 hsmall hlen
  have hm := (h.2.2 hvalidm hten).2.2.2.2 hsmall hlen
  ⟨⟨hvalid, hvalidm, hten, hsmall, hlen⟩,
    ⟨h1, ((h.1.2 hvalid).2.2.1 h1).1, ((h.1.2 hvalid).2.2.1 h1).2⟩,
    ⟨hm, ((h.2.2 hvalidm hten).2.2.1 hm).1, ((h.2.2 hvalidm hten).2.2.1 hm).2⟩⟩

/-! ## The two embeddings -/

theorem Dbl.rounded_fin (x : Dbl) : x.rounded Dbl.fin = x := by
  cases x <;> rfl

/-- With the rounding `Dbl.fin`, which rounds nothing, the sum of a range is the exact one. -/
theorem sumRange_of_exact (data : TimeSeriesData) (s e : Nat) :
    Rounded.sumRange Dbl.fin data s e = sumRange data s e := by
  simp only [Rounded.sumRange, sumRange, Dbl.rounded_fin]

theorem calculateMean_of_exact (data : TimeSeriesData) (s e : Nat) :
    Rounded.calculateMean Dbl.fin data s e = calculateMean data s e := by
  simp only [Rounded.calculateMean, calculateMean, Dbl.rounded_fin, sumRange_of_exact,
    Dbl.ofNat]

theorem sumSquaredDeviations_of_exact (data : TimeSeriesData) (mean : Dbl) (s e : Nat) :
    Rounded.sumSquaredDeviations Dbl.fin data mean s e = sumSquaredDeviations data mean s e := by
  simp only [Rounded.sumSquaredDeviations, sumSquaredDeviations, Dbl.rounded_fin]

/-- With the rounding `Dbl.fin` the value of a candidate is the one of the exact embedding. -/
theorem calculateMSERValue_of_exact (data : TimeSeriesData) (k : Nat) :
    Rounded.calculateMSERValue Dbl.fin data k = calculateMSERValue data k := by
  simp only [Rounded.calculateMSERValue, calculateMSERValue, Dbl.rounded_fin,
    calculateMean_of_exact, sumSquaredDeviations_of_exact, Dbl.ofNat]

theorem searchStep_of_exact (data : TimeSeriesData) :
    Rounded.searchStep Dbl.fin data = searchStep data := by
  funext st k
  simp only [Rounded.searchStep, searchStep, calculateMSERValue_of_exact]

theorem findOptimalTruncationPoint_of_exact (data : TimeSeriesData) :
    Rounded.findOptimalTruncationPoint Dbl.fin data = findOptimalTruncationPoint data := by
  simp only [Rounded.findOptimalTruncationPoint, findOptimalTruncationPoint,
    searchStep_of_exact]

theorem createBatchMeans_of_exact (data : TimeSeriesData) (B : Nat) :
    Rounded.createBatchMeans Dbl.fin data B = createBatchMeans data B := by
  simp only [Rounded.createBatchMeans, createBatchMeans, Dbl.rounded_fin,
    sumRange_of_exact, Dbl.ofNat]

/-- With the rounding `Dbl.fin` the estimator is the one of the exact embedding. -/
theorem calculateMSER1_of_exact (data : TimeSeriesData) :
    Rounded.calculateMSER1 Dbl.fin data = calculateMSER1 data := by
  simp only [Rounded.calculateMSER1, calculateMSER1, findOptimalTruncationPoint_of_exact]

theorem calculateMSERm_of_exact (data : TimeSeriesData) (B : Nat) :
    Rounded.calculateMSERm Dbl.fin data B = calculateMSERm data B := by
  simp only [Rounded.calculateMSERm, calculateMSERm, findOptimalTruncationPoint_of_exact,
    createBatchMeans_of_exact]

/-! ## The standard error of `0, 3, 6` in binary64 -/

/-- An integer of at most 53 bits is a `double`. -/
theorem Dbl.round64_small (j : ℕ) (hj : j ≤ 2 ^ 53) : Dbl.round64 (j : ℚ) = Dbl.fin (j : ℚ) := by
  have h := Dbl.round64_exact j 0 hj (by norm_num)
    (by
      rw [zpow_zero, mul_one]
      calc (j : ℚ) ≤ ((2 ^ 53 : ℕ) : ℚ) := Nat.cast_le.mpr hj
        _ = 2 ^ (53 : ℤ) := by norm_num
        _ < 2 ^ 1024 := Dbl.two_zpow_lt 53 (by norm_num))
  rwa [zpow_zero, mul_one] at h

theorem three_not_square (s : ℚ) : s * s ≠ 3 := by
  intro h
  have h3 : IsSquare (3 : ℚ) := ⟨s, h.symm⟩
  rw [Rat.isSquare_iff] at h3
  have h4 : IsSquare (3 : ℤ) := h3.1
  obtain ⟨z, hz⟩ := h4
  have h1 : -2 < z := by nlinarith
  have h2 : z < 2 := by nlinarith
  interval_cases z <;> omega

/-- In binary64 the statistics of the series `0, 3, 6`: the mean is 3, the variance is 9, and the
standard error is the double nearest to the square root of `variance / n = 3`, a finite value
whose square is not 3. -/
theorem standardError_example :
    (Rounded.calculateStatistics Dbl.round64 (finite [0, 3, 6]) 0 3).mean = Dbl.fin 3 ∧
    (Rounded.calculateStatistics Dbl.round64 (finite [0, 3, 6]) 0 3).variance = Dbl.fin 9 ∧
    (Rounded.calculateStatistics Dbl.round64 (finite [0, 3, 6]) 0 3).standardError
      = Dbl.round64 (Dbl.rootApprox 3) ∧
    ∃ s : ℚ, (Rounded.calculateStatistics Dbl.round64 (finite [0, 3, 6]) 0 3).standardError
        = Dbl.fin s ∧ s * s ≠ 3 := by
  have r2 : Dbl.round64 2 = Dbl.fin 2 := by
    simpa using Dbl.round64_small 2 (by norm_num)
  have r3 : Dbl.round64 3 = Dbl.fin 3 := by
    simpa using Dbl.round64_small 3 (by norm_num)
  have r9 : Dbl.round64 9 = Dbl.fin 9 := by
    simpa using Dbl.round64_small 9 (by norm_num)
  have r18 : Dbl.round64 18 = Dbl.fin 18 := by
    simpa using Dbl.round64_small 18 (by norm_num)
  have rm3 : Dbl.round64 (-3) = Dbl.fin (-3) := by
    rw [Dbl.round64_neg, r3]
    rfl
  have hstats : Rounded.calculateStatistics Dbl.round64 (finite [0, 3, 6]) 0 3
      = ⟨Dbl.fin 3, Dbl.fin 9, Dbl.round64 (Dbl.rootApprox 3), 3⟩ := by
    rw [Rounded.calculateStatistics_many _ _ 0 3 (by decide) (by decide)]
    norm_num [roundedSum, roundedSumOfSquares, segment, finite, Dbl.add, Dbl.sub, Dbl.neg,
      Dbl.mul, Dbl.div, Dbl.rounded, Dbl.zero, Dbl.sqrt_fin,
      Dbl.round64_zero, r2, r3, r9, r18, rm3]
  rw [hstats]
  refine ⟨rfl, rfl, rfl, ?_⟩
  obtain ⟨hsq, _⟩ := Dbl.rootApprox_spec 3 (by norm_num)
  have hnn := Dbl.rootApprox_nonneg 3
  have hle : |Dbl.rootApprox 3| ≤ ((2 : ℕ) : ℚ) * 2 ^ (0 : ℤ) := by
    rw [abs_of_nonneg hnn, zpow_zero, mul_one]
    norm_num
    nlinarith
  obtain ⟨s, hs, _⟩ := Dbl.round64_le _ 2 0 (by norm_num) (by norm_num)
    (by
      rw [zpow_zero, mul_one]
      calc ((2 : ℕ) : ℚ) = 2 ^ (1 : ℤ) := by norm_num
        _ < 2 ^ 1024 := Dbl.two_zpow_lt 1 (by norm_num)) hle
  exact ⟨s, hs, three_not_square s⟩

/-! ## Overflow of the batch means -/

theorem segment_replicate_range (n a b : Nat) (x : Dbl) (h : b ≤ n) :
    segment (List.replicate n x) a b = List.replicate (b - a) x := by
  simp only [segment, List.drop_replicate, List.take_replicate]
  congr 1
  omega

/-- In binary64 the batch means of samples equal to a value whose double overflows are `+∞`. -/
theorem Rounded.createBatchMeans_overflow (H : ℚ) (h1 : Dbl.round64 H = Dbl.fin H)
    (h2 : Dbl.round64 (H + H) = Dbl.pinf) (m c : Nat) (hc : c + 2 < 2 ^ 64) :
    Rounded.createBatchMeans Dbl.round64 (List.replicate ((c + 2) * m) (Dbl.fin H)) (c + 2)
      = List.replicate m Dbl.pinf := by
  unfold Rounded.createBatchMeans
  rw [if_neg (by omega), List.length_replicate, Nat.mul_div_cancel_left m (by omega)]
  apply List.eq_replicate_iff.mpr
  refine ⟨by simp, ?_⟩
  intro x hx
  rw [List.mem_map] at hx
  obtain ⟨i, hi, rfl⟩ := hx
  rw [List.mem_range] at hi
  have hle : i * (c + 2) + (c + 2) ≤ (c + 2) * m := by
    calc i * (c + 2) + (c + 2) = (c + 2) * (i + 1) := by ring
      _ ≤ (c + 2) * m := Nat.mul_le_mul_left _ hi
  obtain ⟨r, hr, hcnt⟩ := Dbl.round64_natCast (c + 2) (by omega) hc
  simp only
  rw [Rounded.sumRange_eq Dbl.round64 _ _ _ (by rw [List.length_replicate]; exact hle),
    segment_replicate_range _ _ _ _ hle, Nat.add_sub_cancel_left,
    roundedSum_overflow H h1 h2 c, hcnt]
  simp [Dbl.div, Dbl.signedInf, (by linarith : (0 : ℚ) ≤ r), Dbl.rounded]

theorem roundedSum_replicate_pinf (c : Nat) :
    roundedSum Dbl.round64 (List.replicate (c + 1) Dbl.pinf) = Dbl.pinf := by
  unfold roundedSum
  rw [List.replicate_succ, List.foldl_cons]
  have e : (Dbl.zero.add Dbl.pinf).rounded Dbl.round64 = Dbl.pinf := rfl
  rw [e]
  generalize c = d
  induction d with
  | zero => rfl
  | succ d ih =>
    rw [List.replicate_succ, List.foldl_cons]
    exact ih

theorem roundedSumOfSquares_replicate_pinf (c : Nat) :
    roundedSumOfSquares Dbl.round64 (List.replicate (c + 1) Dbl.pinf) Dbl.pinf = Dbl.nan := by
  have hstep : ∀ acc : Dbl,
      (acc.add ((((Dbl.pinf.sub Dbl.pinf).rounded Dbl.round64).mul
        ((Dbl.pinf.sub Dbl.pinf).rounded Dbl.round64)).rounded Dbl.round64)).rounded
          Dbl.round64 = Dbl.nan := by
    intro acc
    have e : (((Dbl.pinf.sub Dbl.pinf).rounded Dbl.round64).mul
        ((Dbl.pinf.sub Dbl.pinf).rounded Dbl.round64)).rounded Dbl.round64 = Dbl.nan := rfl
    rw [e, Dbl.add_nan]
    rfl
  have hgen : ∀ (c : Nat) (acc : Dbl),
      (List.replicate (c + 1) Dbl.pinf).foldl (fun sum x =>
        (sum.add ((((x.sub Dbl.pinf).rounded Dbl.round64).mul
          ((x.sub Dbl.pinf).rounded Dbl.round64)).rounded Dbl.round64)).rounded Dbl.round64) acc
        = Dbl.nan := by
    intro c
    induction c with
    | zero =>
      intro acc
      exact hstep acc
    | succ c ih =>
      intro acc
      rw [List.replicate_succ, List.foldl_cons]
      exact ih _
  exact hgen c Dbl.zero

/-- In binary64 every candidate of the search on a series of fewer than `2 ^ 32` values `+∞` has
the value NaN: the mean is `+∞` and the deviations `∞ - ∞` are NaN. -/
theorem Rounded.calculateMSERValue_replicate_pinf (n k : Nat) (hn : n < 2 ^ 32)
    (hk : k < n / 2) :
    Rounded.calculateMSERValue Dbl.round64 (List.replicate n Dbl.pinf) k = Dbl.nan := by
  have hlen : (List.replicate n Dbl.pinf).length = n := List.length_replicate _ _
  rw [(Rounded.calculateMSERValue_of_scanned_rnd Dbl.round64 _ k (by rw [hlen]; exact hk)).2,
    segment_replicate, hlen]
  obtain ⟨c, hc⟩ : ∃ c, n - k = c + 1 := ⟨n - k - 1, by omega⟩
  obtain ⟨r, hr, hcnt⟩ := Dbl.round64_natCast (n - k) (by omega) (by omega)
  have hmean : ((roundedSum Dbl.round64 (List.replicate (n - k) Dbl.pinf)).div
      (Dbl.round64 ((n - k : Nat) : ℚ))).rounded Dbl.round64 = Dbl.pinf := by
    rw [hcnt, hc, roundedSum_replicate_pinf c]
    simp [Dbl.div, Dbl.signedInf, (by linarith : (0 : ℚ) ≤ r), Dbl.rounded]
  rw [hmean, hc, roundedSumOfSquares_replicate_pinf c, Dbl.nan_div]
  rfl

/-- The result of `calculateMSERm` in binary64 on fifty samples equal to `2 ^ 1023` with the batch
size 5. -/
theorem Rounded.calculateMSERm_huge :
    Rounded.createBatchMeans Dbl.round64 hugeBatchSeries 5 = List.replicate 10 Dbl.pinf ∧
    Rounded.calculateMSERm Dbl.round64 hugeBatchSeries 5 =
      { truncationPoint := 0
        mserValue := Dbl.pinf
        converged := false
        reason := Reason.notConverged
        totalSamples := 50
        batchCount := 10
        variant := MSERVariant.MSER_5 } := by
  have hbm : Rounded.createBatchMeans Dbl.round64 hugeBatchSeries 5
      = List.replicate 10 Dbl.pinf :=
    Rounded.createBatchMeans_overflow (2 ^ 1023) Dbl.round64_two_pow_1023
      Dbl.round64_two_pow_1024 10 3 (by norm_num)
  refine ⟨hbm, ?_⟩
  have hnone : ¬ ∃ k, k < (List.replicate 10 Dbl.pinf).length / 2 ∧
      (Rounded.calculateMSERValue Dbl.round64 (List.replicate 10 Dbl.pinf) k).lt Dbl.pinf
        = true := by
    rintro ⟨k, hk, hlt⟩
    have hk' : k < 10 / 2 := hk
    rw [Rounded.calculateMSERValue_replicate_pinf 10 k (by norm_num) hk'] at hlt
    exact Bool.noConfusion hlt
  have hres := (Rounded.findOptimalTruncationPoint_spec Dbl.round64
    (List.replicate 10 Dbl.pinf) (by decide)).2.2 hnone
  rw [Rounded.calculateMSERm_of_valid_rnd Dbl.round64 hugeBatchSeries 5 (by decide) (by decide),
    hbm, hres]
  rfl

/-- In binary64, on fewer than `2 ^ 32` finite samples of magnitude at most `2 ^ 400`, the search
of `calculateMSER1` and that of `calculateMSERm` return a value below `+∞`. -/
theorem Rounded.search_of_bounded (Y : List ℚ) (B : Nat) (hb : ∀ r ∈ Y, |r| ≤ 2 ^ 400)
    (hsmall : Y.length < 2 ^ 32) :
    (10 ≤ Y.length →
      (Rounded.findOptimalTruncationPoint Dbl.round64 (finite Y)).2.lt Dbl.pinf = true) ∧
    (10 ≤ Y.length / B →
      (Rounded.findOptimalTruncationPoint Dbl.round64
        (Rounded.createBatchMeans Dbl.round64 (finite Y) B)).2.lt Dbl.pinf = true) := by
  have hl := length_finite Y
  have hfin : ∀ x ∈ finite Y, ∃ r : ℚ, x = Dbl.fin r ∧ |r| ≤ 2 ^ 400 := by
    intro x hx
    simp only [finite, List.mem_map] at hx
    obtain ⟨r, hr, rfl⟩ := hx
    exact ⟨r, rfl, hb r hr⟩
  constructor
  · intro hn
    exact Rounded.findOptimalTruncationPoint_bounded 400 (by norm_num) (finite Y) hfin
      (by rw [hl]; exact hsmall) (by rw [hl]; omega)
  · intro hmany
    have hlen := Rounded.length_createBatchMeans_rnd Dbl.round64 (finite Y) B
    rw [hl] at hlen
    have hbm := Rounded.createBatchMeans_bounded 400 (by norm_num) (finite Y) B hfin
      (by rw [hl]; exact hsmall)
    have hbmlen : (Rounded.createBatchMeans Dbl.round64 (finite Y) B).length < 2 ^ 32 := by
      rw [hlen]
      exact lt_of_le_of_lt (Nat.div_le_self _ _) hsmall
    exact Rounded.findOptimalTruncationPoint_bounded (400 + 32) (by norm_num) _ hbm hbmlen
      (by rw [hlen]; omega)

/-- C5, as stated, in binary64 at fifty samples equal to `2 ^ 1023`, a finite `double`, and the
batch size 5: the series is neither shorter than `2 * B` nor short of ten batches, yet the reason
that `calculateMSERm` returns is not the success reason: the sums of the batches overflow, every
batch mean is `+∞`, the search finds no value below `+∞`, and the result has `converged = false`
and the did-not-converge reason. -/
theorem C5_overflow :
    (∀ x ∈ hugeBatchSeries, x.isfinite = true) ∧
    (2 * 5 ≤ hugeBatchSeries.length ∧ 10 ≤ hugeBatchSeries.length / 5) ∧
    Rounded.createBatchMeans Dbl.round64 hugeBatchSeries 5 = List.replicate 10 Dbl.pinf ∧
    (Rounded.calculateMSERm Dbl.round64 hugeBatchSeries 5).reason ≠ Reason.ok ∧
    (Rounded.calculateMSERm Dbl.round64 hugeBatchSeries 5).reason = Reason.notConverged ∧
    (Rounded.calculateMSERm Dbl.round64 hugeBatchSeries 5).converged = false ∧
    (Rounded.calculateMSERm Dbl.round64 hugeBatchSeries 5).mserValue = Dbl.pinf := by
  refine ⟨by decide, ⟨by decide, by decide⟩, Rounded.calculateMSERm_huge.1, ?_, ?_, ?_, ?_⟩
  · rw [Rounded.calculateMSERm_huge.2]
    exact fun h => Reason.noConfusion h
  · rw [Rounded.calculateMSERm_huge.2]
  · rw [Rounded.calculateMSERm_huge.2]
  · rw [Rounded.calculateMSERm_huge.2]

/-- C5 as amended: for every series of finite samples, in double arithmetic (whatever the
rounding `rnd` of its operations), `calculateMSER1` reports insufficient-data exactly when
`|data| < 10`; and for every `B` for which `2 * B` does not overflow, `calculateMSERm` reports
insufficient-batch-data exactly when `|data| < 2 * B` and insufficient-batches exactly when
`|data| ≥ 2 * B` and `⌊|data|/B⌋ < 10`.  Each of these failure results has `converged = false`,
`mserValue = 0` and `truncationPoint = 0`.  Otherwise the reason is the success reason when the
`mserValue` that is returned is below `+∞`, and the did-not-converge reason when it is not.  In
binary64 it is the success reason whenever the series has fewer than `2 ^ 32` samples, all of
magnitude at most `2 ^ 400`. -/
theorem C5_reasons (rnd : ℚ → Dbl) (Y : List ℚ) (B : Nat) (hov : 2 * B < 2 ^ 64) :
    ((Rounded.calculateMSER1 rnd (finite Y)).reason = Reason.insufficientData
      ↔ Y.length < 10) ∧
    (Y.length < 10 →
      (Rounded.calculateMSER1 rnd (finite Y)).converged = false ∧
      (Rounded.calculateMSER1 rnd (finite Y)).mserValue = Dbl.fin 0 ∧
      (Rounded.calculateMSER1 rnd (finite Y)).truncationPoint = 0) ∧
    (10 ≤ Y.length →
      ((Rounded.calculateMSER1 rnd (finite Y)).reason = Reason.ok ∨
        (Rounded.calculateMSER1 rnd (finite Y)).reason = Reason.notConverged) ∧
      ((Rounded.calculateMSER1 rnd (finite Y)).reason = Reason.ok
        ↔ (Rounded.calculateMSER1 rnd (finite Y)).mserValue.lt Dbl.pinf = true)) ∧
    ((Rounded.calculateMSERm rnd (finite Y) B).reason = Reason.insufficientBatchData
      ↔ Y.length < 2 * B) ∧
    ((Rounded.calculateMSERm rnd (finite Y) B).reason = Reason.insufficientBatches
      ↔ 2 * B ≤ Y.length ∧ Y.length / B < 10) ∧
    (2 * B ≤ Y.length ∧ 10 ≤ Y.length / B →
      ((Rounded.calculateMSERm rnd (finite Y) B).reason = Reason.ok ∨
        (Rounded.calculateMSERm rnd (finite Y) B).reason = Reason.notConverged) ∧
      ((Rounded.calculateMSERm rnd (finite Y) B).reason = Reason.ok
        ↔ (Rounded.calculateMSERm rnd (finite Y) B).mserValue.lt Dbl.pinf = true)) ∧
    (Y.length < 2 * B ∨ Y.length / B < 10 →
      (Rounded.calculateMSERm rnd (finite Y) B).converged = false ∧
      (Rounded.calculateMSERm rnd (finite Y) B).mserValue = Dbl.fin 0 ∧
      (Rounded.calculateMSERm rnd (finite Y) B).truncationPoint = 0) ∧
    ((∀ r ∈ Y, |r| ≤ 2 ^ 400) → Y.length < 2 ^ 32 →
      (10 ≤ Y.length →
        (Rounded.calculateMSER1 Dbl.round64 (finite Y)).reason = Reason.ok) ∧
      (2 * B ≤ Y.length ∧ 10 ≤ Y.length / B →
        (Rounded.calculateMSERm Dbl.round64 (finite Y) B).reason = Reason.ok)) := by
  obtain ⟨h1, h2, h3, h4, h5, h6, h7⟩ := Rounded.reasons_of_finite rnd Y B hov
  refine ⟨h1, h2, h3, h4, h5, h6, h7, fun hb hsmall => ⟨fun hn => ?_, fun hm => ?_⟩⟩
  · have hlt := (Rounded.search_of_bounded Y B hb hsmall).1 hn
    rw [Rounded.calculateMSER1_of_valid_rnd Dbl.round64 _
      (by rw [validateData_finite]; simpa using hn)]
    exact if_pos hlt
  · have hlt := (Rounded.search_of_bounded Y B hb hsmall).2 hm.2
    have hmod : B * 2 % sizeModulus = 2 * B := by
      rw [Nat.mul_comm, Nat.mod_eq_of_lt (by simpa [sizeModulus] using hov)]
    rw [Rounded.calculateMSERm_of_valid_rnd Dbl.round64 (finite Y) B
      (by rw [validateData_finite, hmod]; simpa using hm.1)
      (by rw [length_finite]; exact hm.2)]
    exact if_pos hlt

/-- C5 as amended, in binary64 at 100 samples equal to 3: with the batch size 5 the reason is the
success reason, and with the batch size 11 the batches are too few. -/
theorem C5_reasons_witness :
    (2 * 5 < 2 ^ 64 ∧ 2 * 11 < 2 ^ 64) ∧
    ((2 * 5 ≤ (List.replicate 100 (3 : ℚ)).length
        ∧ 10 ≤ (List.replicate 100 (3 : ℚ)).length / 5) ∧
      (∀ r ∈ List.replicate 100 (3 : ℚ), |r| ≤ 2 ^ 400) ∧
      (List.replicate 100 (3 : ℚ)).length < 2 ^ 32) ∧
    (Rounded.calculateMSERm Dbl.round64 (finite (List.replicate 100 3)) 5).reason = Reason.ok ∧
    ((Rounded.calculateMSERm Dbl.round64 (finite (List.replicate 100 3)) 5).reason = Reason.ok
      ↔ (Rounded.calculateMSERm Dbl.round64 (finite (List.replicate 100 3)) 5).mserValue.lt
          Dbl.pinf = true) ∧
    ((Rounded.calculateMSER1 Dbl.round64 (finite (List.replicate 100 3))).reason
      = Reason.insufficientData ↔ (List.replicate 100 (3 : ℚ)).length < 10) ∧
    ((Rounded.calculateMSERm Dbl.round64 (finite (List.replicate 100 3)) 11).reason
      = Reason.insufficientBatches
        ↔ 2 * 11 ≤ (List.replicate 100 (3 : ℚ)).length
          ∧ (List.replicate 100 (3 : ℚ)).length / 11 < 10) ∧
    (Rounded.calculateMSERm Dbl.round64 (finite (List.replicate 100 3)) 11).converged = false ∧
    (Rounded.calculateMSERm Dbl.round64 (finite (List.replicate 100 3)) 11).mserValue
      = Dbl.fin 0 ∧
    (Rounded.calculateMSERm Dbl.round64 (finite (List.replicate 100 3)) 11).truncationPoint = 0 :=
  have hsmall : ∀ r ∈ List.replicate 100 (3 : ℚ), |r| ≤ 2 ^ 400 := by
    intro r hr
    rw [List.eq_of_mem_replicate hr, abs_of_nonneg (by norm_num)]
    calc (3 : ℚ) ≤ 2 ^ 2 := by norm_num
      _ ≤ 2 ^ 400 := pow_le_pow_right₀ (by norm_num) (by norm_num)
  have h5 := C5_reasons Dbl.round64 (List.replicate 100 3) 5 (by decide)
  have h11 := C5_reasons Dbl.round64 (List.replicate 100 3) 11 (by decide)
  ⟨⟨by decide, by decide⟩, ⟨⟨by decide, by decide⟩, hsmall, by decide⟩,
    (h5.2.2.2.2.2.2.2 hsmall (by decide)).2 ⟨by decide, by decide⟩,
    (h5.2.2.2.2.2.1 ⟨by decide, by decide⟩).2,
    h5.1, h11.2.2.2.2.1, (h11.2.2.2.2.2.2.1 (Or.inr (by decide))).1,
    (h11.2.2.2.2.2.2.1 (Or.inr (by decide))).2.1, (h11.2.2.2.2.2.2.1 (Or.inr (by decide))).2.2⟩

end mser
